import Mathlib

/-!
# EditorTry: host side of the LBVH build (`src/LBVH.hpp`, `src/LBVH.cpp`)

A shallow embedding of `BVH::buildLBVHDynamic` and of the types it works on.

* A `float` is an `F32`: NaN, the two infinities, or a finite value stored as an
  integer multiple of `2^-149` (every finite binary32 value is one).  The
  comparisons `<`, `<=`, `isnan`, `isinf` are the IEEE ones and are exact.
  Signed zeros are identified.
* Rounded arithmetic (`-`, `+`, `*`) is not fixed by the embedding: the build is
  parametrised by a `FloatOps`, so every theorem quantified over `ops` holds for
  whatever the hardware computes.  `exactOps` is one executable choice, exact on
  finite operands; `ieeeOps` is IEEE 754 binary32 arithmetic, round to nearest
  even, and is the arithmetic of the theorems that depend on rounding.
* OpenGL is a `Device`: whether a context is current, the names handed out by
  `glGenBuffers`, and the contents of the two buffers the host reads back.
  Every OpenGL call the host issues is appended to a trace of `GLCall`s.
* `uint32_t` values are naturals reduced modulo `2^32` where the source
  computes in 32 bits.
-/

namespace EditorTry

/-! ## Scalars and vectors -/

/-- A binary32 value; `fin z` is the finite value `z * 2^-149`. -/
inductive F32 where
  | nan : F32
  | negInf : F32
  | fin (z : Int) : F32
  | posInf : F32
deriving DecidableEq, Repr

namespace F32

/-- The C++ comparison `x < y` on floats (false as soon as one side is NaN). -/
def lt : F32 → F32 → Bool
  | negInf, fin _ => true
  | negInf, posInf => true
  | fin a, fin b => decide (a < b)
  | fin _, posInf => true
  | _, _ => false

/-- The C++ comparison `x <= y` on floats (false as soon as one side is NaN). -/
def le : F32 → F32 → Bool
  | negInf, negInf => true
  | negInf, fin _ => true
  | negInf, posInf => true
  | fin a, fin b => decide (a ≤ b)
  | fin _, posInf => true
  | posInf, posInf => true
  | _, _ => false

/-- The predicate `std::isnan`. -/
def isnan : F32 → Bool
  | nan => true
  | _ => false

/-- The predicate `std::isinf`. -/
def isinf : F32 → Bool
  | negInf => true
  | posInf => true
  | _ => false

/-- Unary minus (exact in IEEE arithmetic). -/
def neg : F32 → F32
  | nan => nan
  | negInf => posInf
  | fin z => fin (-z)
  | posInf => negInf

end F32

/-- The constant `FLT_MAX`, `(2^24 - 1) * 2^104`. -/
def FLT_MAX : F32 := F32.fin (Int.ofNat (16777215 * 2 ^ 253))

/-- The literal `0.0001f` (bit pattern `0x38D1B717`). -/
def eps : F32 := F32.fin (Int.ofNat (13743895 * 2 ^ 112))

/-- The literal `0.001f` (bit pattern `0x3A83126F`). -/
def minScale : F32 := F32.fin (Int.ofNat (8589935 * 2 ^ 116))

/-- The literal `0.5f`. -/
def half : F32 := F32.fin (Int.ofNat (2 ^ 148))

/-- The rounded binary operations of the machine. -/
structure FloatOps where
  sub : F32 → F32 → F32
  add : F32 → F32 → F32
  mul : F32 → F32 → F32

/-- A `glm::vec3`. -/
structure Vec3 where
  x : F32
  y : F32
  z : F32
deriving DecidableEq, Repr

/-- The constructor `glm::vec3(s)`: all three components equal to `s`. -/
def Vec3.splat (s : F32) : Vec3 := ⟨s, s, s⟩

instance : Inhabited Vec3 := ⟨Vec3.splat (F32.fin 0)⟩

/-- The offset `glm::vec3(8.3, 0.0, 8.0)` of line 227, converted to `float`. -/
def vizOffset : Vec3 := ⟨F32.fin (Int.ofNat (8703181 * 2 ^ 129)), F32.fin 0, F32.fin (Int.ofNat (2 ^ 152))⟩

/-- The vector difference `a - b`. -/
def Vec3.sub (ops : FloatOps) (a b : Vec3) : Vec3 :=
  ⟨ops.sub a.x b.x, ops.sub a.y b.y, ops.sub a.z b.z⟩

/-- The vector sum `a + b`. -/
def Vec3.add (ops : FloatOps) (a b : Vec3) : Vec3 :=
  ⟨ops.add a.x b.x, ops.add a.y b.y, ops.add a.z b.z⟩

/-- The product `a * s` of a vector and a scalar. -/
def Vec3.scale (ops : FloatOps) (a : Vec3) (s : F32) : Vec3 :=
  ⟨ops.mul a.x s, ops.mul a.y s, ops.mul a.z s⟩

/-- A `glm::bvec3`. -/
structure BVec3 where
  x : Bool
  y : Bool
  z : Bool
deriving DecidableEq, Repr

namespace glm

/-- Scalar `glm::min(x, y)`, which is `(y < x) ? y : x`. -/
def minF (x y : F32) : F32 := if F32.lt y x then y else x

/-- Scalar `glm::max(x, y)`, which is `(x < y) ? y : x`. -/
def maxF (x y : F32) : F32 := if F32.lt x y then y else x

/-- Componentwise `glm::min` on `vec3`. -/
def min (a b : Vec3) : Vec3 := ⟨minF a.x b.x, minF a.y b.y, minF a.z b.z⟩

/-- Componentwise `glm::max` on `vec3`. -/
def max (a b : Vec3) : Vec3 := ⟨maxF a.x b.x, maxF a.y b.y, maxF a.z b.z⟩

/-- Componentwise `glm::lessThanEqual`. -/
def lessThanEqual (a b : Vec3) : BVec3 := ⟨F32.le a.x b.x, F32.le a.y b.y, F32.le a.z b.z⟩

/-- Componentwise `glm::isnan`. -/
def isnan (a : Vec3) : BVec3 := ⟨a.x.isnan, a.y.isnan, a.z.isnan⟩

/-- Componentwise `glm::isinf`. -/
def isinf (a : Vec3) : BVec3 := ⟨a.x.isinf, a.y.isinf, a.z.isinf⟩

/-- The reduction `glm::all`. -/
def all (b : BVec3) : Bool := b.x && b.y && b.z

/-- The reduction `glm::any`. -/
def any (b : BVec3) : Bool := b.x || b.y || b.z

end glm

/-! ## Data model (`LBVH.hpp`) -/

/-- The struct `AABB`; a default-constructed box is `(FLT_MAX, -FLT_MAX)`. -/
structure AABB where
  min : Vec3 := Vec3.splat FLT_MAX
  max : Vec3 := Vec3.splat FLT_MAX.neg
deriving DecidableEq, Repr

/-- The method `AABB::expand`. -/
def AABB.expand (self : AABB) (point : Vec3) : AABB :=
  { min := glm.min self.min point, max := glm.max self.max point }

/-- The struct `Primitive`. -/
structure Primitive where
  aabb : AABB := {}
  index : Nat := 0
deriving DecidableEq, Repr

instance : Inhabited Primitive := ⟨{}⟩

/-- The struct `LBVHNode`. -/
structure LBVHNode where
  left : Int
  right : Int
  primitiveIdx : Nat
  aabbMinX : F32
  aabbMinY : F32
  aabbMinZ : F32
  aabbMaxX : F32
  aabbMaxY : F32
  aabbMaxZ : F32
deriving DecidableEq, Repr

instance : Inhabited LBVHNode :=
  ⟨⟨0, 0, 0, F32.fin 0, F32.fin 0, F32.fin 0, F32.fin 0, F32.fin 0, F32.fin 0⟩⟩

/-- The struct `MortonCodeElement`. -/
structure MortonCodeElement where
  mortonCode : Nat
  elementIdx : Nat
deriving DecidableEq, Repr

/-- The local struct `Element` of `buildLBVHDynamic` (lines 29-33). -/
structure Element where
  primitiveIdx : Nat := 0
  aabbMinX : F32 := F32.fin 0
  aabbMinY : F32 := F32.fin 0
  aabbMinZ : F32 := F32.fin 0
  aabbMaxX : F32 := F32.fin 0
  aabbMaxY : F32 := F32.fin 0
  aabbMaxZ : F32 := F32.fin 0
deriving DecidableEq, Repr

instance : Inhabited Element := ⟨{}⟩

/-- The data members of class `BVH`. -/
structure BVH where
  primitives : List Primitive := []
  m_bvh : List LBVHNode := []
  mortonCodes : List MortonCodeElement := []
  aabbInstanceVBO : Nat := 0
  numInternalNodes : Nat := 0
deriving DecidableEq, Repr

/-! ## The OpenGL side -/

/-- A buffer binding target. -/
inductive Target where
  | shaderStorage
  | arrayBuffer
deriving DecidableEq, Repr

/-- A buffer usage hint. -/
inductive Usage where
  | staticDraw
  | dynamicCopy
deriving DecidableEq, Repr

/-- The uniforms set by the host. -/
inductive Uniform where
  | sceneMin
  | sceneExtent
  | numElements
  | absolutePointers
deriving DecidableEq, Repr

/-- What a `glBufferData` call uploads (`none` is the `nullptr` allocation). -/
inductive Payload where
  | none
  | elements (data : List Element)
  | morton (data : List MortonCodeElement)
  | vectors (data : List Vec3)
deriving DecidableEq, Repr

/-- The OpenGL calls issued by `buildLBVHDynamic`.  A `glGetUniformLocation`
query is folded into the `glUniform*` call that uses it; log lines are not
calls and are not recorded.  A `memoryBarrier` is the call
`glMemoryBarrier(GL_SHADER_STORAGE_BARRIER_BIT | GL_BUFFER_UPDATE_BARRIER_BIT)`,
the only barrier the build issues. -/
inductive GLCall where
  | genBuffers (name : Nat)
  | bindBuffer (target : Target) (name : Nat)
  | bufferData (target : Target) (bytes : Nat) (data : Payload) (usage : Usage)
  | useProgram (program : Nat)
  | bindBufferBase (index : Nat) (name : Nat)
  | uniform3fv (program : Nat) (u : Uniform) (value : Vec3)
  | uniform1ui (program : Nat) (u : Uniform) (value : Nat)
  | memoryBarrier
  | dispatchCompute (x y z : Nat)
  | finish
  | getBufferSubData (target : Target) (bytes : Nat)
  | getBufferParameteriv (target : Target)
  | deleteBuffers (name : Nat)
  | getError
deriving DecidableEq, Repr

/-- What the host observes of OpenGL during one build. -/
structure Device where
  -- whether glfwGetCurrentContext() is non-null
  hasContext : Bool
  -- the name written by the k-th glGenBuffers call of the build
  genName : Nat → Nat
  -- entry i of the Morton buffer as read back on line 118
  mortonReadback : Nat → MortonCodeElement
  -- entry i of the node buffer as read back on line 197
  nodesReadback : Nat → LBVHNode

/-- How a call of `buildLBVHDynamic` ended; each abort is one `Logger::ERROR` line. -/
inductive Outcome where
  | noTriangles
  | noContext
  | invalidIndices (triangle : Nat)
  | degenerateGlobalAABB
  | completed
deriving DecidableEq, Repr

/-- Everything a call of `buildLBVHDynamic` leaves behind: the object, the
OpenGL calls issued, how the call ended, and the values of its local variables
(empty when the call returned before computing them). -/
structure BuildResult where
  bvh : BVH
  outcome : Outcome
  trace : List GLCall := []
  gpuElements : List Element := []
  globalAABB : AABB := {}
  mortonData : List MortonCodeElement := []
  lbvhNodes : List LBVHNode := []
  instanceData : List Vec3 := []
  validNodeCount : Nat := 0
  degenerateCount : Nat := 0
deriving DecidableEq, Repr

/-! ## 32-bit unsigned arithmetic -/

/-- Conversion to `uint32_t`. -/
def toU32 (n : Nat) : Nat := n % 2 ^ 32

/-- The `uint32_t` sum `a + b`. -/
def addU32 (a b : Nat) : Nat := toU32 (a + b)

/-- The `uint32_t` product `a * b`. -/
def mulU32 (a b : Nat) : Nat := toU32 (a * b)

/-- The `uint32_t` difference `a - b`: the integer difference reduced modulo `2^32`. -/
def subU32 (a b : Nat) : Nat := ((Int.ofNat a - Int.ofNat b) % Int.ofNat (2 ^ 32)).toNat

/-- Line 12: `uint32_t numTris = indices.size() / 3`. -/
def numTrisOf (indices : List Nat) : Nat := toU32 (indices.length / 3)

/-- Line 155: `uint32_t totalNodes = 2 * numTris - 1`. -/
def totalNodesOf (numTris : Nat) : Nat := subU32 (mulU32 2 numTris) 1

/-- Line 108: `uint32_t workGroups = (numTris + 255) / 256`. -/
def workGroupsOf (numTris : Nat) : Nat := addU32 numTris 255 / 256

/-! ## The extractor loop (lines 36-71) -/

/-- The variables written by the extractor loop. -/
structure ExtractState where
  primitives : List Primitive
  gpuElements : List Element
  globalAABB : AABB
deriving DecidableEq, Repr

/-- Lines 53-57: the box of one triangle. -/
def triangleAABB (v0 v1 v2 : Vec3) : AABB :=
  ((({ min := Vec3.splat FLT_MAX, max := Vec3.splat FLT_MAX.neg } : AABB).expand v0).expand v1).expand v2

/-- Lines 60-66: the element uploaded for primitive `i`. -/
def elementOf (i : Nat) (aabb : AABB) : Element :=
  { primitiveIdx := i
    aabbMinX := aabb.min.x, aabbMinY := aabb.min.y, aabbMinZ := aabb.min.z
    aabbMaxX := aabb.max.x, aabbMaxY := aabb.max.y, aabbMaxZ := aabb.max.z }

/-- The loop `for (size_t i = 0; i < numTris; ++i)` of lines 36-71, entered at
index `i` with `k` iterations left.  The second component is the triangle at
which the `return` of line 46 was taken, if it was. -/
def extractLoop (positions : List Vec3) (indices : List Nat) :
    Nat → Nat → ExtractState → ExtractState × Option Nat
  | 0, _, st => (st, none)
  | k + 1, i, st =>
    let idx0 := indices.getD (i * 3) 0
    let idx1 := indices.getD (i * 3 + 1) 0
    let idx2 := indices.getD (i * 3 + 2) 0
    if idx0 ≥ positions.length ∨ idx1 ≥ positions.length ∨ idx2 ≥ positions.length then
      (st, some i)
    else
      let v0 := positions.getD idx0 default
      let v1 := positions.getD idx1 default
      let v2 := positions.getD idx2 default
      let aabb := triangleAABB v0 v1 v2
      extractLoop positions indices k (i + 1)
        { primitives := st.primitives.set i { aabb := aabb, index := i }
          gpuElements := st.gpuElements.set i (elementOf i aabb)
          globalAABB := ((st.globalAABB.expand v0).expand v1).expand v2 }

/-! ## The host-side sort (lines 127-132) -/

/-- The comparator lambda of lines 127-132. -/
def mortonLess (a b : MortonCodeElement) : Bool :=
  if a.mortonCode = b.mortonCode then decide (a.elementIdx < b.elementIdx)
  else decide (a.mortonCode < b.mortonCode)

/-- The library call `std::sort(first, last, comp)`, as an insertion sort that
puts `a` before `b` unless `comp b a`. -/
def stdSort {α : Type} (comp : α → α → Bool) (l : List α) : List α :=
  l.insertionSort (fun a b => comp b a = false)

/-! ## The instance filter (lines 199-244) -/

/-- Line 206: `nodeMin`. -/
def LBVHNode.nodeMin (node : LBVHNode) : Vec3 := ⟨node.aabbMinX, node.aabbMinY, node.aabbMinZ⟩

/-- Line 207: `nodeMax`. -/
def LBVHNode.nodeMax (node : LBVHNode) : Vec3 := ⟨node.aabbMaxX, node.aabbMaxY, node.aabbMaxZ⟩

/-- The condition of lines 211-213 under which a node is skipped. -/
def skipNode (ops : FloatOps) (node : LBVHNode) : Bool :=
  let scale := Vec3.sub ops node.nodeMax node.nodeMin
  glm.any (glm.lessThanEqual scale (Vec3.splat eps)) ||
    glm.any (glm.isnan node.nodeMin) || glm.any (glm.isnan node.nodeMax) ||
    glm.any (glm.isinf node.nodeMin) || glm.any (glm.isinf node.nodeMax)

/-- Lines 226-227: the centre pushed for a node. -/
def instanceCenter (ops : FloatOps) (node : LBVHNode) : Vec3 :=
  Vec3.add ops (Vec3.scale ops (Vec3.add ops node.nodeMin node.nodeMax) half) vizOffset

/-- Lines 208 and 229: the scale pushed for a node. -/
def instanceScale (ops : FloatOps) (node : LBVHNode) : Vec3 :=
  glm.max (Vec3.sub ops node.nodeMax node.nodeMin) (Vec3.splat minScale)

/-- The variables written by the filter loop. -/
structure FilterState where
  instanceData : List Vec3 := []
  validNodeCount : Nat := 0
  degenerateCount : Nat := 0
deriving DecidableEq, Repr

/-- The loop `for (uint32_t i = numTris - 1; i < totalNodes; ++i)` of lines
203-244, entered at index `i` with `k` iterations left. -/
def filterLoop (ops : FloatOps) (lbvhNodes : List LBVHNode) :
    Nat → Nat → FilterState → FilterState
  | 0, _, st => st
  | k + 1, i, st =>
    let node := lbvhNodes.getD i default
    if skipNode ops node then
      filterLoop ops lbvhNodes k (i + 1) { st with degenerateCount := st.degenerateCount + 1 }
    else
      filterLoop ops lbvhNodes k (i + 1)
        { st with
          instanceData := st.instanceData ++ [instanceCenter ops node, instanceScale ops node]
          validNodeCount := st.validNodeCount + 1 }

/-! ## `BVH::buildLBVHDynamic` -/

/-- The barrier, dispatch, barrier, `glFinish` sequence of lines 110-113,
173-176 and 188-191. -/
def dispatchBlock (workGroups : Nat) : List GLCall :=
  [.memoryBarrier, .dispatchCompute workGroups 1 1, .memoryBarrier, .finish]

/-- Lines 253-298: replacing the instance buffer.  Returns the new value of
`aabbInstanceVBO` and the calls issued. -/
def replaceInstanceVBO (dev : Device) (oldVBO : Nat) (validNodeCount : Nat)
    (instanceData : List Vec3) : Nat × List GLCall :=
  let dropOld : List GLCall := if oldVBO ≠ 0 then [.deleteBuffers oldVBO] else []
  if validNodeCount > 0 then
    let vbo := dev.genName 4
    (vbo, dropOld ++
      [.genBuffers vbo, .bindBuffer .arrayBuffer vbo,
       .bufferData .arrayBuffer (instanceData.length * 12) (.vectors instanceData) .staticDraw,
       .getBufferParameteriv .arrayBuffer, .bindBuffer .arrayBuffer 0])
  else
    (0, dropOld)

/-- Lines 88-118: the OpenGL calls of the Morton stage, up to the read-back. -/
def mortonStageCalls (dev : Device) (numTris : Nat) (gpuElements : List Element)
    (sceneMin sceneExtent : Vec3) (mortonShader : Nat) : List GLCall :=
  [.genBuffers (dev.genName 0), .genBuffers (dev.genName 1),
   .bindBuffer .shaderStorage (dev.genName 0),
   .bufferData .shaderStorage (numTris * 28) (.elements gpuElements) .staticDraw,
   .bindBuffer .shaderStorage (dev.genName 1),
   .bufferData .shaderStorage (numTris * 8) .none .dynamicCopy,
   .useProgram mortonShader,
   .bindBufferBase 0 (dev.genName 0), .bindBufferBase 1 (dev.genName 1),
   .uniform3fv mortonShader .sceneMin sceneMin,
   .uniform3fv mortonShader .sceneExtent sceneExtent,
   .uniform1ui mortonShader .numElements numTris] ++
  dispatchBlock (workGroupsOf numTris) ++
  [.bindBuffer .shaderStorage (dev.genName 1), .getBufferSubData .shaderStorage (numTris * 8)]

/-- Lines 136-176: the OpenGL calls of the hierarchy stage. -/
def hierarchyStageCalls (dev : Device) (numTris : Nat) (mortonData : List MortonCodeElement)
    (hierarchyShader : Nat) : List GLCall :=
  [.bindBuffer .shaderStorage (dev.genName 1),
   .bufferData .shaderStorage (numTris * 8) (.morton mortonData) .staticDraw,
   .genBuffers (dev.genName 2), .genBuffers (dev.genName 3),
   .bindBuffer .shaderStorage (dev.genName 2),
   .bufferData .shaderStorage (totalNodesOf numTris * 36) .none .dynamicCopy,
   .bindBuffer .shaderStorage (dev.genName 3),
   .bufferData .shaderStorage (totalNodesOf numTris * 8) .none .dynamicCopy,
   .useProgram hierarchyShader,
   .bindBufferBase 0 (dev.genName 1), .bindBufferBase 1 (dev.genName 0),
   .bindBufferBase 2 (dev.genName 2), .bindBufferBase 3 (dev.genName 3),
   .uniform1ui hierarchyShader .numElements numTris,
   .uniform1ui hierarchyShader .absolutePointers 1] ++
  dispatchBlock (workGroupsOf numTris)

/-- Lines 180-197: the OpenGL calls of the box stage, up to the read-back. -/
def aabbStageCalls (dev : Device) (numTris : Nat) (aabbShader : Nat) : List GLCall :=
  [.useProgram aabbShader,
   .bindBufferBase 0 (dev.genName 2), .bindBufferBase 1 (dev.genName 3),
   .uniform1ui aabbShader .numElements numTris,
   .uniform1ui aabbShader .absolutePointers 1] ++
  dispatchBlock (workGroupsOf numTris) ++
  [.bindBuffer .shaderStorage (dev.genName 2),
   .getBufferSubData .shaderStorage (totalNodesOf numTris * 36)]

/-- Lines 300-306: releasing the four transient buffers. -/
def cleanupCalls (dev : Device) : List GLCall :=
  [.deleteBuffers (dev.genName 0), .deleteBuffers (dev.genName 1), .deleteBuffers (dev.genName 2),
   .deleteBuffers (dev.genName 3), .getError]

/-- Lines 116-132: the Morton buffer read back into `mortonData` and sorted. -/
def sortedMortonData (dev : Device) (numTris : Nat) : List MortonCodeElement :=
  stdSort mortonLess ((List.range numTris).map dev.mortonReadback)

/-- Lines 195-197: the node buffer read back into `lbvhNodes`. -/
def readNodes (dev : Device) (numTris : Nat) : List LBVHNode :=
  (List.range (totalNodesOf numTris)).map dev.nodesReadback

/-- Lines 199-244: the filter loop run from `numTris - 1` up to `totalNodes`. -/
def filterNodes (ops : FloatOps) (numTris : Nat) (lbvhNodes : List LBVHNode) : FilterState :=
  filterLoop ops lbvhNodes (totalNodesOf numTris - subU32 numTris 1) (subU32 numTris 1) {}

/-- Lines 88-315: the part of `buildLBVHDynamic` after validation. -/
def deviceStages (ops : FloatOps) (dev : Device) (self : BVH) (numTris : Nat)
    (st : ExtractState) (extent : Vec3)
    (mortonShader hierarchyShader aabbShader : Nat) : BuildResult :=
  let sceneExtent := glm.max extent (Vec3.splat eps)
  let mortonData := sortedMortonData dev numTris
  let lbvhNodes := readNodes dev numTris
  let fs := filterNodes ops numTris lbvhNodes
  let vbo := replaceInstanceVBO dev self.aabbInstanceVBO fs.validNodeCount fs.instanceData
  { bvh := { self with aabbInstanceVBO := vbo.1, numInternalNodes := fs.validNodeCount }
    outcome := .completed
    trace :=
      mortonStageCalls dev numTris st.gpuElements st.globalAABB.min sceneExtent mortonShader ++
      hierarchyStageCalls dev numTris mortonData hierarchyShader ++
      aabbStageCalls dev numTris aabbShader ++ vbo.2 ++ cleanupCalls dev
    gpuElements := st.gpuElements
    globalAABB := st.globalAABB
    mortonData := mortonData
    lbvhNodes := lbvhNodes
    instanceData := fs.instanceData
    validNodeCount := fs.validNodeCount
    degenerateCount := fs.degenerateCount }

/-- Lines 41-47 and 73-315: what `buildLBVHDynamic` does once the extractor
loop has either returned from line 46 at a triangle or run to its end. -/
def afterLoop (ops : FloatOps) (dev : Device) (self : BVH) (numTris : Nat)
    (mortonShader hierarchyShader aabbShader : Nat) :
    ExtractState × Option Nat → BuildResult
  | (st, some i) =>
    { bvh := { self with primitives := st.primitives }
      outcome := .invalidIndices i
      gpuElements := st.gpuElements
      globalAABB := st.globalAABB }
  | (st, none) =>
    let extent := Vec3.sub ops st.globalAABB.max st.globalAABB.min
    if glm.all (glm.lessThanEqual extent (Vec3.splat eps)) then
      { bvh := { self with primitives := st.primitives }
        outcome := .degenerateGlobalAABB
        gpuElements := st.gpuElements
        globalAABB := st.globalAABB }
    else
      deviceStages ops dev { self with primitives := st.primitives } numTris st extent
        mortonShader hierarchyShader aabbShader

/-- The state of the object once lines 8-10 have cleared its three vectors. -/
def BVH.cleared (self : BVH) : BVH :=
  { self with m_bvh := [], primitives := [], mortonCodes := [] }

/-- Lines 26-34: the variables of the extractor loop before its first iteration. -/
def initialExtractState (numTris : Nat) : ExtractState :=
  { primitives := List.replicate numTris default
    gpuElements := List.replicate numTris default
    globalAABB := {} }

set_option linter.unusedVariables false in
/-- The method `BVH::buildLBVHDynamic` (`LBVH.cpp`, lines 5-315).  Shaders are
given by their program ids; `sortShader` is not used by the source either. -/
def BVH.buildLBVHDynamic (ops : FloatOps) (dev : Device) (self : BVH)
    (positions : List Vec3) (indices : List Nat)
    (mortonShader sortShader hierarchyShader aabbShader : Nat) : BuildResult :=
  if numTrisOf indices = 0 then
    { bvh := self.cleared, outcome := .noTriangles }
  else if dev.hasContext = false then
    { bvh := self.cleared, outcome := .noContext }
  else
    afterLoop ops dev self.cleared (numTrisOf indices) mortonShader hierarchyShader aabbShader
      (extractLoop positions indices (numTrisOf indices) 0
        (initialExtractState (numTrisOf indices)))

/-! ## One executable arithmetic -/

/-- Subtraction that is exact on finite operands and follows IEEE on the rest. -/
def exactSub : F32 → F32 → F32
  | .nan, _ => .nan
  | _, .nan => .nan
  | .fin a, .fin b => .fin (a - b)
  | .fin _, .posInf => .negInf
  | .fin _, .negInf => .posInf
  | .posInf, .posInf => .nan
  | .posInf, _ => .posInf
  | .negInf, .negInf => .nan
  | .negInf, _ => .negInf

/-- Addition that is exact on finite operands and follows IEEE on the rest. -/
def exactAdd (a b : F32) : F32 := exactSub a b.neg

/-- Multiplication, rounded towards minus infinity on finite operands; a
non-finite operand gives NaN (the build only multiplies by `0.5f`). -/
def exactMul : F32 → F32 → F32
  | .fin a, .fin b => .fin (a * b / Int.ofNat (2 ^ 149))
  | _, _ => .nan

/-- The arithmetic used to run the build on concrete inputs. -/
def exactOps : FloatOps := ⟨exactSub, exactAdd, exactMul⟩

/-! ## Closed forms and predicates used in the statements -/

/-- The check of line 41 passes for triangle `j`. -/
def TriangleInRange (positions : List Vec3) (indices : List Nat) (j : Nat) : Prop :=
  indices.getD (j * 3) 0 < positions.length ∧
  indices.getD (j * 3 + 1) 0 < positions.length ∧
  indices.getD (j * 3 + 2) 0 < positions.length

instance (positions : List Vec3) (indices : List Nat) (j : Nat) :
    Decidable (TriangleInRange positions indices j) := by
  unfold TriangleInRange
  infer_instance

/-- Lines 37-39 and 49-51: corner `c` (0, 1 or 2) of triangle `j`. -/
def corner (positions : List Vec3) (indices : List Nat) (j c : Nat) : Vec3 :=
  positions.getD (indices.getD (j * 3 + c) 0) default

/-- Lines 49-57: the box computed for triangle `j`. -/
def triangleBox (positions : List Vec3) (indices : List Nat) (j : Nat) : AABB :=
  triangleAABB (corner positions indices j 0) (corner positions indices j 1)
    (corner positions indices j 2)

/-- Lines 68-70: the global box after the three corners of triangle `j`. -/
def expandTriangle (positions : List Vec3) (indices : List Nat) (g : AABB) (j : Nat) : AABB :=
  ((g.expand (corner positions indices j 0)).expand (corner positions indices j 1)).expand
    (corner positions indices j 2)

/-- The variables after one passing iteration of the extractor loop. -/
def extractStep (positions : List Vec3) (indices : List Nat) (i : Nat) (st : ExtractState) :
    ExtractState :=
  { primitives := st.primitives.set i { aabb := triangleBox positions indices i, index := i }
    gpuElements := st.gpuElements.set i (elementOf i (triangleBox positions indices i))
    globalAABB := expandTriangle positions indices st.globalAABB i }

/-- The primitive written for triangle `j` (lines 53-58). -/
def primitiveOf (positions : List Vec3) (indices : List Nat) (j : Nat) : Primitive :=
  { aabb := triangleBox positions indices j, index := j }

/-- The global box accumulated over triangles `0 .. n-1` (lines 26 and 68-70). -/
def globalBox (positions : List Vec3) (indices : List Nat) (n : Nat) : AABB :=
  (List.range n).foldl (expandTriangle positions indices) {}

/-- The state of the loop variables after a full pass over `n` triangles. -/
def extractedState (positions : List Vec3) (indices : List Nat) (n : Nat) : ExtractState :=
  { primitives := (List.range n).map (primitiveOf positions indices)
    gpuElements := (List.range n).map (fun j => elementOf j (triangleBox positions indices j))
    globalAABB := globalBox positions indices n }

/-- Lines 79-80: the extent of a box. -/
def extentOf (ops : FloatOps) (g : AABB) : Vec3 := Vec3.sub ops g.max g.min

/-- A finite binary32 value: `fin z` with magnitude at most `FLT_MAX`. -/
def F32.isFinite : F32 → Bool
  | .fin z =>
    decide (-(Int.ofNat (16777215 * 2 ^ 253)) ≤ z) && decide (z ≤ Int.ofNat (16777215 * 2 ^ 253))
  | _ => false

/-- A vector with three finite components. -/
def Vec3.isFinite (v : Vec3) : Bool := v.x.isFinite && v.y.isFinite && v.z.isFinite

/-- The value `m` is the least of the list in the order of the floats: it occurs
in the list and `m <= x` holds for every entry `x`. -/
def IsLeastOf (m : F32) (l : List F32) : Prop := m ∈ l ∧ ∀ x ∈ l, F32.le m x = true

/-- The value `m` is the greatest of the list in the order of the floats. -/
def IsGreatestOf (m : F32) (l : List F32) : Prop := m ∈ l ∧ ∀ x ∈ l, F32.le x m = true

instance (m : F32) (l : List F32) : Decidable (IsLeastOf m l) := by
  unfold IsLeastOf
  infer_instance

instance (m : F32) (l : List F32) : Decidable (IsGreatestOf m l) := by
  unfold IsGreatestOf
  infer_instance

/-- A node that is to be drawn: on no axis is the extent `max - min` at most
`0.0001f`, and none of its six bounds is NaN or infinite. -/
def NodeIsValid (ops : FloatOps) (node : LBVHNode) : Prop :=
  F32.le (ops.sub node.aabbMaxX node.aabbMinX) eps = false ∧
  F32.le (ops.sub node.aabbMaxY node.aabbMinY) eps = false ∧
  F32.le (ops.sub node.aabbMaxZ node.aabbMinZ) eps = false ∧
  ∀ c ∈ [node.aabbMinX, node.aabbMinY, node.aabbMinZ,
      node.aabbMaxX, node.aabbMaxY, node.aabbMaxZ], c.isnan = false ∧ c.isinf = false

instance (ops : FloatOps) (node : LBVHNode) : Decidable (NodeIsValid ops node) := by
  unfold NodeIsValid
  infer_instance

/-- The two vectors pushed for a node that is kept (lines 231-232). -/
def instancePair (ops : FloatOps) (node : LBVHNode) : List Vec3 :=
  [instanceCenter ops node, instanceScale ops node]

/-! ## Round-to-nearest-even arithmetic -/

/-- The literal `0.0f`. -/
def F32.zero : F32 := .fin 0

/-- The literal `1.0f`. -/
def F32.one : F32 := .fin (Int.ofNat (2 ^ 149))

/-- The literal `2.0f`. -/
def F32.two : F32 := .fin (Int.ofNat (2 ^ 150))

/-- The number of binary digits of `n`, found in at most `fuel` halvings. -/
def bitLengthAux : Nat → Nat → Nat
  | 0, _ => 0
  | fuel + 1, n => if n = 0 then 0 else bitLengthAux fuel (n / 2) + 1

/-- The number of binary digits of `n` (`n` halvings always suffice). -/
def bitLength (n : Nat) : Nat := bitLengthAux n n

/-- The quotient `p / d` rounded to the nearest natural number, ties to even. -/
def roundToGrid (p d : Nat) : Nat :=
  if d < 2 * (p % d) ∨ (2 * (p % d) = d ∧ (p / d) % 2 = 1) then p / d + 1 else p / d

/-- The magnitude `p / q` (in units of `2^-149`, `q > 0`) rounded to the nearest
binary32 magnitude of unbounded exponent, ties to even: the spacing of the
grid is `2^s` units, with `s = 0` below `2^24` units (subnormals and the first
binade of normals) and 24 significant digits kept above. -/
def roundNearestEven (p q : Nat) : Nat :=
  roundToGrid p (q * 2 ^ (bitLength (p / q) - 24)) * 2 ^ (bitLength (p / q) - 24)

/-- The binary32 value nearest to `± p / q` units: an infinity when the rounded
magnitude exceeds `FLT_MAX`. -/
def F32.ofRatio (negative : Bool) (p q : Nat) : F32 :=
  if 16777215 * 2 ^ 253 < roundNearestEven p q then
    (if negative then .negInf else .posInf)
  else if negative then .fin (-(Int.ofNat (roundNearestEven p q)))
  else .fin (Int.ofNat (roundNearestEven p q))

/-- The binary32 value nearest to `z / q` units. -/
def F32.roundInt (z : Int) (q : Nat) : F32 := F32.ofRatio (decide (z < 0)) z.natAbs q

/-- IEEE 754 binary32 addition, round to nearest even. -/
def ieeeAdd : F32 → F32 → F32
  | .nan, _ => .nan
  | _, .nan => .nan
  | .posInf, .negInf => .nan
  | .negInf, .posInf => .nan
  | .posInf, _ => .posInf
  | _, .posInf => .posInf
  | .negInf, _ => .negInf
  | _, .negInf => .negInf
  | .fin a, .fin b => F32.roundInt (a + b) 1

/-- IEEE 754 binary32 subtraction, round to nearest even. -/
def ieeeSub (x y : F32) : F32 := ieeeAdd x y.neg

/-- The infinity of the sign of `negative`. -/
def F32.signedInf (negative : Bool) : F32 := if negative then .negInf else .posInf

/-- IEEE 754 binary32 multiplication, round to nearest even. -/
def ieeeMul : F32 → F32 → F32
  | .nan, _ => .nan
  | _, .nan => .nan
  | .fin a, .fin b => F32.roundInt (a * b) (2 ^ 149)
  | .fin a, .posInf => if a = 0 then .nan else F32.signedInf (decide (a < 0))
  | .fin a, .negInf => if a = 0 then .nan else F32.signedInf (decide (0 < a))
  | .posInf, .fin b => if b = 0 then .nan else F32.signedInf (decide (b < 0))
  | .negInf, .fin b => if b = 0 then .nan else F32.signedInf (decide (0 < b))
  | .posInf, .posInf => .posInf
  | .posInf, .negInf => .negInf
  | .negInf, .posInf => .negInf
  | .negInf, .negInf => .posInf

/-- IEEE 754 binary32 division, round to nearest even; a zero divisor is taken
as `+0` (the embedding does not keep the sign of a zero). -/
def ieeeDiv : F32 → F32 → F32
  | .nan, _ => .nan
  | _, .nan => .nan
  | .fin a, .fin b =>
    if b = 0 then (if a = 0 then .nan else F32.signedInf (decide (a < 0)))
    else if 0 < b then F32.roundInt (a * Int.ofNat (2 ^ 149)) b.natAbs
    else F32.roundInt (-(a * Int.ofNat (2 ^ 149))) b.natAbs
  | .fin _, _ => .fin 0
  | .posInf, .fin b => F32.signedInf (decide (b < 0))
  | .negInf, .fin b => F32.signedInf (decide (0 ≤ b))
  | _, _ => .nan

/-- The binary32 arithmetic of the host, round to nearest even. -/
def ieeeOps : FloatOps := ⟨ieeeSub, ieeeAdd, ieeeMul⟩

/-- A finite binary32 value: a multiple of `2^-149` of magnitude at most
`FLT_MAX` with at most 24 significant binary digits. -/
def F32.isFloat : F32 → Bool
  | .fin z =>
    decide (z.natAbs % 2 ^ (bitLength z.natAbs - 24) = 0) &&
      decide (z.natAbs ≤ 16777215 * 2 ^ 253)
  | _ => false

/-- A vector of three finite binary32 values. -/
def Vec3.isFloat (v : Vec3) : Bool := v.x.isFloat && v.y.isFloat && v.z.isFloat

/-- The arguments of one call of `BVH::buildLBVHDynamic`, with the OpenGL
device it runs on. -/
structure BuildCall where
  dev : Device
  positions : List Vec3
  indices : List Nat
  mortonShader : Nat
  sortShader : Nat
  hierarchyShader : Nat
  aabbShader : Nat

/-- The object after one call. -/
def BVH.afterBuild (ops : FloatOps) (self : BVH) (c : BuildCall) : BVH :=
  (self.buildLBVHDynamic ops c.dev c.positions c.indices c.mortonShader c.sortShader
    c.hierarchyShader c.aabbShader).bvh

/-- The object after a sequence of calls. -/
def BVH.afterBuilds (ops : FloatOps) (self : BVH) (calls : List BuildCall) : BVH :=
  calls.foldl (BVH.afterBuild ops) self

/-- Init::render, lines 401-423: the box draw is issued when `showLBVH` is set
and `bvh->numInternalNodes > 0`; the result is the buffer bound to
`GL_ARRAY_BUFFER` for the instance attributes and the instance count handed
to `glDrawElementsInstanced`. -/
def lbvhDraw (showLBVH : Bool) (bvh : BVH) : Option (Nat × Nat) :=
  if showLBVH && decide (bvh.numInternalNodes > 0) then
    some (bvh.aabbInstanceVBO, bvh.numInternalNodes)
  else none

/-- Whether a call is a `glDispatchCompute`. -/
def GLCall.isDispatch : GLCall → Bool
  | .dispatchCompute _ _ _ => true
  | _ => false

/-- Whether a call selects a program, dispatches it, synchronises
(`glMemoryBarrier`, `glFinish`) or reads a buffer back. -/
def GLCall.isComputeStep : GLCall → Bool
  | .useProgram _ => true
  | .memoryBarrier => true
  | .dispatchCompute _ _ _ => true
  | .finish => true
  | .getBufferSubData _ _ => true
  | _ => false

/-- The members of `Mesh` (Mesh.hpp, lines 18-22) read by the flattening
loops of `Init`: of every `Vertex` only `position` is read. -/
structure Mesh where
  vertices : List Vec3
  indices : List Nat
deriving DecidableEq, Repr

/-- Init::initialize, lines 57-70: the positions and indices of every mesh with
a non-empty vertex list are appended, mesh after mesh, to `positions` and
`indices`; an index is appended as it is. -/
def flattenInitialize (meshes : List Mesh) : List Vec3 × List Nat :=
  meshes.foldl
    (fun acc mesh =>
      if mesh.vertices.isEmpty then acc
      else (acc.1 ++ mesh.vertices, acc.2 ++ mesh.indices))
    ([], [])

/-- Init::render, lines 282-298: the positions and indices of every mesh are
appended, mesh after mesh; then every position is mapped through the model
matrix (`transform`). -/
def flattenRender (transform : Vec3 → Vec3) (meshes : List Mesh) : List Vec3 × List Nat :=
  let flat := meshes.foldl
    (fun acc mesh => (acc.1 ++ mesh.vertices, acc.2 ++ mesh.indices)) ([], [])
  (flat.1.map transform, flat.2)

/-- None of the three components is NaN. -/
def Vec3.noNaN (v : Vec3) : Prop := glm.any (glm.isnan v) = false

instance (v : Vec3) : Decidable v.noNaN := by
  unfold Vec3.noNaN
  infer_instance

/-- Componentwise `a <= b`, as `glm::all(glm::lessThanEqual(a, b))`. -/
def Vec3.allLe (a b : Vec3) : Prop := glm.all (glm.lessThanEqual a b) = true

instance (a b : Vec3) : Decidable (a.allLe b) := by
  unfold Vec3.allLe
  infer_instance

/-- A sequence of `expand` calls on a box. -/
def AABB.expandAll (self : AABB) (points : List Vec3) : AABB := points.foldl AABB.expand self

/-- Every position shifted by `t`, with the addition of the machine. -/
def translatePositions (ops : FloatOps) (t : Vec3) (positions : List Vec3) : List Vec3 :=
  positions.map (fun p => Vec3.add ops p t)

/-- A box with both bounds shifted by `t`. -/
def AABB.translate (ops : FloatOps) (b : AABB) (t : Vec3) : AABB :=
  { min := Vec3.add ops b.min t, max := Vec3.add ops b.max t }

/-- The shift `x + t` behaves on the coordinates `S` as every IEEE addition
does away from overflow: each `x` in `S` and its shift `x + t` are finite, and
`x <= y` implies `x + t <= y + t`. -/
def ShiftOK (ops : FloatOps) (t : F32) (S : List F32) : Prop :=
  (∀ x ∈ S, x.isFinite = true ∧ (ops.add x t).isFinite = true) ∧
  ∀ x ∈ S, ∀ y ∈ S, F32.le x y = true → F32.le (ops.add x t) (ops.add y t) = true

instance (ops : FloatOps) (t : F32) (S : List F32) : Decidable (ShiftOK ops t S) := by
  unfold ShiftOK
  infer_instance

/-- Each bound of the box is a coordinate of one of the points `P`. -/
def AABB.boundsIn (b : AABB) (P : List Vec3) : Prop :=
  b.min.x ∈ P.map Vec3.x ∧ b.min.y ∈ P.map Vec3.y ∧ b.min.z ∈ P.map Vec3.z ∧
  b.max.x ∈ P.map Vec3.x ∧ b.max.y ∈ P.map Vec3.y ∧ b.max.z ∈ P.map Vec3.z

/-- Modelled from the spec: the Morton stage normalises each coordinate of the
centroid `(min + max) / 2` of a primitive's box to `[0, 1]` by
`(coord - globalMin) / globalExtent`; `globalMin` and `globalExtent` are the
uniforms `sceneMin` and `sceneExtent`, and `div` is the division of the device. -/
def normalizedCentroid (ops : FloatOps) (div : F32 → F32 → F32)
    (lo hi sceneMin sceneExtent : F32) : F32 :=
  div (ops.sub (div (ops.add lo hi) F32.two) sceneMin) sceneExtent

/-! ## Picking (`Init.cpp`, lines 144-196) -/

/-- The function `abs` on a `float`. -/
def F32.abs : F32 → F32
  | .nan => .nan
  | .negInf => .posInf
  | .fin z => .fin (Int.ofNat z.natAbs)
  | .posInf => .posInf

/-- The literal `1e30f` (bit pattern `0x7149F2CA`). -/
def bigInv : F32 := .fin (Int.ofNat (13234890 * 2 ^ 225))

/-- The componentwise product `a * b` of two vectors. -/
def Vec3.mul (ops : FloatOps) (a b : Vec3) : Vec3 :=
  ⟨ops.mul a.x b.x, ops.mul a.y b.y, ops.mul a.z b.z⟩

/-- Lines 185-187: one component of `invDir`,
`(abs(d) > 0.0001f) ? 1.0f / d : 1e30f`. -/
def invDirOf (div : F32 → F32 → F32) (d : F32) : F32 :=
  if F32.lt eps (F32.abs d) then div F32.one d else bigInv

/-- The function `Init::rayAABBIntersectWorld` (lines 183-196); `div` is the
division of the machine. -/
def rayAABBIntersectWorld (ops : FloatOps) (div : F32 → F32 → F32)
    (origin dir boxMin boxMax : Vec3) : Bool :=
  let invDir : Vec3 := ⟨invDirOf div dir.x, invDirOf div dir.y, invDirOf div dir.z⟩
  let t1 := Vec3.mul ops (Vec3.sub ops boxMin origin) invDir
  let t2 := Vec3.mul ops (Vec3.sub ops boxMax origin) invDir
  let tmin := glm.min t1 t2
  let tmax := glm.max t1 t2
  let t_near := glm.maxF (glm.maxF tmin.x tmin.y) tmin.z
  let t_far := glm.minF (glm.minF tmax.x tmax.y) tmax.z
  F32.le t_near t_far && F32.le F32.zero t_far

/-- What `Init::mouseButtonCallback` reads: its arguments, the flags of the
menu and of ImGui, the ray computed on lines 152-160 and the placement and
local bounds of the model. -/
structure ClickInput where
  -- button == GLFW_MOUSE_BUTTON_LEFT
  isLeftButton : Bool
  -- action == GLFW_PRESS
  isPress : Bool
  -- menu->isEditorModeActive()
  editorModeActive : Bool
  -- io.WantCaptureMouse
  wantCaptureMouse : Bool
  -- camera->Position
  rayOrigin : Vec3
  -- the normalised direction of line 159
  worldRay : Vec3
  modelPos : Vec3
  modelScale : Vec3
  localMinBounds : Vec3
  localMaxBounds : Vec3
deriving DecidableEq, Repr

/-- Line 164: `boxMin = menu->localMinBounds * modelScale + modelPos`. -/
def ClickInput.boxMin (ops : FloatOps) (c : ClickInput) : Vec3 :=
  Vec3.add ops (Vec3.mul ops c.localMinBounds c.modelScale) c.modelPos

/-- Line 165: `boxMax = menu->localMaxBounds * modelScale + modelPos`. -/
def ClickInput.boxMax (ops : FloatOps) (c : ClickInput) : Vec3 :=
  Vec3.add ops (Vec3.mul ops c.localMaxBounds c.modelScale) c.modelPos

/-- Line 171: `expandedMin = boxMin - glm::vec3(2.0f)`. -/
def expandedMin (ops : FloatOps) (boxMin : Vec3) : Vec3 :=
  Vec3.sub ops boxMin (Vec3.splat F32.two)

/-- Line 172: `expandedMax = boxMax + glm::vec3(2.0f)`. -/
def expandedMax (ops : FloatOps) (boxMax : Vec3) : Vec3 :=
  Vec3.add ops boxMax (Vec3.splat F32.two)

/-- The function `Init::mouseButtonCallback` (lines 144-181): the argument of
the call `menu->setModelSelected(..)` it makes, or `none` when it returns
without such a call. -/
def mouseButtonCallback (ops : FloatOps) (div : F32 → F32 → F32) (c : ClickInput) :
    Option Bool :=
  if c.isLeftButton && c.isPress && c.editorModeActive then
    if c.wantCaptureMouse then none
    else if rayAABBIntersectWorld ops div c.rayOrigin c.worldRay (c.boxMin ops) (c.boxMax ops) then
      some true
    else if rayAABBIntersectWorld ops div c.rayOrigin c.worldRay
        (expandedMin ops (c.boxMin ops)) (expandedMax ops (c.boxMax ops)) then
      some true
    else some false
  else none
/-- A binary32 value: NaN, an infinity, or a finite value that binary32
represents. -/
def F32.isValue : F32 → Bool
  | .fin z => (F32.fin z).isFloat
  | _ => true

/-- A vector of three binary32 values. -/
def Vec3.isValue (v : Vec3) : Bool := v.x.isValue && v.y.isValue && v.z.isValue

/-- The order `<=` extended by relating NaN to NaN: what survives a `glm::min` or
`glm::max`, which pass a NaN first argument on and drop a NaN second argument. -/
def F32.below (x y : F32) : Bool := (x.isnan && y.isnan) || F32.le x y

/-! ## Concrete inputs on which the build is run -/

/-- A device with a current context; node `i` is read back as the unit cube
shifted by `i` along the x axis, key `i` as `(7 - i, i)`. -/
def unitDevice : Device :=
  { hasContext := true
    genName := fun k => k + 10
    mortonReadback := fun i => ⟨7 - i, i⟩
    nodesReadback := fun i =>
      ⟨0, 0, i, .fin (Int.ofNat (i * 2 ^ 149)), .fin 0, .fin 0,
        .fin (Int.ofNat ((i + 1) * 2 ^ 149)), .fin (Int.ofNat (2 ^ 149)),
        .fin (Int.ofNat (2 ^ 149))⟩ }

/-- The same device without a current OpenGL context. -/
def noContextDevice : Device := { unitDevice with hasContext := false }

/-- The origin. -/
def originPoint : Vec3 := ⟨.fin 0, .fin 0, .fin 0⟩

/-- The point `(1, 0, 0)`. -/
def unitXPoint : Vec3 := ⟨.fin (Int.ofNat (2 ^ 149)), .fin 0, .fin 0⟩

/-- The point `(0, 1, 0)`. -/
def unitYPoint : Vec3 := ⟨.fin 0, .fin (Int.ofNat (2 ^ 149)), .fin 0⟩

/-- Three corners of the unit square. -/
def cornerPositions : List Vec3 := [originPoint, unitXPoint, unitYPoint]

/-- The state a default-constructed `BVH` is in after building one triangle. -/
def afterOneTriangle : BVH :=
  (({} : BVH).buildLBVHDynamic exactOps unitDevice cornerPositions [0, 1, 2] 1 2 3 4).bvh

/-- A tail of `3 * 2^32` indices, all equal to 1. -/
def wrappingTail : List Nat := List.replicate (3 * 2 ^ 32) 1

/-- An index list of `2^32 + 1` triangles: `(0, 0, 0)` followed by `(1, 1, 1)`s. -/
def wrappedIndices : List Nat := 0 :: 0 :: 0 :: wrappingTail

/-- The point `(0.0001f, 0, 0)`. -/
def epsXPoint : Vec3 := ⟨eps, .fin 0, .fin 0⟩

/-- An index list of `2^32` triangles `(0, 0, 0)`. -/
def zeroIndices : List Nat := List.replicate (3 * 2 ^ 32) 0

/-- The point `(+inf, 0, 0)`. -/
def infXPoint : Vec3 := ⟨.posInf, .fin 0, .fin 0⟩

/-- Four positions: three corners of the unit square and the point `(2, 2, 2)`. -/
def farCornerPositions : List Vec3 :=
  [originPoint, unitXPoint, unitYPoint, Vec3.splat F32.two]

/-- An index list of `2^32 + 1` triangles, all in range of four positions:
`(0, 1, 2)` followed by `(3, 3, 3)`s. -/
def farTriangleIndices : List Nat := 0 :: 1 :: 2 :: List.replicate (3 * 2 ^ 32) 3

/-- An index list of `2^31 + 1` triangles: `(0, 1, 2)` followed by `(0, 0, 0)`s. -/
def overflowIndices : List Nat := 0 :: 1 :: 2 :: List.replicate (3 * 2 ^ 31) 0

/-- The box spanned by the three corners of the unit square. -/
def unitSquareBox : AABB :=
  { min := ⟨.fin 0, .fin 0, .fin 0⟩
    max := ⟨.fin (Int.ofNat (2 ^ 149)), .fin (Int.ofNat (2 ^ 149)), .fin 0⟩ }

/-- Two calls: a build of one triangle, then a call without triangles. -/
def twoCalls : List BuildCall :=
  [⟨unitDevice, cornerPositions, [0, 1, 2], 1, 2, 3, 4⟩, ⟨unitDevice, cornerPositions, [], 1, 2, 3, 4⟩]

/-- An index list of `k + 1` triangles: `(0, 1, 2)` followed by `k` times `(0, 0, 0)`. -/
def paddedIndices (k : Nat) : List Nat := 0 :: 1 :: 2 :: List.replicate (3 * k) 0

/-- An index list of `2^32 - 255` triangles. -/
def manyIndices : List Nat := paddedIndices (2 ^ 32 - 256)

/-- A mesh of one triangle in the plane `z = 0`. -/
def groundMesh : Mesh := ⟨cornerPositions, [0, 1, 2]⟩

/-- The point `(0, 0, 1)`. -/
def unitZPoint : Vec3 := ⟨.fin 0, .fin 0, .fin (Int.ofNat (2 ^ 149))⟩

/-- A mesh of one triangle in the plane `z = 1`. -/
def raisedMesh : Mesh :=
  ⟨[unitZPoint, ⟨.fin (Int.ofNat (2 ^ 149)), .fin 0, .fin (Int.ofNat (2 ^ 149))⟩,
    ⟨.fin 0, .fin (Int.ofNat (2 ^ 149)), .fin (Int.ofNat (2 ^ 149))⟩], [0, 1, 2]⟩

/-- A model of two meshes. -/
def stackedMeshes : List Mesh := [groundMesh, raisedMesh]

/-- The point all of whose coordinates are NaN. -/
def nanPoint : Vec3 := Vec3.splat .nan

/-- The vector `(2^30, 2^30, 2^30)`. -/
def farShift : Vec3 := Vec3.splat (.fin (Int.ofNat (2 ^ 179)))

/-- The vector `(1, 1, 1)`. -/
def unitShift : Vec3 := Vec3.splat (.fin (Int.ofNat (2 ^ 149)))

/-- The vector `(FLT_MAX, 0, 0)`. -/
def farXShift : Vec3 := ⟨FLT_MAX, .fin 0, .fin 0⟩

/-- The unit triangle moved to `x = FLT_MAX`. -/
def farTriangle : List Vec3 :=
  [⟨FLT_MAX, .fin 0, .fin 0⟩, ⟨FLT_MAX, .fin (Int.ofNat (2 ^ 149)), .fin 0⟩,
   ⟨FLT_MAX, .fin 0, .fin (Int.ofNat (2 ^ 149))⟩]

/-- The point `(FLT_MAX, 0, 0)`. -/
def farXPoint : Vec3 := ⟨FLT_MAX, .fin 0, .fin 0⟩

/-- The three corners of the unit square and three times the point `(FLT_MAX, 0, 0)`. -/
def farPositions : List Vec3 := cornerPositions ++ [farXPoint, farXPoint, farXPoint]

/-- A triangle with `x` between 5 and 6, and three times the point `(NaN, 0, 0)`. -/
def nanPositions : List Vec3 :=
  [⟨.fin (Int.ofNat (5 * 2 ^ 149)), .fin 0, .fin 0⟩,
   ⟨.fin (Int.ofNat (6 * 2 ^ 149)), .fin (Int.ofNat (2 ^ 149)), .fin 0⟩,
   ⟨.fin (Int.ofNat (5 * 2 ^ 149)), .fin 0, .fin (Int.ofNat (2 ^ 149))⟩,
   ⟨.nan, .fin 0, .fin 0⟩, ⟨.nan, .fin 0, .fin 0⟩, ⟨.nan, .fin 0, .fin 0⟩]

/-- A triangle at `x = -FLT_MAX` and three times the point `(FLT_MAX / 2, 0, 0)`. -/
def widePositions : List Vec3 :=
  [⟨FLT_MAX.neg, .fin 0, .fin 0⟩, ⟨FLT_MAX.neg, .fin (Int.ofNat (2 ^ 149)), .fin 0⟩,
   ⟨FLT_MAX.neg, .fin 0, .fin (Int.ofNat (2 ^ 149))⟩,
   ⟨.fin (Int.ofNat (16777215 * 2 ^ 252)), .fin 0, .fin 0⟩,
   ⟨.fin (Int.ofNat (16777215 * 2 ^ 252)), .fin 0, .fin 0⟩,
   ⟨.fin (Int.ofNat (16777215 * 2 ^ 252)), .fin 0, .fin 0⟩]

/-- The lower corner `(-FLT_MAX, -1, -1)` of a box. -/
def wideBoxMin : Vec3 :=
  ⟨FLT_MAX.neg, .fin (-(Int.ofNat (2 ^ 149))), .fin (-(Int.ofNat (2 ^ 149)))⟩

/-- The upper corner `(FLT_MAX, 1, 1)` of that box. -/
def wideBoxMax : Vec3 := ⟨FLT_MAX, .fin (Int.ofNat (2 ^ 149)), .fin (Int.ofNat (2 ^ 149))⟩

/-- The direction `(+inf, 0, 0)`. -/
def infXDir : Vec3 := ⟨.posInf, .fin 0, .fin 0⟩

/-- A left-button press in editor mode, not captured by ImGui, with the ray
from `(0.5, 0.5, 0)` along `(1, 0, 0)` and the unit cube as the model box. -/
def cubeClick : ClickInput :=
  { isLeftButton := true, isPress := true, editorModeActive := true, wantCaptureMouse := false
    rayOrigin := ⟨half, half, .fin 0⟩
    worldRay := unitXPoint
    modelPos := originPoint
    modelScale := Vec3.splat F32.one
    localMinBounds := originPoint
    localMaxBounds := Vec3.splat F32.one }

/-- The same ray and box on a button release. -/
def releaseClick : ClickInput := { cubeClick with isPress := false }

/-! ## How a call can end -/

theorem toU32_lt (n : Nat) : toU32 n < 2 ^ 32 := Nat.mod_lt _ (by norm_num)

theorem toU32_of_lt {n : Nat} (h : n < 2 ^ 32) : toU32 n = n := Nat.mod_eq_of_lt h

theorem numTrisOf_lt (indices : List Nat) : numTrisOf indices < 2 ^ 32 := toU32_lt _

theorem numTrisOf_le (indices : List Nat) : numTrisOf indices ≤ indices.length / 3 :=
  Nat.mod_le _ _

theorem numTrisOf_eq_zero_of_short {indices : List Nat} (h : indices.length < 3) :
    numTrisOf indices = 0 := by
  have h0 : indices.length / 3 = 0 := Nat.div_eq_of_lt h
  simp [numTrisOf, toU32, h0]

theorem afterLoop_some (ops : FloatOps) (dev : Device) (self : BVH) (n m h a : Nat)
    (st : ExtractState) (i : Nat) :
    afterLoop ops dev self n m h a (st, some i) =
      { bvh := { self with primitives := st.primitives }
        outcome := .invalidIndices i
        gpuElements := st.gpuElements
        globalAABB := st.globalAABB } := rfl

theorem afterLoop_none (ops : FloatOps) (dev : Device) (self : BVH) (n m h a : Nat)
    (st : ExtractState) :
    afterLoop ops dev self n m h a (st, none) =
      if glm.all (glm.lessThanEqual (Vec3.sub ops st.globalAABB.max st.globalAABB.min)
          (Vec3.splat eps)) then
        { bvh := { self with primitives := st.primitives }
          outcome := .degenerateGlobalAABB
          gpuElements := st.gpuElements
          globalAABB := st.globalAABB }
      else
        deviceStages ops dev { self with primitives := st.primitives } n st
          (Vec3.sub ops st.globalAABB.max st.globalAABB.min) m h a := rfl

theorem build_of_numTris_zero (ops : FloatOps) (dev : Device) (self : BVH)
    (positions : List Vec3) (indices : List Nat) (m s h a : Nat)
    (h0 : numTrisOf indices = 0) :
    self.buildLBVHDynamic ops dev positions indices m s h a =
      { bvh := self.cleared, outcome := .noTriangles } := by
  unfold BVH.buildLBVHDynamic
  rw [if_pos h0]

theorem build_of_noContext (ops : FloatOps) (dev : Device) (self : BVH)
    (positions : List Vec3) (indices : List Nat) (m s h a : Nat)
    (h0 : numTrisOf indices ≠ 0) (hc : dev.hasContext = false) :
    self.buildLBVHDynamic ops dev positions indices m s h a =
      { bvh := self.cleared, outcome := .noContext } := by
  unfold BVH.buildLBVHDynamic
  rw [if_neg h0, if_pos hc]

theorem build_of_loop (ops : FloatOps) (dev : Device) (self : BVH)
    (positions : List Vec3) (indices : List Nat) (m s h a : Nat)
    (h0 : numTrisOf indices ≠ 0) (hc : dev.hasContext = true) :
    self.buildLBVHDynamic ops dev positions indices m s h a =
      afterLoop ops dev self.cleared (numTrisOf indices) m h a
        (extractLoop positions indices (numTrisOf indices) 0
          (initialExtractState (numTrisOf indices))) := by
  unfold BVH.buildLBVHDynamic
  rw [if_neg h0, if_neg (by simp [hc])]

theorem deviceStages_outcome (ops : FloatOps) (dev : Device) (self : BVH) (n : Nat)
    (st : ExtractState) (e : Vec3) (m h a : Nat) :
    (deviceStages ops dev self n st e m h a).outcome = .completed := rfl

/-- Every call either completes or returns with an empty trace and the two
renderer-visible members untouched. -/
theorem build_outcome_cases (ops : FloatOps) (dev : Device) (self : BVH)
    (positions : List Vec3) (indices : List Nat) (m s h a : Nat) :
    (self.buildLBVHDynamic ops dev positions indices m s h a).outcome = .completed ∨
      ((self.buildLBVHDynamic ops dev positions indices m s h a).outcome ≠ .completed ∧
        (self.buildLBVHDynamic ops dev positions indices m s h a).trace = [] ∧
        (self.buildLBVHDynamic ops dev positions indices m s h a).bvh.numInternalNodes
          = self.numInternalNodes ∧
        (self.buildLBVHDynamic ops dev positions indices m s h a).bvh.aabbInstanceVBO
          = self.aabbInstanceVBO) := by
  by_cases h0 : numTrisOf indices = 0
  · rw [build_of_numTris_zero ops dev self positions indices m s h a h0]
    right; simp [BVH.cleared]
  cases hc : dev.hasContext
  · rw [build_of_noContext ops dev self positions indices m s h a h0 hc]
    right; simp [BVH.cleared]
  rw [build_of_loop ops dev self positions indices m s h a h0 hc]
  rcases extractLoop positions indices (numTrisOf indices) 0
      (initialExtractState (numTrisOf indices)) with ⟨st, _ | i⟩
  · rw [afterLoop_none]
    split_ifs with h3
    · right; simp [BVH.cleared]
    · left; rfl
  · rw [afterLoop_some]
    right; simp [BVH.cleared]

/-- C1 (as amended): a call with fewer than three indices logs "No triangles",
issues no OpenGL call, leaves `aabbInstanceVBO` and `numInternalNodes` as they
were, and leaves `primitives`, `m_bvh` and `mortonCodes` empty. -/
theorem zero_triangles_clears_vectors (ops : FloatOps) (dev : Device) (self : BVH)
    (positions : List Vec3) (indices : List Nat) (m s h a : Nat)
    (hlen : indices.length < 3) :
    self.buildLBVHDynamic ops dev positions indices m s h a =
      { bvh := { primitives := [], m_bvh := [], mortonCodes := []
                 aabbInstanceVBO := self.aabbInstanceVBO
                 numInternalNodes := self.numInternalNodes }
        outcome := .noTriangles } := by
  rw [build_of_numTris_zero ops dev self positions indices m s h a
    (numTrisOf_eq_zero_of_short hlen)]
  rfl

/-- Witness for C1 (as amended): the empty index list on the state left by a
one-triangle build. -/
theorem zero_triangles_clears_vectors_witness :
    ([] : List Nat).length < 3 ∧
    afterOneTriangle.buildLBVHDynamic exactOps unitDevice cornerPositions [] 1 2 3 4 =
      { bvh := { primitives := [], m_bvh := [], mortonCodes := []
                 aabbInstanceVBO := afterOneTriangle.aabbInstanceVBO
                 numInternalNodes := afterOneTriangle.numInternalNodes }
        outcome := .noTriangles } :=
  ⟨by decide, zero_triangles_clears_vectors exactOps unitDevice afterOneTriangle
    cornerPositions [] 1 2 3 4 (by decide)⟩

/-- C1 (counterexample): on the state left by a completed one-triangle build,
a call with an empty index list empties `primitives`, which held one entry. -/
theorem zero_triangles_not_noop :
    ([] : List Nat).length < 3 ∧
    afterOneTriangle.primitives.length = 1 ∧
    (afterOneTriangle.buildLBVHDynamic exactOps unitDevice cornerPositions [] 1 2 3 4).bvh.primitives
      = [] ∧
    (afterOneTriangle.buildLBVHDynamic exactOps unitDevice cornerPositions [] 1 2 3 4).bvh
      ≠ afterOneTriangle := by
  decide

/-- C5: whenever `buildLBVHDynamic` returns without completing the build (no
triangles, no context, an index out of range, a degenerate global box),
`numInternalNodes` and `aabbInstanceVBO` are as before the call and no OpenGL
call of any kind was issued. -/
theorem abort_leaves_renderer_state (ops : FloatOps) (dev : Device) (self : BVH)
    (positions : List Vec3) (indices : List Nat) (m s h a : Nat)
    (habort : (self.buildLBVHDynamic ops dev positions indices m s h a).outcome ≠ .completed) :
    (self.buildLBVHDynamic ops dev positions indices m s h a).bvh.numInternalNodes
        = self.numInternalNodes ∧
    (self.buildLBVHDynamic ops dev positions indices m s h a).bvh.aabbInstanceVBO
        = self.aabbInstanceVBO ∧
    (self.buildLBVHDynamic ops dev positions indices m s h a).trace = [] := by
  rcases build_outcome_cases ops dev self positions indices m s h a with hc | ⟨_, h1, h2, h3⟩
  · exact absurd hc habort
  · exact ⟨h2, h3, h1⟩

/-- Witness for C5: a triangle with three coincident corners, built on the
state left by a completed build, takes the degenerate-box return. -/
theorem abort_leaves_renderer_state_witness :
    (afterOneTriangle.buildLBVHDynamic exactOps unitDevice [originPoint] [0, 0, 0] 1 2 3 4).outcome
        ≠ .completed ∧
    (afterOneTriangle.buildLBVHDynamic exactOps unitDevice [originPoint] [0, 0, 0] 1 2 3 4).bvh.numInternalNodes
        = afterOneTriangle.numInternalNodes ∧
    (afterOneTriangle.buildLBVHDynamic exactOps unitDevice [originPoint] [0, 0, 0] 1 2 3 4).bvh.aabbInstanceVBO
        = afterOneTriangle.aabbInstanceVBO ∧
    (afterOneTriangle.buildLBVHDynamic exactOps unitDevice [originPoint] [0, 0, 0] 1 2 3 4).trace = [] :=
  ⟨by decide, abort_leaves_renderer_state exactOps unitDevice afterOneTriangle [originPoint]
    [0, 0, 0] 1 2 3 4 (by decide)⟩

/-! ## The extractor loop, triangle by triangle -/

theorem extractLoop_zero (positions : List Vec3) (indices : List Nat) (i : Nat)
    (st : ExtractState) : extractLoop positions indices 0 i st = (st, none) := rfl

theorem extractLoop_succ_of_inRange (positions : List Vec3) (indices : List Nat) (k i : Nat)
    (st : ExtractState) (hin : TriangleInRange positions indices i) :
    extractLoop positions indices (k + 1) i st =
      extractLoop positions indices k (i + 1) (extractStep positions indices i st) := by
  obtain ⟨h0, h1, h2⟩ := hin
  have hc : ¬ (indices.getD (i * 3) 0 ≥ positions.length ∨
      indices.getD (i * 3 + 1) 0 ≥ positions.length ∨
      indices.getD (i * 3 + 2) 0 ≥ positions.length) := by
    intro h
    rcases h with h | h | h <;> omega
  rw [extractLoop]
  simp only [if_neg hc]
  rfl

theorem extractLoop_succ_of_not_inRange (positions : List Vec3) (indices : List Nat) (k i : Nat)
    (st : ExtractState) (hout : ¬ TriangleInRange positions indices i) :
    extractLoop positions indices (k + 1) i st = (st, some i) := by
  have hc : (indices.getD (i * 3) 0 ≥ positions.length ∨
      indices.getD (i * 3 + 1) 0 ≥ positions.length ∨
      indices.getD (i * 3 + 2) 0 ≥ positions.length) := by
    unfold TriangleInRange at hout
    by_contra h
    push_neg at h
    exact hout ⟨h.1, h.2.1, h.2.2⟩
  rw [extractLoop]
  simp only [if_pos hc]

/-- The loop runs to its end exactly when every triangle it visits passes the
check of line 41. -/
theorem extractLoop_none_iff (positions : List Vec3) (indices : List Nat) (k i : Nat)
    (st : ExtractState) :
    (extractLoop positions indices k i st).2 = none ↔
      ∀ j, i ≤ j → j < i + k → TriangleInRange positions indices j := by
  induction k generalizing i st with
  | zero =>
    simp only [extractLoop_zero, true_iff]
    intro j h1 h2
    omega
  | succ k ih =>
    by_cases hin : TriangleInRange positions indices i
    · rw [extractLoop_succ_of_inRange _ _ _ _ _ hin, ih]
      constructor
      · intro H j h1 h2
        rcases Nat.eq_or_lt_of_le h1 with rfl | hlt
        · exact hin
        · exact H j hlt (by omega)
      · intro H j h1 h2
        exact H j (by omega) (by omega)
    · rw [extractLoop_succ_of_not_inRange _ _ _ _ _ hin]
      constructor
      · intro h
        cases h
      · intro H
        exact absurd (H i (le_refl _) (by omega)) hin

/-- When the loop returns from line 46, it does so at the first triangle that
fails the check. -/
theorem extractLoop_some (positions : List Vec3) (indices : List Nat) (k i t : Nat)
    (st : ExtractState) (h : (extractLoop positions indices k i st).2 = some t) :
    i ≤ t ∧ t < i + k ∧ ¬ TriangleInRange positions indices t ∧
      ∀ j, i ≤ j → j < t → TriangleInRange positions indices j := by
  induction k generalizing i st with
  | zero =>
    rw [extractLoop_zero] at h
    cases h
  | succ k ih =>
    by_cases hin : TriangleInRange positions indices i
    · rw [extractLoop_succ_of_inRange _ _ _ _ _ hin] at h
      obtain ⟨h1, h2, h3, h4⟩ := ih _ _ h
      refine ⟨by omega, by omega, h3, ?_⟩
      intro j hj1 hj2
      rcases Nat.eq_or_lt_of_le hj1 with rfl | hlt
      · exact hin
      · exact h4 j hlt hj2
    · rw [extractLoop_succ_of_not_inRange _ _ _ _ _ hin] at h
      simp only [Option.some.injEq] at h
      subst h
      exact ⟨le_refl _, by omega, hin, fun j h1 h2 => by omega⟩

/-- The loop reads `indices` only below `3 * (i + k)`. -/
theorem extractLoop_take (positions : List Vec3) (indices : List Nat) (k i n : Nat)
    (st : ExtractState) (hn : 3 * (i + k) ≤ n) :
    extractLoop positions (indices.take n) k i st = extractLoop positions indices k i st := by
  induction k generalizing i st with
  | zero => rfl
  | succ k ih =>
    have hget : ∀ c, c < 3 → (indices.take n).getD (i * 3 + c) 0 = indices.getD (i * 3 + c) 0 := by
      intro c hc
      simp only [List.getD_eq_getElem?_getD]
      rw [List.getElem?_take_of_lt (by omega)]
    have h0 := hget 0 (by omega)
    have h1 := hget 1 (by omega)
    have h2 := hget 2 (by omega)
    simp only [Nat.add_zero] at h0
    have hin : TriangleInRange positions (indices.take n) i ↔
        TriangleInRange positions indices i := by
      unfold TriangleInRange
      rw [h0, h1, h2]
    have hstep : extractStep positions (indices.take n) i st = extractStep positions indices i st := by
      unfold extractStep triangleBox expandTriangle corner
      simp only [Nat.add_zero]
      rw [h0, h1, h2]
    by_cases hi : TriangleInRange positions indices i
    · rw [extractLoop_succ_of_inRange _ _ _ _ _ hi,
        extractLoop_succ_of_inRange _ _ _ _ _ (hin.mpr hi), hstep]
      exact ih _ _ (by omega)
    · rw [extractLoop_succ_of_not_inRange _ _ _ _ _ hi,
        extractLoop_succ_of_not_inRange _ _ _ _ _ (fun h => hi (hin.mp h))]

/-! ## Index validation -/

theorem three_numTrisOf_le (indices : List Nat) : 3 * numTrisOf indices ≤ indices.length := by
  have h1 := numTrisOf_le indices
  have h2 := Nat.mul_div_le indices.length 3
  calc 3 * numTrisOf indices ≤ 3 * (indices.length / 3) := Nat.mul_le_mul_left 3 h1
    _ ≤ indices.length := h2

theorem numTrisOf_take (indices : List Nat) :
    numTrisOf (indices.take (3 * numTrisOf indices)) = numTrisOf indices := by
  have hlen : (indices.take (3 * numTrisOf indices)).length = 3 * numTrisOf indices :=
    List.length_take_of_le (three_numTrisOf_le indices)
  have hdiv : 3 * numTrisOf indices / 3 = numTrisOf indices :=
    Nat.mul_div_cancel_left _ (by norm_num)
  calc numTrisOf (indices.take (3 * numTrisOf indices))
      = toU32 ((indices.take (3 * numTrisOf indices)).length / 3) := rfl
    _ = toU32 (numTrisOf indices) := by rw [hlen, hdiv]
    _ = numTrisOf indices := toU32_of_lt (numTrisOf_lt indices)

theorem numTrisOf_of_lt {indices : List Nat} (h : indices.length / 3 < 2 ^ 32) :
    numTrisOf indices = indices.length / 3 := toU32_of_lt h

/-- The build reads only the first `3 * numTris` entries of `indices`. -/
theorem build_take (ops : FloatOps) (dev : Device) (self : BVH)
    (positions : List Vec3) (indices : List Nat) (m s h a : Nat) :
    self.buildLBVHDynamic ops dev positions (indices.take (3 * numTrisOf indices)) m s h a =
      self.buildLBVHDynamic ops dev positions indices m s h a := by
  have hn := numTrisOf_take indices
  by_cases h0 : numTrisOf indices = 0
  · rw [build_of_numTris_zero ops dev self positions indices m s h a h0,
      build_of_numTris_zero ops dev self positions _ m s h a (hn.trans h0)]
  have h0' : numTrisOf (indices.take (3 * numTrisOf indices)) ≠ 0 := by rw [hn]; exact h0
  cases hc : dev.hasContext
  · rw [build_of_noContext ops dev self positions indices m s h a h0 hc,
      build_of_noContext ops dev self positions _ m s h a h0' hc]
  · rw [build_of_loop ops dev self positions indices m s h a h0 hc,
      build_of_loop ops dev self positions _ m s h a h0' hc, hn,
      extractLoop_take positions indices (numTrisOf indices) 0 _ _ (by omega)]

/-- Some triangle below `n` fails the check of line 41 exactly when one of the
first `3 * n` indices is not a valid position index. -/
theorem exists_not_inRange_iff (positions : List Vec3) (indices : List Nat) (n : Nat)
    (hn : 3 * n ≤ indices.length) :
    (∃ j, j < n ∧ ¬ TriangleInRange positions indices j) ↔
      ∃ v ∈ indices.take (3 * n), positions.length ≤ v := by
  constructor
  · rintro ⟨j, hj, hbad⟩
    have hc : ∃ c, c < 3 ∧ positions.length ≤ indices.getD (j * 3 + c) 0 := by
      by_contra hno
      push_neg at hno
      exact hbad ⟨by simpa using hno 0 (by omega), hno 1 (by omega), hno 2 (by omega)⟩
    obtain ⟨c, hc3, hle⟩ := hc
    have hq : j * 3 + c < indices.length := by omega
    refine ⟨indices.getD (j * 3 + c) 0, ?_, hle⟩
    rw [List.mem_iff_getElem?]
    refine ⟨j * 3 + c, ?_⟩
    rw [List.getElem?_take_of_lt (by omega), List.getD_eq_getElem?_getD,
      List.getElem?_eq_getElem hq]
    rfl
  · rintro ⟨v, hv, hle⟩
    rw [List.mem_iff_getElem?] at hv
    obtain ⟨q, hq⟩ := hv
    rw [List.getElem?_take] at hq
    split_ifs at hq with hlt
    have hget : indices.getD q 0 = v := by
      rw [List.getD_eq_getElem?_getD, hq]
      rfl
    refine ⟨q / 3, by omega, ?_⟩
    intro hin
    obtain ⟨h0, h1, h2⟩ := hin
    have hmod : q % 3 = 0 ∨ q % 3 = 1 ∨ q % 3 = 2 := by omega
    rcases hmod with hm | hm | hm
    · have : q / 3 * 3 = q := by omega
      rw [this, hget] at h0
      omega
    · have : q / 3 * 3 + 1 = q := by omega
      rw [this, hget] at h1
      omega
    · have : q / 3 * 3 + 2 = q := by omega
      rw [this, hget] at h2
      omega

/-- With a context and at least one triangle, the build logs "Invalid triangle
indices" exactly when the extractor meets a triangle failing the check. -/
theorem outcome_invalidIndices_iff (ops : FloatOps) (dev : Device) (self : BVH)
    (positions : List Vec3) (indices : List Nat) (m s h a : Nat)
    (h0 : numTrisOf indices ≠ 0) (hc : dev.hasContext = true) :
    (∃ t, (self.buildLBVHDynamic ops dev positions indices m s h a).outcome = .invalidIndices t) ↔
      ∃ j, j < numTrisOf indices ∧ ¬ TriangleInRange positions indices j := by
  rw [build_of_loop ops dev self positions indices m s h a h0 hc]
  rcases hres : extractLoop positions indices (numTrisOf indices) 0
      (initialExtractState (numTrisOf indices)) with ⟨st, _ | i⟩
  · have hnone := (extractLoop_none_iff positions indices (numTrisOf indices) 0
      (initialExtractState (numTrisOf indices))).mp (by rw [hres])
    rw [afterLoop_none]
    constructor
    · rintro ⟨t, ht⟩
      split_ifs at ht with h3
      all_goals cases ht
    · rintro ⟨j, hj, hbad⟩
      exact absurd (hnone j (Nat.zero_le _) (by omega)) hbad
  · have hsome := extractLoop_some positions indices (numTrisOf indices) 0 i
      (initialExtractState (numTrisOf indices)) (by rw [hres])
    rw [afterLoop_some]
    constructor
    · intro _
      exact ⟨i, by omega, hsome.2.2.1⟩
    · intro _
      exact ⟨i, rfl⟩

/-- C2 (as amended): with a current OpenGL context and a triangle count
`N = indices.size() / 3` with `1 <= N < 2^32`, the build returns with "Invalid
triangle indices" if and only if one of the first `3 * N` indices is not below
`positions.size()`; on that return no OpenGL call has been issued; and the
whole call is unchanged when the indices past `3 * N` are removed. -/
theorem invalid_index_abort_iff (ops : FloatOps) (dev : Device) (self : BVH)
    (positions : List Vec3) (indices : List Nat) (m s h a : Nat)
    (hctx : dev.hasContext = true) (hN : 1 ≤ indices.length / 3)
    (hN32 : indices.length / 3 < 2 ^ 32) :
    ((∃ t, (self.buildLBVHDynamic ops dev positions indices m s h a).outcome = .invalidIndices t) ↔
      ∃ v ∈ indices.take (3 * (indices.length / 3)), positions.length ≤ v) ∧
    ((∃ t, (self.buildLBVHDynamic ops dev positions indices m s h a).outcome = .invalidIndices t) →
      (self.buildLBVHDynamic ops dev positions indices m s h a).trace = []) ∧
    self.buildLBVHDynamic ops dev positions (indices.take (3 * (indices.length / 3))) m s h a =
      self.buildLBVHDynamic ops dev positions indices m s h a := by
  have hnt : numTrisOf indices = indices.length / 3 := numTrisOf_of_lt hN32
  have h0 : numTrisOf indices ≠ 0 := by omega
  refine ⟨?_, ?_, ?_⟩
  · rw [outcome_invalidIndices_iff ops dev self positions indices m s h a h0 hctx, hnt]
    exact exists_not_inRange_iff positions indices _ (Nat.mul_div_le _ 3)
  · rintro ⟨t, ht⟩
    rcases build_outcome_cases ops dev self positions indices m s h a with hc | ⟨_, h1, _, _⟩
    · rw [ht] at hc
      cases hc
    · exact h1
  · rw [← hnt]
    exact build_take ops dev self positions indices m s h a

theorem wrappingTail_length : wrappingTail.length = 3 * 2 ^ 32 := List.length_replicate _ _

theorem wrappedIndices_length : wrappedIndices.length = 3 * 2 ^ 32 + 3 := by
  unfold wrappedIndices
  rw [List.length_cons, List.length_cons, List.length_cons, wrappingTail_length]

theorem wrappedIndices_triangles : wrappedIndices.length / 3 = 2 ^ 32 + 1 := by
  rw [wrappedIndices_length]
  norm_num

theorem numTrisOf_wrappedIndices : numTrisOf wrappedIndices = 1 := by
  have h : numTrisOf wrappedIndices = toU32 (wrappedIndices.length / 3) := rfl
  rw [h, wrappedIndices_triangles]
  decide

theorem wrappedIndices_take : wrappedIndices.take (3 * numTrisOf wrappedIndices) = [0, 0, 0] := by
  rw [numTrisOf_wrappedIndices]
  rfl

theorem one_mem_wrappedIndices : 1 ∈ wrappedIndices.take (3 * (wrappedIndices.length / 3)) := by
  rw [List.mem_iff_getElem?]
  refine ⟨3, ?_⟩
  have hlt : 3 < 3 * (wrappedIndices.length / 3) := by
    rw [wrappedIndices_triangles]
    norm_num
  have hget : wrappedIndices[3]? = wrappingTail[0]? := by
    unfold wrappedIndices
    rw [List.getElem?_cons_succ, List.getElem?_cons_succ, List.getElem?_cons_succ]
  have hrep : wrappingTail[0]? = some 1 := List.getElem?_replicate_of_lt (by norm_num)
  rewrite [List.getElem?_take_of_lt hlt, hget]
  exact hrep

/-- Witness for C2 (as amended): two triangles and a trailing index; the second
triangle names position 3 of 3. -/
theorem invalid_index_abort_iff_witness :
    unitDevice.hasContext = true ∧ 1 ≤ [0, 1, 2, 2, 3, 0, 9].length / 3 ∧
    [0, 1, 2, 2, 3, 0, 9].length / 3 < 2 ^ 32 ∧
    (((∃ t, (({} : BVH).buildLBVHDynamic exactOps unitDevice cornerPositions
          [0, 1, 2, 2, 3, 0, 9] 1 2 3 4).outcome = .invalidIndices t) ↔
        ∃ v ∈ [0, 1, 2, 2, 3, 0, 9].take (3 * ([0, 1, 2, 2, 3, 0, 9].length / 3)),
          cornerPositions.length ≤ v) ∧
      ((∃ t, (({} : BVH).buildLBVHDynamic exactOps unitDevice cornerPositions
          [0, 1, 2, 2, 3, 0, 9] 1 2 3 4).outcome = .invalidIndices t) →
        (({} : BVH).buildLBVHDynamic exactOps unitDevice cornerPositions
          [0, 1, 2, 2, 3, 0, 9] 1 2 3 4).trace = [])) :=
  have hr := invalid_index_abort_iff exactOps unitDevice {} cornerPositions
    [0, 1, 2, 2, 3, 0, 9] 1 2 3 4 rfl (by decide) (by decide)
  ⟨rfl, by decide, by decide, hr.1, hr.2.1⟩

/-- C2 (counterexample): (1) without a current context, one triangle naming
position 3 of 3 ends in "No OpenGL context", not in the index error; (2) with a
context, `2^32 + 1` triangles of which all but the first name position 1 of 1
are counted as one triangle, and the build ends in the degenerate-box error. -/
theorem invalid_index_not_reported :
    (1 ≤ [0, 1, 3].length / 3 ∧
      (∃ v ∈ [0, 1, 3].take (3 * ([0, 1, 3].length / 3)), cornerPositions.length ≤ v) ∧
      (({} : BVH).buildLBVHDynamic exactOps noContextDevice cornerPositions [0, 1, 3]
        1 2 3 4).outcome = .noContext) ∧
    (1 ≤ wrappedIndices.length / 3 ∧ unitDevice.hasContext = true ∧
      (∃ v ∈ wrappedIndices.take (3 * (wrappedIndices.length / 3)), [originPoint].length ≤ v) ∧
      (({} : BVH).buildLBVHDynamic exactOps unitDevice [originPoint] wrappedIndices
        1 2 3 4).outcome = .degenerateGlobalAABB) := by
  refine ⟨⟨by decide, by decide, by decide⟩, ?_, rfl, ⟨1, one_mem_wrappedIndices, by decide⟩, ?_⟩
  · rw [wrappedIndices_triangles]
    norm_num
  · rw [← build_take, wrappedIndices_take]
    decide

/-! ## The state left by the extractor loop -/

/-- The variables of a loop run that reached its end, in closed form. -/
theorem extractLoop_state (positions : List Vec3) (indices : List Nat) (k i : Nat)
    (st st' : ExtractState) (h : extractLoop positions indices k i st = (st', none)) :
    (∀ j, st'.primitives[j]? =
      if i ≤ j ∧ j < i + k ∧ j < st.primitives.length then
        some (primitiveOf positions indices j) else st.primitives[j]?) ∧
    (∀ j, st'.gpuElements[j]? =
      if i ≤ j ∧ j < i + k ∧ j < st.gpuElements.length then
        some (elementOf j (triangleBox positions indices j)) else st.gpuElements[j]?) ∧
    st'.globalAABB = (List.range' i k).foldl (expandTriangle positions indices) st.globalAABB := by
  induction k generalizing i st with
  | zero =>
    rw [extractLoop_zero] at h
    cases h
    refine ⟨fun j => ?_, fun j => ?_, rfl⟩
    · rw [if_neg (by omega)]
    · rw [if_neg (by omega)]
  | succ k ih =>
    by_cases hin : TriangleInRange positions indices i
    · rw [extractLoop_succ_of_inRange _ _ _ _ _ hin] at h
      obtain ⟨hp, hg, hb⟩ := ih _ _ h
      refine ⟨fun j => ?_, fun j => ?_, ?_⟩
      · rw [hp j]
        simp only [extractStep, List.length_set, List.getElem?_set, primitiveOf]
        by_cases hij : i = j
        · subst hij
          by_cases hlen : i < st.primitives.length
          · rw [if_neg (by omega), if_pos rfl, if_pos hlen, if_pos ⟨le_refl _, by omega, hlen⟩]
          · rw [if_neg (by omega), if_pos rfl, if_neg hlen, if_neg (by omega)]
            exact (List.getElem?_eq_none (by omega)).symm
        · rw [if_neg hij]
          by_cases hc : i + 1 ≤ j ∧ j < i + 1 + k ∧ j < st.primitives.length
          · rw [if_pos hc, if_pos ⟨by omega, by omega, hc.2.2⟩]
          · rw [if_neg hc, if_neg (by omega)]
      · rw [hg j]
        simp only [extractStep, List.length_set, List.getElem?_set]
        by_cases hij : i = j
        · subst hij
          by_cases hlen : i < st.gpuElements.length
          · rw [if_neg (by omega), if_pos rfl, if_pos hlen, if_pos ⟨le_refl _, by omega, hlen⟩]
          · rw [if_neg (by omega), if_pos rfl, if_neg hlen, if_neg (by omega)]
            exact (List.getElem?_eq_none (by omega)).symm
        · rw [if_neg hij]
          by_cases hc : i + 1 ≤ j ∧ j < i + 1 + k ∧ j < st.gpuElements.length
          · rw [if_pos hc, if_pos ⟨by omega, by omega, hc.2.2⟩]
          · rw [if_neg hc, if_neg (by omega)]
      · rw [hb]
        rfl
    · rw [extractLoop_succ_of_not_inRange _ _ _ _ _ hin] at h
      cases h

/-- After a full pass over `n` triangles the three variables of the loop are
the per-triangle values in index order and the fold of the global box. -/
theorem extractLoop_full (positions : List Vec3) (indices : List Nat) (n : Nat)
    (st' : ExtractState)
    (h : extractLoop positions indices n 0 (initialExtractState n) = (st', none)) :
    st'.primitives = (List.range n).map (primitiveOf positions indices) ∧
    st'.gpuElements =
      (List.range n).map (fun j => elementOf j (triangleBox positions indices j)) ∧
    st'.globalAABB = globalBox positions indices n := by
  obtain ⟨hp, hg, hb⟩ := extractLoop_state positions indices n 0 _ st' h
  refine ⟨?_, ?_, ?_⟩
  · apply List.ext_getElem?
    intro j
    rw [hp j, List.getElem?_map]
    simp only [initialExtractState, List.length_replicate]
    by_cases hj : j < n
    · rw [if_pos ⟨Nat.zero_le _, by omega, hj⟩, List.getElem?_range hj]
      rfl
    · rw [if_neg (by omega), List.getElem?_eq_none (by simpa using hj),
        List.getElem?_eq_none (by simpa using hj)]
      rfl
  · apply List.ext_getElem?
    intro j
    rw [hg j, List.getElem?_map]
    simp only [initialExtractState, List.length_replicate]
    by_cases hj : j < n
    · rw [if_pos ⟨Nat.zero_le _, by omega, hj⟩, List.getElem?_range hj]
      rfl
    · rw [if_neg (by omega), List.getElem?_eq_none (by simpa using hj),
        List.getElem?_eq_none (by simpa using hj)]
      rfl
  · rw [hb, globalBox, List.range_eq_range']
    rfl

/-! ## The degenerate-box check -/

theorem extractLoop_of_valid (positions : List Vec3) (indices : List Nat) (n : Nat)
    (hall : ∀ j, j < n → TriangleInRange positions indices j) :
    extractLoop positions indices n 0 (initialExtractState n) =
      (extractedState positions indices n, none) := by
  have hnone := (extractLoop_none_iff positions indices n 0 (initialExtractState n)).mpr
    (fun j _ hj => hall j (by omega))
  rcases hres : extractLoop positions indices n 0 (initialExtractState n) with ⟨st', o⟩
  rw [hres] at hnone
  simp only at hnone
  subst hnone
  obtain ⟨h1, h2, h3⟩ := extractLoop_full positions indices n st' hres
  cases st'
  simp only at h1 h2 h3
  rw [h1, h2, h3]
  rfl

theorem all_lessThanEqual_iff (e : Vec3) :
    glm.all (glm.lessThanEqual e (Vec3.splat eps)) = true ↔
      F32.le e.x eps = true ∧ F32.le e.y eps = true ∧ F32.le e.z eps = true := by
  simp [glm.all, glm.lessThanEqual, Vec3.splat, and_assoc]

/-- With a context, a non-zero triangle count and every visited triangle in
range, the build is decided by the test of line 80 on the accumulated box. -/
theorem build_of_valid (ops : FloatOps) (dev : Device) (self : BVH)
    (positions : List Vec3) (indices : List Nat) (m s h a : Nat)
    (h0 : numTrisOf indices ≠ 0) (hc : dev.hasContext = true)
    (hall : ∀ j, j < numTrisOf indices → TriangleInRange positions indices j) :
    self.buildLBVHDynamic ops dev positions indices m s h a =
      afterLoop ops dev self.cleared (numTrisOf indices) m h a
        (extractedState positions indices (numTrisOf indices), none) := by
  rw [build_of_loop ops dev self positions indices m s h a h0 hc,
    extractLoop_of_valid positions indices _ hall]

theorem deviceStages_trace_head (ops : FloatOps) (dev : Device) (self : BVH) (n : Nat)
    (st : ExtractState) (e : Vec3) (m h a : Nat) :
    (deviceStages ops dev self n st e m h a).trace.head? = some (.genBuffers (dev.genName 0)) :=
  rfl

theorem deviceStages_globalAABB (ops : FloatOps) (dev : Device) (self : BVH) (n : Nat)
    (st : ExtractState) (e : Vec3) (m h a : Nat) :
    (deviceStages ops dev self n st e m h a).globalAABB = st.globalAABB := rfl

theorem deviceStages_gpuElements (ops : FloatOps) (dev : Device) (self : BVH) (n : Nat)
    (st : ExtractState) (e : Vec3) (m h a : Nat) :
    (deviceStages ops dev self n st e m h a).gpuElements = st.gpuElements := rfl

theorem deviceStages_primitives (ops : FloatOps) (dev : Device) (self : BVH) (n : Nat)
    (st : ExtractState) (e : Vec3) (m h a : Nat) :
    (deviceStages ops dev self n st e m h a).bvh.primitives = self.primitives := by
  cases self
  rfl

theorem all_inRange_of_take (positions : List Vec3) (indices : List Nat) (n : Nat)
    (hn : 3 * n ≤ indices.length)
    (hrange : ∀ v ∈ indices.take (3 * n), v < positions.length) :
    ∀ j, j < n → TriangleInRange positions indices j := by
  intro j hj
  by_contra hbad
  obtain ⟨v, hv, hle⟩ := (exists_not_inRange_iff positions indices n hn).mp ⟨j, hj, hbad⟩
  exact absurd (hrange v hv) (by omega)

/-- C3 (as amended): with a current OpenGL context, a triangle count
`N = indices.size() / 3` with `1 <= N < 2^32` and the first `3 * N` indices in
range, the global box is the one accumulated over the `N` triangles; the build
returns with "Degenerate global AABB" exactly when its extent is at most
`0.0001f` on all three axes, and then no OpenGL call is issued; otherwise the
build runs to completion and its first OpenGL call is `glGenBuffers`. -/
theorem degenerate_abort_iff (ops : FloatOps) (dev : Device) (self : BVH)
    (positions : List Vec3) (indices : List Nat) (m s h a : Nat)
    (hctx : dev.hasContext = true) (hN : 1 ≤ indices.length / 3)
    (hN32 : indices.length / 3 < 2 ^ 32)
    (hrange : ∀ v ∈ indices.take (3 * (indices.length / 3)), v < positions.length) :
    (self.buildLBVHDynamic ops dev positions indices m s h a).globalAABB =
      globalBox positions indices (indices.length / 3) ∧
    ((self.buildLBVHDynamic ops dev positions indices m s h a).outcome = .degenerateGlobalAABB ↔
      (F32.le (extentOf ops (globalBox positions indices (indices.length / 3))).x eps = true ∧
       F32.le (extentOf ops (globalBox positions indices (indices.length / 3))).y eps = true ∧
       F32.le (extentOf ops (globalBox positions indices (indices.length / 3))).z eps = true)) ∧
    ((self.buildLBVHDynamic ops dev positions indices m s h a).outcome = .degenerateGlobalAABB →
      (self.buildLBVHDynamic ops dev positions indices m s h a).trace = []) ∧
    ((self.buildLBVHDynamic ops dev positions indices m s h a).outcome ≠ .degenerateGlobalAABB →
      (self.buildLBVHDynamic ops dev positions indices m s h a).outcome = .completed ∧
      (self.buildLBVHDynamic ops dev positions indices m s h a).trace.head?
        = some (.genBuffers (dev.genName 0))) := by
  have hnt : numTrisOf indices = indices.length / 3 := numTrisOf_of_lt hN32
  have h0 : numTrisOf indices ≠ 0 := by omega
  have hall : ∀ j, j < numTrisOf indices → TriangleInRange positions indices j := by
    rw [hnt]
    exact all_inRange_of_take positions indices _ (Nat.mul_div_le _ 3) hrange
  rw [build_of_valid ops dev self positions indices m s h a h0 hctx hall, afterLoop_none, hnt]
  have hiff := all_lessThanEqual_iff
    (extentOf ops (globalBox positions indices (indices.length / 3)))
  by_cases hd : glm.all (glm.lessThanEqual
      (Vec3.sub ops (extractedState positions indices (indices.length / 3)).globalAABB.max
        (extractedState positions indices (indices.length / 3)).globalAABB.min)
      (Vec3.splat eps)) = true
  · rw [if_pos hd]
    refine ⟨rfl, ⟨fun _ => hiff.mp hd, fun _ => rfl⟩, fun _ => rfl, fun hne => absurd rfl hne⟩
  · rw [if_neg hd]
    refine ⟨rfl, ⟨fun hout => ?_, fun hle => absurd (hiff.mpr hle) hd⟩, fun hout => ?_,
      fun _ => ⟨rfl, rfl⟩⟩
    · rw [deviceStages_outcome] at hout
      cases hout
    · rw [deviceStages_outcome] at hout
      cases hout

/-- Witness for C3 (as amended): one triangle on three corners of the unit square. -/
theorem degenerate_abort_iff_witness :
    unitDevice.hasContext = true ∧ 1 ≤ [0, 1, 2].length / 3 ∧ [0, 1, 2].length / 3 < 2 ^ 32 ∧
    (∀ v ∈ [0, 1, 2].take (3 * ([0, 1, 2].length / 3)), v < cornerPositions.length) ∧
    (({} : BVH).buildLBVHDynamic exactOps unitDevice cornerPositions [0, 1, 2] 1 2 3 4).outcome
      ≠ .degenerateGlobalAABB ∧
    ((({} : BVH).buildLBVHDynamic exactOps unitDevice cornerPositions [0, 1, 2] 1 2 3 4).outcome
      = .completed ∧
     (({} : BVH).buildLBVHDynamic exactOps unitDevice cornerPositions [0, 1, 2] 1 2 3 4).trace.head?
      = some (.genBuffers (unitDevice.genName 0))) :=
  ⟨rfl, by decide, by decide, by decide, by decide,
    (degenerate_abort_iff exactOps unitDevice {} cornerPositions [0, 1, 2] 1 2 3 4 rfl
      (by decide) (by decide) (by decide)).2.2.2 (by decide)⟩

theorem zeroIndices_length : zeroIndices.length = 3 * 2 ^ 32 := List.length_replicate _ _

theorem zeroIndices_triangles : zeroIndices.length / 3 = 2 ^ 32 := by
  rw [zeroIndices_length]
  norm_num

theorem numTrisOf_zeroIndices : numTrisOf zeroIndices = 0 := by
  have h : numTrisOf zeroIndices = toU32 (zeroIndices.length / 3) := rfl
  rw [h, zeroIndices_triangles]
  decide

/-- C3 (counterexample): (1) without a current context a non-degenerate
triangle ends in "No OpenGL context" with no buffer allocated; (2) a triangle
whose extent is exactly `0.0001f` on the x axis, so not below it, is rejected
as degenerate; (3) `2^32` triangles, all in range, with a context, are counted
as zero triangles and end in "No triangles". -/
theorem degenerate_check_not_exact :
    (1 ≤ [0, 1, 2].length / 3 ∧
      (∀ v ∈ [0, 1, 2].take (3 * ([0, 1, 2].length / 3)), v < cornerPositions.length) ∧
      F32.le (extentOf exactOps (globalBox cornerPositions [0, 1, 2] 1)).x eps = false ∧
      (({} : BVH).buildLBVHDynamic exactOps noContextDevice cornerPositions [0, 1, 2]
        1 2 3 4).outcome = .noContext ∧
      (({} : BVH).buildLBVHDynamic exactOps noContextDevice cornerPositions [0, 1, 2]
        1 2 3 4).trace = []) ∧
    (unitDevice.hasContext = true ∧
      (∀ v ∈ [0, 1, 0].take (3 * ([0, 1, 0].length / 3)), v < [originPoint, epsXPoint].length) ∧
      (extentOf exactOps (globalBox [originPoint, epsXPoint] [0, 1, 0] 1)).x = eps ∧
      F32.lt (extentOf exactOps (globalBox [originPoint, epsXPoint] [0, 1, 0] 1)).x eps = false ∧
      (({} : BVH).buildLBVHDynamic exactOps unitDevice [originPoint, epsXPoint] [0, 1, 0]
        1 2 3 4).outcome = .degenerateGlobalAABB) ∧
    (unitDevice.hasContext = true ∧ 1 ≤ zeroIndices.length / 3 ∧
      (∀ v ∈ zeroIndices.take (3 * (zeroIndices.length / 3)), v < [originPoint].length) ∧
      (({} : BVH).buildLBVHDynamic exactOps unitDevice [originPoint] zeroIndices
        1 2 3 4).outcome = .noTriangles) := by
  refine ⟨by decide, by decide, rfl, ?_, ?_, ?_⟩
  · rw [zeroIndices_triangles]
    norm_num
  · intro v hv
    have hv' : v ∈ zeroIndices := List.mem_of_mem_take hv
    have : v = 0 := List.eq_of_mem_replicate hv'
    subst this
    decide
  · rw [build_of_numTris_zero exactOps unitDevice {} [originPoint] zeroIndices 1 2 3 4
      numTrisOf_zeroIndices]

/-! ## Coincident vertices -/

theorem f32_isFinite_iff (x : F32) :
    x.isFinite = true ↔
      ∃ z, x = .fin z ∧ -(Int.ofNat (16777215 * 2 ^ 253)) ≤ z ∧ z ≤ Int.ofNat (16777215 * 2 ^ 253) := by
  cases x <;> simp [F32.isFinite]

theorem minF_self (x : F32) : glm.minF x x = x := by
  unfold glm.minF
  split_ifs <;> rfl

theorem maxF_self (x : F32) : glm.maxF x x = x := by
  unfold glm.maxF
  split_ifs <;> rfl

theorem minF_FLT_MAX_of_isFinite (x : F32) (hx : x.isFinite = true) : glm.minF FLT_MAX x = x := by
  obtain ⟨z, rfl, h1, h2⟩ := (f32_isFinite_iff x).mp hx
  unfold glm.minF FLT_MAX
  by_cases hlt : z < Int.ofNat (16777215 * 2 ^ 253)
  · rw [if_pos (by simpa [F32.lt] using hlt)]
  · have hz : z = Int.ofNat (16777215 * 2 ^ 253) := by omega
    rw [if_neg (by simpa [F32.lt] using hlt), hz]

theorem maxF_neg_FLT_MAX_of_isFinite (x : F32) (hx : x.isFinite = true) :
    glm.maxF FLT_MAX.neg x = x := by
  obtain ⟨z, rfl, h1, h2⟩ := (f32_isFinite_iff x).mp hx
  unfold glm.maxF FLT_MAX F32.neg
  by_cases hlt : -(Int.ofNat (16777215 * 2 ^ 253)) < z
  · rw [if_pos (by simpa [F32.lt] using hlt)]
  · have hz : z = -(Int.ofNat (16777215 * 2 ^ 253)) := by omega
    rw [if_neg (by simpa [F32.lt] using hlt), hz]

theorem vec3_isFinite_iff (v : Vec3) :
    v.isFinite = true ↔ v.x.isFinite = true ∧ v.y.isFinite = true ∧ v.z.isFinite = true := by
  simp [Vec3.isFinite, and_assoc]

theorem expand_empty_of_isFinite (v : Vec3) (hv : v.isFinite = true) :
    ({} : AABB).expand v = { min := v, max := v } := by
  obtain ⟨hx, hy, hz⟩ := (vec3_isFinite_iff v).mp hv
  simp only [AABB.expand, glm.min, glm.max, Vec3.splat,
    minF_FLT_MAX_of_isFinite _ hx, minF_FLT_MAX_of_isFinite _ hy, minF_FLT_MAX_of_isFinite _ hz,
    maxF_neg_FLT_MAX_of_isFinite _ hx, maxF_neg_FLT_MAX_of_isFinite _ hy,
    maxF_neg_FLT_MAX_of_isFinite _ hz]

theorem expand_point_box (v : Vec3) :
    ({ min := v, max := v } : AABB).expand v = { min := v, max := v } := by
  simp only [AABB.expand, glm.min, glm.max, minF_self, maxF_self]

theorem globalBox_succ (positions : List Vec3) (indices : List Nat) (n : Nat) :
    globalBox positions indices (n + 1) =
      expandTriangle positions indices (globalBox positions indices n) n := by
  simp only [globalBox, List.range_succ, List.foldl_append, List.foldl_cons, List.foldl_nil]

/-- When every corner of the first `n >= 1` triangles is the same finite point,
the accumulated box is that point. -/
theorem globalBox_of_same (positions : List Vec3) (indices : List Nat) (v : Vec3)
    (hv : v.isFinite = true) (n : Nat) (hn : 0 < n)
    (hc : ∀ j, j < n → ∀ c, c < 3 → corner positions indices j c = v) :
    globalBox positions indices n = { min := v, max := v } := by
  induction n with
  | zero => omega
  | succ k ih =>
    rw [globalBox_succ]
    have h0 := hc k (by omega) 0 (by omega)
    have h1 := hc k (by omega) 1 (by omega)
    have h2 := hc k (by omega) 2 (by omega)
    unfold expandTriangle
    rw [h0, h1, h2]
    rcases Nat.eq_zero_or_pos k with hk | hk
    · subst hk
      have hg : globalBox positions indices 0 = {} := rfl
      rw [hg, expand_empty_of_isFinite v hv, expand_point_box, expand_point_box]
    · rw [ih hk (fun j hj c hc3 => hc j (by omega) c hc3), expand_point_box, expand_point_box,
        expand_point_box]

/-- A corner of a triangle that passed the check is a position named by
`indices`. -/
theorem corner_eq_of_same (positions : List Vec3) (indices : List Nat) (v : Vec3)
    (hsame : ∀ i ∈ indices, ∀ p, positions[i]? = some p → p = v)
    (j : Nat) (hj : j < numTrisOf indices) (hin : TriangleInRange positions indices j)
    (c : Nat) (hc : c < 3) : corner positions indices j c = v := by
  have hlen := three_numTrisOf_le indices
  have hq : j * 3 + c < indices.length := by omega
  have hidx : indices.getD (j * 3 + c) 0 = indices[j * 3 + c] := List.getD_eq_getElem _ _ hq
  have hmem : indices[j * 3 + c] ∈ indices := List.getElem_mem hq
  have hlt : indices[j * 3 + c] < positions.length := by
    obtain ⟨a0, a1, a2⟩ := hin
    have h3 : c = 0 ∨ c = 1 ∨ c = 2 := by omega
    rcases h3 with rfl | rfl | rfl
    · rw [← hidx]; exact a0
    · rw [← hidx]; exact a1
    · rw [← hidx]; exact a2
  unfold corner
  rw [hidx, List.getD_eq_getElem _ _ hlt]
  exact hsame _ hmem _ (List.getElem?_eq_getElem hlt)

/-- C4 (as amended): when every triangle references one and the same finite
vertex position (and `x - x` is zero for finite `x`), the call does not
complete the build, it issues no OpenGL call, and `numInternalNodes` and
`aabbInstanceVBO` keep the values they had before the call; they are 0
afterwards only if they were 0 before. -/
theorem identical_vertices_abort (ops : FloatOps) (dev : Device) (self : BVH)
    (positions : List Vec3) (indices : List Nat) (m s h a : Nat) (v : Vec3)
    (hv : v.isFinite = true)
    (hsame : ∀ i ∈ indices, ∀ p, positions[i]? = some p → p = v)
    (hsub : ∀ z, ops.sub (.fin z) (.fin z) = .fin 0) :
    (self.buildLBVHDynamic ops dev positions indices m s h a).outcome ≠ .completed ∧
    (self.buildLBVHDynamic ops dev positions indices m s h a).bvh.numInternalNodes
      = self.numInternalNodes ∧
    (self.buildLBVHDynamic ops dev positions indices m s h a).bvh.aabbInstanceVBO
      = self.aabbInstanceVBO ∧
    (self.buildLBVHDynamic ops dev positions indices m s h a).trace = [] := by
  have hne : (self.buildLBVHDynamic ops dev positions indices m s h a).outcome ≠ .completed := by
    by_cases h0 : numTrisOf indices = 0
    · rw [build_of_numTris_zero ops dev self positions indices m s h a h0]
      simp
    cases hc : dev.hasContext
    · rw [build_of_noContext ops dev self positions indices m s h a h0 hc]
      simp
    by_cases hall : ∀ j, j < numTrisOf indices → TriangleInRange positions indices j
    · rw [build_of_valid ops dev self positions indices m s h a h0 hc hall, afterLoop_none]
      have hbox : globalBox positions indices (numTrisOf indices) = { min := v, max := v } :=
        globalBox_of_same positions indices v hv _ (by omega)
          (fun j hj c hc3 => corner_eq_of_same positions indices v hsame j hj (hall j hj) c hc3)
      obtain ⟨hx, hy, hz⟩ := (vec3_isFinite_iff v).mp hv
      obtain ⟨zx, hzx, _, _⟩ := (f32_isFinite_iff _).mp hx
      obtain ⟨zy, hzy, _, _⟩ := (f32_isFinite_iff _).mp hy
      obtain ⟨zz, hzz, _, _⟩ := (f32_isFinite_iff _).mp hz
      have hd : glm.all (glm.lessThanEqual
          (Vec3.sub ops (extractedState positions indices (numTrisOf indices)).globalAABB.max
            (extractedState positions indices (numTrisOf indices)).globalAABB.min)
          (Vec3.splat eps)) = true := by
        show glm.all (glm.lessThanEqual
          (Vec3.sub ops (globalBox positions indices (numTrisOf indices)).max
            (globalBox positions indices (numTrisOf indices)).min) (Vec3.splat eps)) = true
        rw [hbox, all_lessThanEqual_iff]
        simp only [Vec3.sub, hzx, hzy, hzz, hsub]
        decide
      rw [if_pos hd]
      simp
    · push_neg at hall
      obtain ⟨j, hj, hbad⟩ := hall
      obtain ⟨t, ht⟩ := (outcome_invalidIndices_iff ops dev self positions indices m s h a h0 hc).mpr
        ⟨j, hj, hbad⟩
      rw [ht]
      simp
  rcases build_outcome_cases ops dev self positions indices m s h a with hc | ⟨_, h1, h2, h3⟩
  · exact absurd hc hne
  · exact ⟨hne, h2, h3, h1⟩

/-- Witness for C4 (as amended): a triangle on two coincident positions, built
on the state left by a completed build. -/
theorem identical_vertices_abort_witness :
    originPoint.isFinite = true ∧
    (∀ i ∈ [0, 1, 0], ∀ p, [originPoint, originPoint][i]? = some p → p = originPoint) ∧
    (∀ z, exactOps.sub (.fin z) (.fin z) = .fin 0) ∧
    (afterOneTriangle.buildLBVHDynamic exactOps unitDevice [originPoint, originPoint] [0, 1, 0]
      1 2 3 4).outcome ≠ .completed ∧
    (afterOneTriangle.buildLBVHDynamic exactOps unitDevice [originPoint, originPoint] [0, 1, 0]
      1 2 3 4).bvh.numInternalNodes = afterOneTriangle.numInternalNodes ∧
    (afterOneTriangle.buildLBVHDynamic exactOps unitDevice [originPoint, originPoint] [0, 1, 0]
      1 2 3 4).bvh.aabbInstanceVBO = afterOneTriangle.aabbInstanceVBO ∧
    (afterOneTriangle.buildLBVHDynamic exactOps unitDevice [originPoint, originPoint] [0, 1, 0]
      1 2 3 4).trace = [] :=
  have hsame : ∀ i ∈ [0, 1, 0], ∀ p, [originPoint, originPoint][i]? = some p → p = originPoint := by
    intro i hi p hp
    simp only [List.mem_cons, List.mem_singleton, List.not_mem_nil, or_false] at hi
    rcases hi with rfl | rfl | rfl <;> simpa using hp.symm
  have hsub : ∀ z, exactOps.sub (.fin z) (.fin z) = .fin 0 := by
    intro z
    simp [exactOps, exactSub]
  ⟨by decide, hsame, hsub,
    identical_vertices_abort exactOps unitDevice afterOneTriangle [originPoint, originPoint]
      [0, 1, 0] 1 2 3 4 originPoint (by decide) hsame hsub⟩

/-- C4 (counterexample): after a completed one-triangle build has left one
instance in buffer 14, a build of a triangle with three coincident corners
returns as degenerate and leaves `numInternalNodes = 1` and
`aabbInstanceVBO = 14`. -/
theorem degenerate_build_keeps_instances :
    afterOneTriangle.numInternalNodes = 1 ∧ afterOneTriangle.aabbInstanceVBO = 14 ∧
    (afterOneTriangle.buildLBVHDynamic exactOps unitDevice [originPoint] [0, 0, 0]
      1 2 3 4).outcome = .degenerateGlobalAABB ∧
    (afterOneTriangle.buildLBVHDynamic exactOps unitDevice [originPoint] [0, 0, 0]
      1 2 3 4).bvh.numInternalNodes = 1 ∧
    (afterOneTriangle.buildLBVHDynamic exactOps unitDevice [originPoint] [0, 0, 0]
      1 2 3 4).bvh.aabbInstanceVBO = 14 := by
  decide

/-! ## Per-triangle boxes -/

theorem isLeastOf_min3 (a b c : F32) (ha : a.isFinite = true) (hb : b.isFinite = true)
    (hc : c.isFinite = true) :
    IsLeastOf (glm.minF (glm.minF (glm.minF FLT_MAX a) b) c) [a, b, c] := by
  rw [minF_FLT_MAX_of_isFinite a ha]
  obtain ⟨za, rfl, _, _⟩ := (f32_isFinite_iff a).mp ha
  obtain ⟨zb, rfl, _, _⟩ := (f32_isFinite_iff b).mp hb
  obtain ⟨zc, rfl, _, _⟩ := (f32_isFinite_iff c).mp hc
  unfold IsLeastOf glm.minF
  by_cases h1 : zb < za
  · by_cases h2 : zc < zb
    · simp [F32.lt, F32.le, h1, h2]
      omega
    · simp [F32.lt, F32.le, h1, h2]
      omega
  · by_cases h2 : zc < za
    · simp [F32.lt, F32.le, h1, h2]
      omega
    · simp [F32.lt, F32.le, h1, h2]
      omega

theorem isGreatestOf_max3 (a b c : F32) (ha : a.isFinite = true) (hb : b.isFinite = true)
    (hc : c.isFinite = true) :
    IsGreatestOf (glm.maxF (glm.maxF (glm.maxF FLT_MAX.neg a) b) c) [a, b, c] := by
  rw [maxF_neg_FLT_MAX_of_isFinite a ha]
  obtain ⟨za, rfl, _, _⟩ := (f32_isFinite_iff a).mp ha
  obtain ⟨zb, rfl, _, _⟩ := (f32_isFinite_iff b).mp hb
  obtain ⟨zc, rfl, _, _⟩ := (f32_isFinite_iff c).mp hc
  unfold IsGreatestOf glm.maxF
  by_cases h1 : za < zb
  · by_cases h2 : zb < zc
    · simp [F32.lt, F32.le, h1, h2]
      omega
    · simp [F32.lt, F32.le, h1, h2]
      omega
  · by_cases h2 : za < zc
    · simp [F32.lt, F32.le, h1, h2]
      omega
    · simp [F32.lt, F32.le, h1, h2]
      omega

/-- The box of a triangle with finite corners is their componentwise minimum
and maximum. -/
theorem triangleAABB_of_isFinite (v0 v1 v2 : Vec3) (h0 : v0.isFinite = true)
    (h1 : v1.isFinite = true) (h2 : v2.isFinite = true) :
    IsLeastOf (triangleAABB v0 v1 v2).min.x [v0.x, v1.x, v2.x] ∧
    IsLeastOf (triangleAABB v0 v1 v2).min.y [v0.y, v1.y, v2.y] ∧
    IsLeastOf (triangleAABB v0 v1 v2).min.z [v0.z, v1.z, v2.z] ∧
    IsGreatestOf (triangleAABB v0 v1 v2).max.x [v0.x, v1.x, v2.x] ∧
    IsGreatestOf (triangleAABB v0 v1 v2).max.y [v0.y, v1.y, v2.y] ∧
    IsGreatestOf (triangleAABB v0 v1 v2).max.z [v0.z, v1.z, v2.z] := by
  obtain ⟨h0x, h0y, h0z⟩ := (vec3_isFinite_iff v0).mp h0
  obtain ⟨h1x, h1y, h1z⟩ := (vec3_isFinite_iff v1).mp h1
  obtain ⟨h2x, h2y, h2z⟩ := (vec3_isFinite_iff v2).mp h2
  exact ⟨isLeastOf_min3 _ _ _ h0x h1x h2x, isLeastOf_min3 _ _ _ h0y h1y h2y,
    isLeastOf_min3 _ _ _ h0z h1z h2z, isGreatestOf_max3 _ _ _ h0x h1x h2x,
    isGreatestOf_max3 _ _ _ h0y h1y h2y, isGreatestOf_max3 _ _ _ h0z h1z h2z⟩

/-- The extractor ran to its end exactly on the two outcomes that follow it. -/
theorem passes_validation (ops : FloatOps) (dev : Device) (self : BVH)
    (positions : List Vec3) (indices : List Nat) (m s h a : Nat)
    (hpass : (self.buildLBVHDynamic ops dev positions indices m s h a).outcome
        = .degenerateGlobalAABB ∨
      (self.buildLBVHDynamic ops dev positions indices m s h a).outcome = .completed) :
    numTrisOf indices ≠ 0 ∧ dev.hasContext = true ∧
      ∀ j, j < numTrisOf indices → TriangleInRange positions indices j := by
  by_cases h0 : numTrisOf indices = 0
  · rw [build_of_numTris_zero ops dev self positions indices m s h a h0] at hpass
    rcases hpass with hp | hp <;> cases hp
  cases hc : dev.hasContext
  · rw [build_of_noContext ops dev self positions indices m s h a h0 hc] at hpass
    rcases hpass with hp | hp <;> cases hp
  refine ⟨h0, rfl, ?_⟩
  by_contra hall
  push_neg at hall
  obtain ⟨j, hj, hbad⟩ := hall
  obtain ⟨t, ht⟩ := (outcome_invalidIndices_iff ops dev self positions indices m s h a h0 hc).mpr
    ⟨j, hj, hbad⟩
  rw [ht] at hpass
  rcases hpass with hp | hp <;> cases hp

/-- The primitives, elements and global box of a build whose extractor ran to
its end. -/
theorem build_extracted (ops : FloatOps) (dev : Device) (self : BVH)
    (positions : List Vec3) (indices : List Nat) (m s h a : Nat)
    (hpass : (self.buildLBVHDynamic ops dev positions indices m s h a).outcome
        = .degenerateGlobalAABB ∨
      (self.buildLBVHDynamic ops dev positions indices m s h a).outcome = .completed) :
    (self.buildLBVHDynamic ops dev positions indices m s h a).bvh.primitives =
      (List.range (numTrisOf indices)).map (primitiveOf positions indices) ∧
    (self.buildLBVHDynamic ops dev positions indices m s h a).gpuElements =
      (List.range (numTrisOf indices)).map
        (fun j => elementOf j (triangleBox positions indices j)) ∧
    (self.buildLBVHDynamic ops dev positions indices m s h a).globalAABB =
      globalBox positions indices (numTrisOf indices) := by
  obtain ⟨h0, hc, hall⟩ := passes_validation ops dev self positions indices m s h a hpass
  rw [build_of_valid ops dev self positions indices m s h a h0 hc hall, afterLoop_none]
  split_ifs with hd
  · exact ⟨rfl, rfl, rfl⟩
  · exact ⟨deviceStages_primitives _ _ _ _ _ _ _ _ _, rfl, rfl⟩

theorem deviceStages_trace (ops : FloatOps) (dev : Device) (self : BVH) (n : Nat)
    (st : ExtractState) (e : Vec3) (m h a : Nat) :
    (deviceStages ops dev self n st e m h a).trace =
      mortonStageCalls dev n st.gpuElements st.globalAABB.min (glm.max e (Vec3.splat eps)) m ++
      hierarchyStageCalls dev n (sortedMortonData dev n) h ++
      aabbStageCalls dev n a ++
      (replaceInstanceVBO dev self.aabbInstanceVBO
        (filterNodes ops n (readNodes dev n)).validNodeCount
        (filterNodes ops n (readNodes dev n)).instanceData).2 ++
      cleanupCalls dev := by
  cases self
  rfl

/-- A completed build has the trace, sorted keys, nodes and instances of
`deviceStages` run on the extracted state. -/
theorem build_completed (ops : FloatOps) (dev : Device) (self : BVH)
    (positions : List Vec3) (indices : List Nat) (m s h a : Nat)
    (hdone : (self.buildLBVHDynamic ops dev positions indices m s h a).outcome = .completed) :
    self.buildLBVHDynamic ops dev positions indices m s h a =
      deviceStages ops dev { self.cleared with
          primitives := (extractedState positions indices (numTrisOf indices)).primitives }
        (numTrisOf indices) (extractedState positions indices (numTrisOf indices))
        (Vec3.sub ops (extractedState positions indices (numTrisOf indices)).globalAABB.max
          (extractedState positions indices (numTrisOf indices)).globalAABB.min) m h a := by
  obtain ⟨h0, hc, hall⟩ := passes_validation ops dev self positions indices m s h a (Or.inr hdone)
  rw [build_of_valid ops dev self positions indices m s h a h0 hc hall, afterLoop_none] at hdone ⊢
  split_ifs at hdone ⊢ with hd
  rfl

/-- A corner of a triangle that passed the check of line 41 is the position
stored at the index the triangle names. -/
theorem corner_spec (positions : List Vec3) (indices : List Nat)
    (j : Nat) (hj : j < numTrisOf indices) (hin : TriangleInRange positions indices j)
    (c : Nat) (hc : c < 3) :
    ∃ ic, indices[j * 3 + c]? = some ic ∧
      positions[ic]? = some (corner positions indices j c) := by
  have hlen := three_numTrisOf_le indices
  have hq : j * 3 + c < indices.length := by omega
  have hidx : indices.getD (j * 3 + c) 0 = indices[j * 3 + c] := List.getD_eq_getElem _ _ hq
  have hlt : indices[j * 3 + c] < positions.length := by
    obtain ⟨a0, a1, a2⟩ := hin
    have h3 : c = 0 ∨ c = 1 ∨ c = 2 := by omega
    rcases h3 with rfl | rfl | rfl
    · rw [← hidx]; exact a0
    · rw [← hidx]; exact a1
    · rw [← hidx]; exact a2
  refine ⟨indices[j * 3 + c], List.getElem?_eq_getElem hq, ?_⟩
  unfold corner
  rw [hidx, List.getD_eq_getElem _ _ hlt]
  exact List.getElem?_eq_getElem hlt

theorem mortonStageCalls_upload (dev : Device) (n : Nat) (els : List Element)
    (smin sext : Vec3) (m : Nat) :
    GLCall.bufferData .shaderStorage (n * 28) (.elements els) .staticDraw ∈
      mortonStageCalls dev n els smin sext m := by
  simp [mortonStageCalls]

/-- C6 (as amended): whenever the extractor loop ran to its end and
`N = indices.size() / 3 < 2^32`, there are exactly `N` primitives and `N`
elements; for every `i < N` the three indices of triangle `i` name positions
`v0, v1, v2`, primitive `i` has `index = i`, element `i` carries the same index
and the same six bounds, and if `v0, v1, v2` are finite the bounds are the
componentwise minimum and maximum of `v0, v1, v2`.  A completed build has
uploaded exactly these elements. -/
theorem extractor_primitives (ops : FloatOps) (dev : Device) (self : BVH)
    (positions : List Vec3) (indices : List Nat) (m s h a : Nat)
    (hpass : (self.buildLBVHDynamic ops dev positions indices m s h a).outcome
        = .degenerateGlobalAABB ∨
      (self.buildLBVHDynamic ops dev positions indices m s h a).outcome = .completed)
    (hN32 : indices.length / 3 < 2 ^ 32) :
    (self.buildLBVHDynamic ops dev positions indices m s h a).bvh.primitives.length
      = indices.length / 3 ∧
    (self.buildLBVHDynamic ops dev positions indices m s h a).gpuElements.length
      = indices.length / 3 ∧
    (∀ i, i < indices.length / 3 →
      ∃ i0 i1 i2 v0 v1 v2 p e,
        indices[i * 3]? = some i0 ∧ indices[i * 3 + 1]? = some i1 ∧
        indices[i * 3 + 2]? = some i2 ∧
        positions[i0]? = some v0 ∧ positions[i1]? = some v1 ∧ positions[i2]? = some v2 ∧
        (self.buildLBVHDynamic ops dev positions indices m s h a).bvh.primitives[i]? = some p ∧
        (self.buildLBVHDynamic ops dev positions indices m s h a).gpuElements[i]? = some e ∧
        p.index = i ∧ e.primitiveIdx = i ∧
        e.aabbMinX = p.aabb.min.x ∧ e.aabbMinY = p.aabb.min.y ∧ e.aabbMinZ = p.aabb.min.z ∧
        e.aabbMaxX = p.aabb.max.x ∧ e.aabbMaxY = p.aabb.max.y ∧ e.aabbMaxZ = p.aabb.max.z ∧
        (v0.isFinite = true → v1.isFinite = true → v2.isFinite = true →
          IsLeastOf p.aabb.min.x [v0.x, v1.x, v2.x] ∧
          IsLeastOf p.aabb.min.y [v0.y, v1.y, v2.y] ∧
          IsLeastOf p.aabb.min.z [v0.z, v1.z, v2.z] ∧
          IsGreatestOf p.aabb.max.x [v0.x, v1.x, v2.x] ∧
          IsGreatestOf p.aabb.max.y [v0.y, v1.y, v2.y] ∧
          IsGreatestOf p.aabb.max.z [v0.z, v1.z, v2.z])) ∧
    ((self.buildLBVHDynamic ops dev positions indices m s h a).outcome = .completed →
      GLCall.bufferData .shaderStorage (indices.length / 3 * 28)
        (.elements (self.buildLBVHDynamic ops dev positions indices m s h a).gpuElements)
        .staticDraw ∈ (self.buildLBVHDynamic ops dev positions indices m s h a).trace) := by
  have hnt : numTrisOf indices = indices.length / 3 := numTrisOf_of_lt hN32
  obtain ⟨h0, hc, hall⟩ := passes_validation ops dev self positions indices m s h a hpass
  obtain ⟨hp, hg, _⟩ := build_extracted ops dev self positions indices m s h a hpass
  refine ⟨?_, ?_, ?_, ?_⟩
  · rw [hp, List.length_map, List.length_range, hnt]
  · rw [hg, List.length_map, List.length_range, hnt]
  · intro i hi
    have hi' : i < numTrisOf indices := by omega
    obtain ⟨i0, hi0, hv0⟩ := corner_spec positions indices i hi' (hall i hi') 0 (by omega)
    obtain ⟨i1, hi1, hv1⟩ := corner_spec positions indices i hi' (hall i hi') 1 (by omega)
    obtain ⟨i2, hi2, hv2⟩ := corner_spec positions indices i hi' (hall i hi') 2 (by omega)
    refine ⟨i0, i1, i2, _, _, _, primitiveOf positions indices i,
      elementOf i (triangleBox positions indices i), hi0, hi1, hi2, hv0, hv1, hv2, ?_, ?_,
      rfl, rfl, rfl, rfl, rfl, rfl, rfl, rfl, ?_⟩
    · rw [hp, List.getElem?_map, List.getElem?_range hi']
      rfl
    · rw [hg, List.getElem?_map, List.getElem?_range hi']
      rfl
    · intro f0 f1 f2
      exact triangleAABB_of_isFinite _ _ _ f0 f1 f2
  · intro hdone
    rw [build_completed ops dev self positions indices m s h a hdone, deviceStages_trace,
      deviceStages_gpuElements, ← hnt]
    simp only [List.append_assoc]
    exact List.mem_append_left _ (mortonStageCalls_upload _ _ _ _ _ _)

/-- Witness for C6 (as amended): two triangles and a trailing index on the
corners of the unit square. -/
theorem extractor_primitives_witness :
    (({} : BVH).buildLBVHDynamic exactOps unitDevice cornerPositions [0, 1, 2, 2, 1, 0, 1]
      1 2 3 4).outcome = .completed ∧
    [0, 1, 2, 2, 1, 0, 1].length / 3 < 2 ^ 32 ∧
    (({} : BVH).buildLBVHDynamic exactOps unitDevice cornerPositions [0, 1, 2, 2, 1, 0, 1]
      1 2 3 4).bvh.primitives.length = [0, 1, 2, 2, 1, 0, 1].length / 3 ∧
    (({} : BVH).buildLBVHDynamic exactOps unitDevice cornerPositions [0, 1, 2, 2, 1, 0, 1]
      1 2 3 4).gpuElements.length = [0, 1, 2, 2, 1, 0, 1].length / 3 :=
  have hr := extractor_primitives exactOps unitDevice {} cornerPositions [0, 1, 2, 2, 1, 0, 1]
    1 2 3 4 (Or.inr (by decide)) (by decide)
  ⟨by decide, by decide, hr.1, hr.2.1⟩

/-- C6 (counterexample): (1) a triangle whose three corners have `x = +inf`
gets `aabb.min.x = FLT_MAX`, which is none of the three `x` coordinates;
(2) with `2^32 + 1` triangles, all in range, the extractor writes one
primitive. -/
theorem extractor_not_exact :
    ((({} : BVH).buildLBVHDynamic exactOps unitDevice [infXPoint] [0, 0, 0] 1 2 3 4).outcome
        = .completed ∧
      (({} : BVH).buildLBVHDynamic exactOps unitDevice [infXPoint] [0, 0, 0] 1 2 3 4).bvh.primitives
        = [{ aabb := { min := ⟨FLT_MAX, .fin 0, .fin 0⟩, max := ⟨.posInf, .fin 0, .fin 0⟩ }
             index := 0 }] ∧
      infXPoint.x = .posInf ∧ ¬ IsLeastOf FLT_MAX [infXPoint.x, infXPoint.x, infXPoint.x]) ∧
    (wrappedIndices.length / 3 = 2 ^ 32 + 1 ∧
      (∀ v ∈ wrappedIndices, v < [originPoint, originPoint].length) ∧
      (({} : BVH).buildLBVHDynamic exactOps unitDevice [originPoint, originPoint] wrappedIndices
        1 2 3 4).outcome = .degenerateGlobalAABB ∧
      (({} : BVH).buildLBVHDynamic exactOps unitDevice [originPoint, originPoint] wrappedIndices
        1 2 3 4).bvh.primitives.length = 1) := by
  refine ⟨⟨by decide, by decide, rfl, ?_⟩, wrappedIndices_triangles, ?_, ?_, ?_⟩
  · intro hl
    have hm := hl.1
    simp only [infXPoint, List.mem_cons, List.mem_singleton, List.not_mem_nil, or_false,
      or_self] at hm
    exact absurd hm (by decide)
  · intro v hv
    unfold wrappedIndices at hv
    simp only [List.mem_cons] at hv
    rcases hv with rfl | rfl | rfl | hv
    · decide
    · decide
    · decide
    · have : v = 1 := List.eq_of_mem_replicate hv
      subst this
      decide
  · rw [← build_take, wrappedIndices_take]
    decide
  · rw [← build_take, wrappedIndices_take]
    decide

/-! ## The order of the floats and `glm::min`, `glm::max` -/

theorem minF_isnan (x y : F32) (hx : x.isnan = false) : (glm.minF x y).isnan = false := by
  cases x <;> cases y <;> simp [glm.minF, F32.lt, F32.isnan] at hx ⊢
  split_ifs <;> rfl

theorem minF_eq_or (x y : F32) : glm.minF x y = x ∨ glm.minF x y = y := by
  unfold glm.minF
  split_ifs
  · exact Or.inr rfl
  · exact Or.inl rfl

theorem le_refl_of_not_isnan (x : F32) (hx : x.isnan = false) : F32.le x x = true := by
  cases x <;> simp [F32.le, F32.isnan] at hx ⊢

theorem f32_le_trans (x y z : F32) (h1 : F32.le x y = true) (h2 : F32.le y z = true) :
    F32.le x z = true := by
  cases x <;> cases y <;> cases z <;> simp [F32.le] at h1 h2 ⊢
  omega

theorem minF_le (x y : F32) (hx : x.isnan = false) (hy : y.isnan = false) :
    F32.le (glm.minF x y) x = true ∧ F32.le (glm.minF x y) y = true := by
  cases x <;> cases y <;> simp [glm.minF, F32.lt, F32.le, F32.isnan] at hx hy ⊢
  split_ifs <;> simp [F32.le] <;> omega

theorem minF_assoc (u v w : F32) (hu : u.isnan = false) (hv : v.isnan = false) :
    glm.minF (glm.minF u v) w = glm.minF u (glm.minF v w) := by
  cases u <;> cases v <;> cases w <;> simp [glm.minF, F32.lt, F32.isnan] at hu hv ⊢
  all_goals (split_ifs <;> simp_all [F32.lt] <;> omega)

theorem minF_absorb_FLT_MAX (g a : F32) (hg : g.isnan = false) (hle : F32.le g FLT_MAX = true) :
    glm.minF g a = glm.minF g (glm.minF FLT_MAX a) := by
  cases g <;> cases a <;> simp [glm.minF, F32.lt, F32.le, F32.isnan, FLT_MAX] at hg hle ⊢
  all_goals (split_ifs <;> simp_all [F32.lt] <;> omega)

theorem minF_le_FLT_MAX (x y : F32) (hx : x.isnan = false) (hle : F32.le x FLT_MAX = true) :
    F32.le (glm.minF x y) FLT_MAX = true := by
  cases x <;> cases y <;> simp [glm.minF, F32.lt, F32.le, F32.isnan, FLT_MAX] at hx hle ⊢
  all_goals first | omega | (split_ifs <;> (simp_all [F32.le]; try omega))

theorem minF_FLT_MAX_of_le (t : F32) (ht : t.isnan = false) (hle : F32.le t FLT_MAX = true) :
    glm.minF FLT_MAX t = t := by
  cases t <;> simp [glm.minF, F32.lt, F32.le, F32.isnan, FLT_MAX] at ht hle ⊢
  omega
theorem maxF_isnan (x y : F32) (hx : x.isnan = false) : (glm.maxF x y).isnan = false := by
  cases x <;> cases y <;> simp [glm.maxF, F32.lt, F32.isnan] at hx ⊢
  split_ifs <;> rfl

theorem maxF_eq_or (x y : F32) : glm.maxF x y = x ∨ glm.maxF x y = y := by
  unfold glm.maxF
  split_ifs
  · exact Or.inr rfl
  · exact Or.inl rfl

theorem le_maxF (x y : F32) (hx : x.isnan = false) (hy : y.isnan = false) :
    F32.le x (glm.maxF x y) = true ∧ F32.le y (glm.maxF x y) = true := by
  cases x <;> cases y <;> simp [glm.maxF, F32.lt, F32.le, F32.isnan] at hx hy ⊢
  split_ifs <;> simp [F32.le] <;> omega

theorem maxF_assoc (u v w : F32) (hu : u.isnan = false) (hv : v.isnan = false) :
    glm.maxF (glm.maxF u v) w = glm.maxF u (glm.maxF v w) := by
  cases u <;> cases v <;> cases w <;> simp [glm.maxF, F32.lt, F32.isnan] at hu hv ⊢
  all_goals (split_ifs <;> simp_all [F32.lt] <;> omega)

theorem maxF_absorb_neg_FLT_MAX (g a : F32) (hg : g.isnan = false)
    (hle : F32.le FLT_MAX.neg g = true) :
    glm.maxF g a = glm.maxF g (glm.maxF FLT_MAX.neg a) := by
  cases g <;> cases a <;>
    simp [glm.maxF, F32.lt, F32.le, F32.isnan, FLT_MAX, F32.neg] at hg hle ⊢
  all_goals (split_ifs <;> simp_all [F32.lt] <;> omega)

theorem neg_FLT_MAX_le_maxF (x y : F32) (hx : x.isnan = false)
    (hle : F32.le FLT_MAX.neg x = true) :
    F32.le FLT_MAX.neg (glm.maxF x y) = true := by
  cases x <;> cases y <;>
    simp [glm.maxF, F32.lt, F32.le, F32.isnan, FLT_MAX, F32.neg] at hx hle ⊢
  all_goals first | omega | (split_ifs <;> (simp_all [F32.le]; try omega))

theorem maxF_neg_FLT_MAX_of_le (t : F32) (ht : t.isnan = false)
    (hle : F32.le FLT_MAX.neg t = true) :
    glm.maxF FLT_MAX.neg t = t := by
  cases t <;> simp [glm.maxF, F32.lt, F32.le, F32.isnan, FLT_MAX, F32.neg] at ht hle ⊢
  omega


/-! ## The global box is the union of the primitive boxes -/

/-- A running minimum started at `FLT_MAX` and fed three values per step is,
after `n >= 1` steps, the least of the per-step minima. -/
theorem minFold_isLeast (G T a b c : Nat → F32) (hG0 : G 0 = FLT_MAX)
    (hG : ∀ n, G (n + 1) = glm.minF (glm.minF (glm.minF (G n) (a n)) (b n)) (c n))
    (hT : ∀ n, T n = glm.minF (glm.minF (glm.minF FLT_MAX (a n)) (b n)) (c n)) :
    ∀ n, 0 < n → IsLeastOf (G n) ((List.range n).map T) := by
  have hM : FLT_MAX.isnan = false := rfl
  have hMle : F32.le FLT_MAX FLT_MAX = true := le_refl_of_not_isnan _ hM
  have hTn : ∀ n, (T n).isnan = false := fun n => by
    rw [hT]
    exact minF_isnan _ _ (minF_isnan _ _ (minF_isnan _ _ hM))
  have hTle : ∀ n, F32.le (T n) FLT_MAX = true := fun n => by
    rw [hT]
    exact minF_le_FLT_MAX _ _ (minF_isnan _ _ (minF_isnan _ _ hM))
      (minF_le_FLT_MAX _ _ (minF_isnan _ _ hM) (minF_le_FLT_MAX _ _ hM hMle))
  have hstep : ∀ n, (G n).isnan = false → F32.le (G n) FLT_MAX = true →
      G (n + 1) = glm.minF (G n) (T n) := fun n hn hle => by
    rw [hG, hT, minF_absorb_FLT_MAX (G n) (a n) hn hle,
      minF_assoc (G n) _ (b n) hn (minF_isnan _ _ hM),
      minF_assoc (G n) _ (c n) hn (minF_isnan _ _ (minF_isnan _ _ hM))]
  have hGinv : ∀ n, (G n).isnan = false ∧ F32.le (G n) FLT_MAX = true := by
    intro n
    induction n with
    | zero => rw [hG0]; exact ⟨hM, hMle⟩
    | succ k ih =>
      rw [hstep k ih.1 ih.2]
      exact ⟨minF_isnan _ _ ih.1, minF_le_FLT_MAX _ _ ih.1 ih.2⟩
  intro n hn
  induction n with
  | zero => omega
  | succ k ih =>
    rw [hstep k (hGinv k).1 (hGinv k).2, List.range_succ, List.map_append, List.map_singleton]
    rcases Nat.eq_zero_or_pos k with hk | hk
    · subst hk
      rw [hG0, minF_FLT_MAX_of_le _ (hTn 0) (hTle 0)]
      refine ⟨by simp, ?_⟩
      intro x hx
      simp only [List.range_zero, List.map_nil, List.nil_append, List.mem_singleton] at hx
      rw [hx]
      exact le_refl_of_not_isnan _ (hTn 0)
    · obtain ⟨hmem, hall⟩ := ih hk
      obtain ⟨hl, hr⟩ := minF_le (G k) (T k) (hGinv k).1 (hTn k)
      constructor
      · rcases minF_eq_or (G k) (T k) with he | he
        · rw [he]
          exact List.mem_append_left _ hmem
        · rw [he]
          exact List.mem_append_right _ (List.mem_singleton.mpr rfl)
      · intro x hx
        rcases List.mem_append.mp hx with hx | hx
        · exact f32_le_trans _ _ _ hl (hall x hx)
        · rw [List.mem_singleton.mp hx]
          exact hr

/-- The dual of `minFold_isLeast` for a running maximum started at `-FLT_MAX`. -/
theorem maxFold_isGreatest (G T a b c : Nat → F32) (hG0 : G 0 = FLT_MAX.neg)
    (hG : ∀ n, G (n + 1) = glm.maxF (glm.maxF (glm.maxF (G n) (a n)) (b n)) (c n))
    (hT : ∀ n, T n = glm.maxF (glm.maxF (glm.maxF FLT_MAX.neg (a n)) (b n)) (c n)) :
    ∀ n, 0 < n → IsGreatestOf (G n) ((List.range n).map T) := by
  have hM : FLT_MAX.neg.isnan = false := rfl
  have hMle : F32.le FLT_MAX.neg FLT_MAX.neg = true := le_refl_of_not_isnan _ hM
  have hTn : ∀ n, (T n).isnan = false := fun n => by
    rw [hT]
    exact maxF_isnan _ _ (maxF_isnan _ _ (maxF_isnan _ _ hM))
  have hTle : ∀ n, F32.le FLT_MAX.neg (T n) = true := fun n => by
    rw [hT]
    exact neg_FLT_MAX_le_maxF _ _ (maxF_isnan _ _ (maxF_isnan _ _ hM))
      (neg_FLT_MAX_le_maxF _ _ (maxF_isnan _ _ hM) (neg_FLT_MAX_le_maxF _ _ hM hMle))
  have hstep : ∀ n, (G n).isnan = false → F32.le FLT_MAX.neg (G n) = true →
      G (n + 1) = glm.maxF (G n) (T n) := fun n hn hle => by
    rw [hG, hT, maxF_absorb_neg_FLT_MAX (G n) (a n) hn hle,
      maxF_assoc (G n) _ (b n) hn (maxF_isnan _ _ hM),
      maxF_assoc (G n) _ (c n) hn (maxF_isnan _ _ (maxF_isnan _ _ hM))]
  have hGinv : ∀ n, (G n).isnan = false ∧ F32.le FLT_MAX.neg (G n) = true := by
    intro n
    induction n with
    | zero => rw [hG0]; exact ⟨hM, hMle⟩
    | succ k ih =>
      rw [hstep k ih.1 ih.2]
      exact ⟨maxF_isnan _ _ ih.1, neg_FLT_MAX_le_maxF _ _ ih.1 ih.2⟩
  intro n hn
  induction n with
  | zero => omega
  | succ k ih =>
    rw [hstep k (hGinv k).1 (hGinv k).2, List.range_succ, List.map_append, List.map_singleton]
    rcases Nat.eq_zero_or_pos k with hk | hk
    · subst hk
      rw [hG0, maxF_neg_FLT_MAX_of_le _ (hTn 0) (hTle 0)]
      refine ⟨by simp, ?_⟩
      intro x hx
      simp only [List.range_zero, List.map_nil, List.nil_append, List.mem_singleton] at hx
      rw [hx]
      exact le_refl_of_not_isnan _ (hTn 0)
    · obtain ⟨hmem, hall⟩ := ih hk
      obtain ⟨hl, hr⟩ := le_maxF (G k) (T k) (hGinv k).1 (hTn k)
      constructor
      · rcases maxF_eq_or (G k) (T k) with he | he
        · rw [he]
          exact List.mem_append_left _ hmem
        · rw [he]
          exact List.mem_append_right _ (List.mem_singleton.mpr rfl)
      · intro x hx
        rcases List.mem_append.mp hx with hx | hx
        · exact f32_le_trans _ _ _ (hall x hx) hl
        · rw [List.mem_singleton.mp hx]
          exact hr

/-- For `n >= 1` triangles the accumulated global box is, on every axis, the
least of the primitive minima and the greatest of the primitive maxima. -/
theorem globalBox_is_union (positions : List Vec3) (indices : List Nat) (n : Nat) (hn : 0 < n) :
    IsLeastOf (globalBox positions indices n).min.x
      ((List.range n).map (fun j => (triangleBox positions indices j).min.x)) ∧
    IsLeastOf (globalBox positions indices n).min.y
      ((List.range n).map (fun j => (triangleBox positions indices j).min.y)) ∧
    IsLeastOf (globalBox positions indices n).min.z
      ((List.range n).map (fun j => (triangleBox positions indices j).min.z)) ∧
    IsGreatestOf (globalBox positions indices n).max.x
      ((List.range n).map (fun j => (triangleBox positions indices j).max.x)) ∧
    IsGreatestOf (globalBox positions indices n).max.y
      ((List.range n).map (fun j => (triangleBox positions indices j).max.y)) ∧
    IsGreatestOf (globalBox positions indices n).max.z
      ((List.range n).map (fun j => (triangleBox positions indices j).max.z)) := by
  refine ⟨?_, ?_, ?_, ?_, ?_, ?_⟩
  · exact minFold_isLeast (fun k => (globalBox positions indices k).min.x) _
      (fun k => (corner positions indices k 0).x) (fun k => (corner positions indices k 1).x)
      (fun k => (corner positions indices k 2).x) rfl
      (fun k => by simp only [globalBox_succ]; rfl) (fun k => rfl) n hn
  · exact minFold_isLeast (fun k => (globalBox positions indices k).min.y) _
      (fun k => (corner positions indices k 0).y) (fun k => (corner positions indices k 1).y)
      (fun k => (corner positions indices k 2).y) rfl
      (fun k => by simp only [globalBox_succ]; rfl) (fun k => rfl) n hn
  · exact minFold_isLeast (fun k => (globalBox positions indices k).min.z) _
      (fun k => (corner positions indices k 0).z) (fun k => (corner positions indices k 1).z)
      (fun k => (corner positions indices k 2).z) rfl
      (fun k => by simp only [globalBox_succ]; rfl) (fun k => rfl) n hn
  · exact maxFold_isGreatest (fun k => (globalBox positions indices k).max.x) _
      (fun k => (corner positions indices k 0).x) (fun k => (corner positions indices k 1).x)
      (fun k => (corner positions indices k 2).x) rfl
      (fun k => by simp only [globalBox_succ]; rfl) (fun k => rfl) n hn
  · exact maxFold_isGreatest (fun k => (globalBox positions indices k).max.y) _
      (fun k => (corner positions indices k 0).y) (fun k => (corner positions indices k 1).y)
      (fun k => (corner positions indices k 2).y) rfl
      (fun k => by simp only [globalBox_succ]; rfl) (fun k => rfl) n hn
  · exact maxFold_isGreatest (fun k => (globalBox positions indices k).max.z) _
      (fun k => (corner positions indices k 0).z) (fun k => (corner positions indices k 1).z)
      (fun k => (corner positions indices k 2).z) rfl
      (fun k => by simp only [globalBox_succ]; rfl) (fun k => rfl) n hn

/-- C7 (as amended): whenever the extractor loop ran to its end (which needs
at least one triangle) and `N = floor(len(indices)/3) < 2^32`, the primitive
boxes are the boxes of the `N` triangles and the global box is their exact
union: on each axis its minimum is the least of the primitive minima and its
maximum the greatest of the primitive maxima, with no padding, so every
primitive box lies inside it. -/
theorem global_aabb_is_union (ops : FloatOps) (dev : Device) (self : BVH)
    (positions : List Vec3) (indices : List Nat) (m s h a : Nat)
    (hpass : (self.buildLBVHDynamic ops dev positions indices m s h a).outcome
        = .degenerateGlobalAABB ∨
      (self.buildLBVHDynamic ops dev positions indices m s h a).outcome = .completed)
    (hN : indices.length / 3 < 2 ^ 32) :
    1 ≤ indices.length / 3 ∧
    (self.buildLBVHDynamic ops dev positions indices m s h a).bvh.primitives.map
        (fun p => p.aabb) =
      (List.range (indices.length / 3)).map (triangleBox positions indices) ∧
    (self.buildLBVHDynamic ops dev positions indices m s h a).bvh.primitives ≠ [] ∧
    IsLeastOf (self.buildLBVHDynamic ops dev positions indices m s h a).globalAABB.min.x
      ((self.buildLBVHDynamic ops dev positions indices m s h a).bvh.primitives.map
        (fun p => p.aabb.min.x)) ∧
    IsLeastOf (self.buildLBVHDynamic ops dev positions indices m s h a).globalAABB.min.y
      ((self.buildLBVHDynamic ops dev positions indices m s h a).bvh.primitives.map
        (fun p => p.aabb.min.y)) ∧
    IsLeastOf (self.buildLBVHDynamic ops dev positions indices m s h a).globalAABB.min.z
      ((self.buildLBVHDynamic ops dev positions indices m s h a).bvh.primitives.map
        (fun p => p.aabb.min.z)) ∧
    IsGreatestOf (self.buildLBVHDynamic ops dev positions indices m s h a).globalAABB.max.x
      ((self.buildLBVHDynamic ops dev positions indices m s h a).bvh.primitives.map
        (fun p => p.aabb.max.x)) ∧
    IsGreatestOf (self.buildLBVHDynamic ops dev positions indices m s h a).globalAABB.max.y
      ((self.buildLBVHDynamic ops dev positions indices m s h a).bvh.primitives.map
        (fun p => p.aabb.max.y)) ∧
    IsGreatestOf (self.buildLBVHDynamic ops dev positions indices m s h a).globalAABB.max.z
      ((self.buildLBVHDynamic ops dev positions indices m s h a).bvh.primitives.map
        (fun p => p.aabb.max.z)) ∧
    (∀ j, j < indices.length / 3 →
      F32.le (self.buildLBVHDynamic ops dev positions indices m s h a).globalAABB.min.x
        (triangleBox positions indices j).min.x = true ∧
      F32.le (self.buildLBVHDynamic ops dev positions indices m s h a).globalAABB.min.y
        (triangleBox positions indices j).min.y = true ∧
      F32.le (self.buildLBVHDynamic ops dev positions indices m s h a).globalAABB.min.z
        (triangleBox positions indices j).min.z = true ∧
      F32.le (triangleBox positions indices j).max.x
        (self.buildLBVHDynamic ops dev positions indices m s h a).globalAABB.max.x = true ∧
      F32.le (triangleBox positions indices j).max.y
        (self.buildLBVHDynamic ops dev positions indices m s h a).globalAABB.max.y = true ∧
      F32.le (triangleBox positions indices j).max.z
        (self.buildLBVHDynamic ops dev positions indices m s h a).globalAABB.max.z = true) := by
  obtain ⟨h0, _, _⟩ := passes_validation ops dev self positions indices m s h a hpass
  obtain ⟨hp, _, hg⟩ := build_extracted ops dev self positions indices m s h a hpass
  have hnt : numTrisOf indices = indices.length / 3 := numTrisOf_of_lt hN
  have hn : 0 < indices.length / 3 := by
    rw [← hnt]
    exact Nat.pos_of_ne_zero h0
  rw [hnt] at hp hg
  obtain ⟨u1, u2, u3, u4, u5, u6⟩ := globalBox_is_union positions indices _ hn
  rw [hp, hg]
  simp only [List.map_map]
  refine ⟨hn, rfl, ?_, u1, u2, u3, u4, u5, u6, ?_⟩
  · intro hnil
    have hlen := congrArg List.length hnil
    simp only [List.length_map, List.length_range, List.length_nil] at hlen
    omega
  · intro j hj
    have hj2 : j ∈ List.range (indices.length / 3) := List.mem_range.mpr hj
    exact ⟨u1.2 _ (List.mem_map.mpr ⟨j, hj2, rfl⟩), u2.2 _ (List.mem_map.mpr ⟨j, hj2, rfl⟩),
      u3.2 _ (List.mem_map.mpr ⟨j, hj2, rfl⟩), u4.2 _ (List.mem_map.mpr ⟨j, hj2, rfl⟩),
      u5.2 _ (List.mem_map.mpr ⟨j, hj2, rfl⟩), u6.2 _ (List.mem_map.mpr ⟨j, hj2, rfl⟩)⟩

/-- Witness for C7 (as amended): two triangles on the corners of the unit
square. -/
theorem global_aabb_is_union_witness :
    (({} : BVH).buildLBVHDynamic exactOps unitDevice cornerPositions [0, 1, 2, 2, 1, 0, 1]
      1 2 3 4).outcome = .completed ∧
    [0, 1, 2, 2, 1, 0, 1].length / 3 < 2 ^ 32 ∧
    (({} : BVH).buildLBVHDynamic exactOps unitDevice cornerPositions [0, 1, 2, 2, 1, 0, 1]
      1 2 3 4).bvh.primitives.map (fun p => p.aabb) =
      (List.range ([0, 1, 2, 2, 1, 0, 1].length / 3)).map
        (triangleBox cornerPositions [0, 1, 2, 2, 1, 0, 1]) ∧
    IsLeastOf
      (({} : BVH).buildLBVHDynamic exactOps unitDevice cornerPositions [0, 1, 2, 2, 1, 0, 1]
        1 2 3 4).globalAABB.min.x
      ((({} : BVH).buildLBVHDynamic exactOps unitDevice cornerPositions [0, 1, 2, 2, 1, 0, 1]
        1 2 3 4).bvh.primitives.map (fun p => p.aabb.min.x)) ∧
    IsGreatestOf
      (({} : BVH).buildLBVHDynamic exactOps unitDevice cornerPositions [0, 1, 2, 2, 1, 0, 1]
        1 2 3 4).globalAABB.max.x
      ((({} : BVH).buildLBVHDynamic exactOps unitDevice cornerPositions [0, 1, 2, 2, 1, 0, 1]
        1 2 3 4).bvh.primitives.map (fun p => p.aabb.max.x)) :=
  have hr := global_aabb_is_union exactOps unitDevice {} cornerPositions [0, 1, 2, 2, 1, 0, 1]
    1 2 3 4 (Or.inr (by decide)) (by decide)
  ⟨by decide, by decide, hr.2.1, hr.2.2.2.1, hr.2.2.2.2.2.2.1⟩

theorem farTriangleIndices_length : farTriangleIndices.length = 3 * 2 ^ 32 + 3 := by
  unfold farTriangleIndices
  rw [List.length_cons, List.length_cons, List.length_cons, List.length_replicate]

theorem farTriangleIndices_triangles : farTriangleIndices.length / 3 = 2 ^ 32 + 1 := by
  rw [farTriangleIndices_length]
  norm_num

theorem numTrisOf_farTriangleIndices : numTrisOf farTriangleIndices = 1 := by
  have h : numTrisOf farTriangleIndices = toU32 (farTriangleIndices.length / 3) := rfl
  rw [h, farTriangleIndices_triangles]
  decide

theorem farTriangleIndices_take :
    farTriangleIndices.take (3 * numTrisOf farTriangleIndices) = [0, 1, 2] := by
  rw [numTrisOf_farTriangleIndices]
  rfl

theorem farTriangleIndices_getD_tail (q : Nat) (h1 : 3 ≤ q) (h2 : q < 6) :
    farTriangleIndices.getD q 0 = 3 := by
  obtain ⟨r, rfl⟩ : ∃ r, q = r + 1 + 1 + 1 := ⟨q - 3, by omega⟩
  unfold farTriangleIndices
  rw [List.getD_eq_getElem?_getD, List.getElem?_cons_succ, List.getElem?_cons_succ,
    List.getElem?_cons_succ, List.getElem?_replicate, if_pos (by omega)]
  rfl

theorem farTriangleIndices_box :
    triangleBox farCornerPositions farTriangleIndices 1 =
      { min := Vec3.splat F32.two, max := Vec3.splat F32.two } := by
  unfold triangleBox corner
  rw [farTriangleIndices_getD_tail _ (by norm_num) (by norm_num),
    farTriangleIndices_getD_tail _ (by norm_num) (by norm_num),
    farTriangleIndices_getD_tail _ (by norm_num) (by norm_num)]
  decide

/-- C7 (counterexample): `2^32 + 1` triangles, every index in range of the four
positions. The build counts one triangle and completes; the global box is the
unit square of triangle 0, with `max.x = 1`, and the box of triangle 1, the
point `(2, 2, 2)`, does not lie inside it. -/
theorem global_aabb_misses_triangle :
    farTriangleIndices.length / 3 = 2 ^ 32 + 1 ∧
    (∀ v ∈ farTriangleIndices, v < farCornerPositions.length) ∧
    (({} : BVH).buildLBVHDynamic exactOps unitDevice farCornerPositions farTriangleIndices
      1 2 3 4).outcome = .completed ∧
    (({} : BVH).buildLBVHDynamic exactOps unitDevice farCornerPositions farTriangleIndices
      1 2 3 4).bvh.primitives.length = 1 ∧
    (({} : BVH).buildLBVHDynamic exactOps unitDevice farCornerPositions farTriangleIndices
      1 2 3 4).globalAABB.max.x = F32.one ∧
    (triangleBox farCornerPositions farTriangleIndices 1).max.x = F32.two ∧
    F32.le (triangleBox farCornerPositions farTriangleIndices 1).max.x
      (({} : BVH).buildLBVHDynamic exactOps unitDevice farCornerPositions farTriangleIndices
        1 2 3 4).globalAABB.max.x = false := by
  refine ⟨farTriangleIndices_triangles, ?_, ?_, ?_, ?_, ?_, ?_⟩
  · intro v hv
    unfold farTriangleIndices at hv
    simp only [List.mem_cons] at hv
    rcases hv with rfl | rfl | rfl | hv
    · decide
    · decide
    · decide
    · have : v = 3 := List.eq_of_mem_replicate hv
      subst this
      decide
  · rw [← build_take, farTriangleIndices_take]
    decide
  · rw [← build_take, farTriangleIndices_take]
    decide
  · rw [← build_take, farTriangleIndices_take]
    decide
  · rw [farTriangleIndices_box]
    rfl
  · rw [farTriangleIndices_box, ← build_take, farTriangleIndices_take]
    decide

/-! ## The host-side sort -/

theorem mortonLess_eq_false_iff (a b : MortonCodeElement) :
    mortonLess b a = false ↔
      a.mortonCode < b.mortonCode ∨ (a.mortonCode = b.mortonCode ∧ a.elementIdx ≤ b.elementIdx) := by
  unfold mortonLess
  by_cases h : b.mortonCode = a.mortonCode
  · rw [if_pos h]
    simp only [decide_eq_false_iff_not, not_lt]
    constructor
    · intro hle
      exact Or.inr ⟨h.symm, hle⟩
    · rintro (hlt | ⟨_, hle⟩)
      · omega
      · exact hle
  · rw [if_neg h]
    simp only [decide_eq_false_iff_not, not_lt]
    constructor
    · intro hle
      exact Or.inl (by omega)
    · rintro (hlt | ⟨he, _⟩)
      · omega
      · exact absurd he.symm h

theorem mortonOrder_total (a b : MortonCodeElement) :
    mortonLess b a = false ∨ mortonLess a b = false := by
  rw [mortonLess_eq_false_iff, mortonLess_eq_false_iff]
  omega

theorem mortonOrder_trans (a b c : MortonCodeElement) (h1 : mortonLess b a = false)
    (h2 : mortonLess c b = false) : mortonLess c a = false := by
  rw [mortonLess_eq_false_iff] at h1 h2 ⊢
  omega

theorem mortonOrder_antisymm (a b : MortonCodeElement) (h1 : mortonLess b a = false)
    (h2 : mortonLess a b = false) : a = b := by
  rw [mortonLess_eq_false_iff] at h1 h2
  cases a
  cases b
  simp only [MortonCodeElement.mk.injEq] at h1 h2 ⊢
  omega

/-- The sorted array is a permutation, never places `b` before `a` when
`comp(a, b)` holds, and is the only such arrangement: whatever algorithm
`std::sort` uses, this is its result. -/
theorem stdSort_mortonLess_spec (data : List MortonCodeElement) :
    (stdSort mortonLess data).Perm data ∧
    (stdSort mortonLess data).Pairwise (fun a b => mortonLess b a = false) ∧
    ∀ out : List MortonCodeElement, out.Perm data →
      out.Pairwise (fun a b => mortonLess b a = false) → out = stdSort mortonLess data := by
  haveI : IsTotal MortonCodeElement (fun a b => mortonLess b a = false) := ⟨mortonOrder_total⟩
  haveI : IsTrans MortonCodeElement (fun a b => mortonLess b a = false) := ⟨mortonOrder_trans⟩
  haveI : IsAntisymm MortonCodeElement (fun a b => mortonLess b a = false) :=
    ⟨mortonOrder_antisymm⟩
  have hperm : (stdSort mortonLess data).Perm data := List.perm_insertionSort _ data
  have hsorted : (stdSort mortonLess data).Sorted (fun a b => mortonLess b a = false) :=
    List.sorted_insertionSort _ data
  refine ⟨hperm, hsorted, ?_⟩
  intro out hp hs
  exact List.eq_of_perm_of_sorted (hp.trans hperm.symm) hs hsorted

theorem hierarchyStageCalls_upload (dev : Device) (n : Nat) (md : List MortonCodeElement)
    (hs : Nat) :
    GLCall.bufferData .shaderStorage (n * 8) (.morton md) .staticDraw ∈
      hierarchyStageCalls dev n md hs := by
  simp [hierarchyStageCalls]

theorem deviceStages_mortonData (ops : FloatOps) (dev : Device) (self : BVH) (n : Nat)
    (st : ExtractState) (e : Vec3) (m h a : Nat) :
    (deviceStages ops dev self n st e m h a).mortonData = sortedMortonData dev n := rfl

/-- C8: in a completed build, the array uploaded to the Morton buffer for the
hierarchy stage is a permutation of the `numTris` pairs read back from the
Morton stage, its `mortonCode`s are non-decreasing, and entries with equal
`mortonCode` stand in ascending `elementIdx` order. -/
theorem sorted_morton_upload (ops : FloatOps) (dev : Device) (self : BVH)
    (positions : List Vec3) (indices : List Nat) (m s h a : Nat)
    (hdone : (self.buildLBVHDynamic ops dev positions indices m s h a).outcome = .completed) :
    GLCall.bufferData .shaderStorage (numTrisOf indices * 8)
        (.morton (self.buildLBVHDynamic ops dev positions indices m s h a).mortonData)
        .staticDraw ∈ (self.buildLBVHDynamic ops dev positions indices m s h a).trace ∧
    (self.buildLBVHDynamic ops dev positions indices m s h a).mortonData.Perm
      ((List.range (numTrisOf indices)).map dev.mortonReadback) ∧
    (self.buildLBVHDynamic ops dev positions indices m s h a).mortonData.Pairwise
      (fun x y => x.mortonCode ≤ y.mortonCode) ∧
    (self.buildLBVHDynamic ops dev positions indices m s h a).mortonData.Pairwise
      (fun x y => x.mortonCode = y.mortonCode → x.elementIdx ≤ y.elementIdx) := by
  rw [build_completed ops dev self positions indices m s h a hdone, deviceStages_trace,
    deviceStages_mortonData]
  obtain ⟨hperm, hsorted, _⟩ :=
    stdSort_mortonLess_spec ((List.range (numTrisOf indices)).map dev.mortonReadback)
  refine ⟨?_, hperm, ?_, ?_⟩
  · simp only [List.append_assoc]
    exact List.mem_append_right _ (List.mem_append_left _ (hierarchyStageCalls_upload _ _ _ _))
  · refine List.Pairwise.imp ?_ hsorted
    intro x y hxy
    rcases (mortonLess_eq_false_iff x y).mp hxy with hlt | ⟨he, _⟩
    · omega
    · omega
  · refine List.Pairwise.imp ?_ hsorted
    intro x y hxy he
    rcases (mortonLess_eq_false_iff x y).mp hxy with hlt | ⟨_, hle⟩
    · omega
    · exact hle

/-- Witness for C8: two triangles whose keys are read back as `(7, 0), (6, 1)`. -/
theorem sorted_morton_upload_witness :
    (({} : BVH).buildLBVHDynamic exactOps unitDevice cornerPositions [0, 1, 2, 2, 1, 0, 1]
      1 2 3 4).outcome = .completed ∧
    (List.range (numTrisOf [0, 1, 2, 2, 1, 0, 1])).map unitDevice.mortonReadback
      = [⟨7, 0⟩, ⟨6, 1⟩] ∧
    (({} : BVH).buildLBVHDynamic exactOps unitDevice cornerPositions [0, 1, 2, 2, 1, 0, 1]
      1 2 3 4).mortonData = [⟨6, 1⟩, ⟨7, 0⟩] ∧
    (({} : BVH).buildLBVHDynamic exactOps unitDevice cornerPositions [0, 1, 2, 2, 1, 0, 1]
      1 2 3 4).mortonData.Pairwise (fun x y => x.mortonCode ≤ y.mortonCode) :=
  ⟨by decide, by decide, by decide,
    (sorted_morton_upload exactOps unitDevice {} cornerPositions [0, 1, 2, 2, 1, 0, 1] 1 2 3 4
      (by decide)).2.2.1⟩

/-! ## The node count -/

theorem totalNodesOf_eq (n : Nat) (h1 : 1 ≤ n) (h2 : n ≤ 2 ^ 31) : totalNodesOf n = 2 * n - 1 := by
  simp only [totalNodesOf, subU32, mulU32, toU32, Int.ofNat_eq_coe]
  omega

theorem deviceStages_lbvhNodes (ops : FloatOps) (dev : Device) (self : BVH) (n : Nat)
    (st : ExtractState) (e : Vec3) (m h a : Nat) :
    (deviceStages ops dev self n st e m h a).lbvhNodes = readNodes dev n := rfl

theorem hierarchyStageCalls_alloc (dev : Device) (n : Nat) (md : List MortonCodeElement)
    (hs : Nat) :
    GLCall.bufferData .shaderStorage (totalNodesOf n * 36) .none .dynamicCopy ∈
      hierarchyStageCalls dev n md hs := by
  simp [hierarchyStageCalls]

theorem aabbStageCalls_readback (dev : Device) (n a : Nat) :
    GLCall.getBufferSubData .shaderStorage (totalNodesOf n * 36) ∈ aabbStageCalls dev n a := by
  simp [aabbStageCalls]

/-- In a completed build the node array has `totalNodes` entries, and that is
the size allocated on line 158 and read back on line 197. -/
theorem node_array_size (ops : FloatOps) (dev : Device) (self : BVH)
    (positions : List Vec3) (indices : List Nat) (m s h a : Nat)
    (hdone : (self.buildLBVHDynamic ops dev positions indices m s h a).outcome = .completed) :
    (self.buildLBVHDynamic ops dev positions indices m s h a).lbvhNodes.length
      = totalNodesOf (numTrisOf indices) ∧
    GLCall.bufferData .shaderStorage (totalNodesOf (numTrisOf indices) * 36) .none .dynamicCopy ∈
      (self.buildLBVHDynamic ops dev positions indices m s h a).trace ∧
    GLCall.getBufferSubData .shaderStorage (totalNodesOf (numTrisOf indices) * 36) ∈
      (self.buildLBVHDynamic ops dev positions indices m s h a).trace := by
  rw [build_completed ops dev self positions indices m s h a hdone, deviceStages_trace,
    deviceStages_lbvhNodes]
  refine ⟨?_, ?_, ?_⟩
  · simp only [readNodes, List.length_map, List.length_range]
  · simp only [List.append_assoc]
    exact List.mem_append_right _ (List.mem_append_left _ (hierarchyStageCalls_alloc _ _ _ _))
  · simp only [List.append_assoc]
    exact List.mem_append_right _ (List.mem_append_right _
      (List.mem_append_left _ (aabbStageCalls_readback _ _ _)))

/-- C9 (as amended): a completed build on `N = indices.size() / 3` triangles
with `N <= 2^31` allocates and reads back a node array of exactly `2 * N - 1`
entries (one entry for `N = 1`); `N >= 1` holds for every completed build. -/
theorem node_count_two_n_minus_one (ops : FloatOps) (dev : Device) (self : BVH)
    (positions : List Vec3) (indices : List Nat) (m s h a : Nat)
    (hdone : (self.buildLBVHDynamic ops dev positions indices m s h a).outcome = .completed)
    (hN : indices.length / 3 ≤ 2 ^ 31) :
    1 ≤ indices.length / 3 ∧
    (self.buildLBVHDynamic ops dev positions indices m s h a).lbvhNodes.length
      = 2 * (indices.length / 3) - 1 ∧
    GLCall.bufferData .shaderStorage ((2 * (indices.length / 3) - 1) * 36) .none .dynamicCopy ∈
      (self.buildLBVHDynamic ops dev positions indices m s h a).trace ∧
    GLCall.getBufferSubData .shaderStorage ((2 * (indices.length / 3) - 1) * 36) ∈
      (self.buildLBVHDynamic ops dev positions indices m s h a).trace := by
  obtain ⟨h0, _, _⟩ := passes_validation ops dev self positions indices m s h a (Or.inr hdone)
  have hnt : numTrisOf indices = indices.length / 3 :=
    numTrisOf_of_lt (lt_of_le_of_lt hN (by norm_num))
  have h1 : 1 ≤ indices.length / 3 := by
    rw [← hnt]
    exact Nat.pos_of_ne_zero h0
  obtain ⟨hlen, halloc, hread⟩ := node_array_size ops dev self positions indices m s h a hdone
  rw [hnt, totalNodesOf_eq _ h1 hN] at hlen halloc hread
  exact ⟨h1, hlen, halloc, hread⟩

/-- Witness for C9 (as amended): two triangles give three nodes. -/
theorem node_count_two_n_minus_one_witness :
    (({} : BVH).buildLBVHDynamic exactOps unitDevice cornerPositions [0, 1, 2, 2, 1, 0, 1]
      1 2 3 4).outcome = .completed ∧
    [0, 1, 2, 2, 1, 0, 1].length / 3 ≤ 2 ^ 31 ∧
    (({} : BVH).buildLBVHDynamic exactOps unitDevice cornerPositions [0, 1, 2, 2, 1, 0, 1]
      1 2 3 4).lbvhNodes.length = 2 * ([0, 1, 2, 2, 1, 0, 1].length / 3) - 1 :=
  ⟨by decide, by decide,
    (node_count_two_n_minus_one exactOps unitDevice {} cornerPositions [0, 1, 2, 2, 1, 0, 1]
      1 2 3 4 (by decide) (by decide)).2.1⟩
theorem overflowIndices_length : overflowIndices.length = 3 * 2 ^ 31 + 3 := by
  unfold overflowIndices
  rw [List.length_cons, List.length_cons, List.length_cons, List.length_replicate]

theorem overflowIndices_triangles : overflowIndices.length / 3 = 2 ^ 31 + 1 := by
  rw [overflowIndices_length]
  norm_num

theorem numTrisOf_overflowIndices : numTrisOf overflowIndices = 2 ^ 31 + 1 := by
  have h : numTrisOf overflowIndices = toU32 (overflowIndices.length / 3) := rfl
  rw [h, overflowIndices_triangles]
  decide

theorem overflowIndices_getD_tail (q : Nat) (hq : 3 ≤ q) : overflowIndices.getD q 0 = 0 := by
  obtain ⟨r, rfl⟩ : ∃ r, q = r + 1 + 1 + 1 := ⟨q - 3, by omega⟩
  unfold overflowIndices
  rw [List.getD_eq_getElem?_getD, List.getElem?_cons_succ, List.getElem?_cons_succ,
    List.getElem?_cons_succ, List.getElem?_replicate]
  split_ifs <;> rfl

theorem overflowIndices_getD_lt (q : Nat) : overflowIndices.getD q 0 < 3 := by
  by_cases hq : 3 ≤ q
  · rw [overflowIndices_getD_tail q hq]
    norm_num
  · have h3 : q = 0 ∨ q = 1 ∨ q = 2 := by omega
    rcases h3 with rfl | rfl | rfl
    · show (0 : Nat) < 3
      norm_num
    · show (1 : Nat) < 3
      norm_num
    · show (2 : Nat) < 3
      norm_num

theorem overflowIndices_inRange (j : Nat) : TriangleInRange cornerPositions overflowIndices j :=
  ⟨overflowIndices_getD_lt _, overflowIndices_getD_lt _, overflowIndices_getD_lt _⟩

theorem overflowIndices_corner (j : Nat) (hj : 1 ≤ j) (c : Nat) :
    corner cornerPositions overflowIndices j c = originPoint := by
  unfold corner
  rw [overflowIndices_getD_tail _ (by omega)]
  rfl

theorem overflowIndices_globalBox (n : Nat) (hn : 1 ≤ n) :
    globalBox cornerPositions overflowIndices n = unitSquareBox := by
  induction n with
  | zero => omega
  | succ k ih =>
    rw [globalBox_succ]
    rcases Nat.eq_zero_or_pos k with hk | hk
    · subst hk
      rfl
    · rw [ih hk]
      unfold expandTriangle
      rw [overflowIndices_corner k hk 0, overflowIndices_corner k hk 1,
        overflowIndices_corner k hk 2]
      decide

/-- With a context, a non-zero triangle count, every visited triangle in range
and an accumulated box failing the test of line 80, the build completes. -/
theorem build_completed_of_valid (ops : FloatOps) (dev : Device) (self : BVH)
    (positions : List Vec3) (indices : List Nat) (m s h a : Nat)
    (h0 : numTrisOf indices ≠ 0) (hc : dev.hasContext = true)
    (hall : ∀ j, j < numTrisOf indices → TriangleInRange positions indices j)
    (hnd : glm.all (glm.lessThanEqual
      (extentOf ops (globalBox positions indices (numTrisOf indices))) (Vec3.splat eps)) = false) :
    (self.buildLBVHDynamic ops dev positions indices m s h a).outcome = .completed := by
  rw [build_of_valid ops dev self positions indices m s h a h0 hc hall, afterLoop_none]
  have hnd' : ¬ glm.all (glm.lessThanEqual
      (Vec3.sub ops (extractedState positions indices (numTrisOf indices)).globalAABB.max
        (extractedState positions indices (numTrisOf indices)).globalAABB.min)
      (Vec3.splat eps)) = true := by
    intro ht
    have hf : glm.all (glm.lessThanEqual
      (Vec3.sub ops (extractedState positions indices (numTrisOf indices)).globalAABB.max
        (extractedState positions indices (numTrisOf indices)).globalAABB.min)
      (Vec3.splat eps)) = false := hnd
    rw [ht] at hf
    cases hf
  rw [if_neg hnd']
  rfl

theorem overflowIndices_completed :
    (({} : BVH).buildLBVHDynamic exactOps unitDevice cornerPositions overflowIndices
      1 2 3 4).outcome = .completed := by
  apply build_completed_of_valid
  · rw [numTrisOf_overflowIndices]
    norm_num
  · rfl
  · intro j _
    exact overflowIndices_inRange j
  · rw [overflowIndices_globalBox _ (by rw [numTrisOf_overflowIndices]; norm_num)]
    decide

/-- C9 (counterexample): a build on `N = 2^31 + 1` triangles runs to completion
with a node array of one entry, where `2 * N - 1 = 2^32 + 1`. -/
theorem node_count_wraps :
    overflowIndices.length / 3 = 2 ^ 31 + 1 ∧
    (({} : BVH).buildLBVHDynamic exactOps unitDevice cornerPositions overflowIndices
      1 2 3 4).outcome = .completed ∧
    (({} : BVH).buildLBVHDynamic exactOps unitDevice cornerPositions overflowIndices
      1 2 3 4).lbvhNodes.length = 1 ∧
    2 * (overflowIndices.length / 3) - 1 = 2 ^ 32 + 1 := by
  refine ⟨overflowIndices_triangles, overflowIndices_completed, ?_, ?_⟩
  · rw [(node_array_size exactOps unitDevice {} cornerPositions overflowIndices 1 2 3 4
      overflowIndices_completed).1, numTrisOf_overflowIndices]
    decide
  · rw [overflowIndices_triangles]
    norm_num

/-! ## The instance filter -/

theorem skipNode_eq_false_iff (ops : FloatOps) (node : LBVHNode) :
    skipNode ops node = false ↔ NodeIsValid ops node := by
  simp only [skipNode, NodeIsValid, glm.any, glm.lessThanEqual, glm.isnan, glm.isinf, Vec3.sub,
    Vec3.splat, LBVHNode.nodeMin, LBVHNode.nodeMax, Bool.or_eq_false_iff, List.mem_cons,
    List.mem_singleton, List.not_mem_nil, or_false, forall_eq_or_imp, forall_eq]
  tauto

theorem not_skipNode_eq_decide (ops : FloatOps) :
    (fun nd => !skipNode ops nd) = fun nd => decide (NodeIsValid ops nd) := by
  funext nd
  by_cases hv : NodeIsValid ops nd
  · rw [(skipNode_eq_false_iff ops nd).mpr hv]
    simp [hv]
  · have hs : skipNode ops nd = true := by
      cases hsk : skipNode ops nd
      · exact absurd ((skipNode_eq_false_iff ops nd).mp hsk) hv
      · rfl
    rw [hs]
    simp [hv]

theorem filterLoop_zero (ops : FloatOps) (nodes : List LBVHNode) (i : Nat) (st : FilterState) :
    filterLoop ops nodes 0 i st = st := rfl

theorem filterLoop_succ_skip (ops : FloatOps) (nodes : List LBVHNode) (k i : Nat)
    (st : FilterState) (hs : skipNode ops (nodes.getD i default) = true) :
    filterLoop ops nodes (k + 1) i st =
      filterLoop ops nodes k (i + 1) { st with degenerateCount := st.degenerateCount + 1 } := by
  rw [filterLoop]
  simp only [hs, if_true]

theorem filterLoop_succ_keep (ops : FloatOps) (nodes : List LBVHNode) (k i : Nat)
    (st : FilterState) (hs : skipNode ops (nodes.getD i default) = false) :
    filterLoop ops nodes (k + 1) i st =
      filterLoop ops nodes k (i + 1)
        { st with
          instanceData := st.instanceData ++ instancePair ops (nodes.getD i default)
          validNodeCount := st.validNodeCount + 1 } := by
  rw [filterLoop]
  simp only [hs, Bool.false_eq_true, if_false]
  rfl

/-- The filter loop run from index `i` to the end of the node array, in closed
form: the kept nodes are those of `nodes.drop i` that are not skipped. -/
theorem filterLoop_eq (ops : FloatOps) (nodes : List LBVHNode) (k i : Nat) (st : FilterState)
    (hk : k = nodes.length - i) :
    filterLoop ops nodes k i st =
      { instanceData := st.instanceData ++
          ((nodes.drop i).filter (fun nd => !skipNode ops nd)).flatMap (instancePair ops)
        validNodeCount := st.validNodeCount +
          ((nodes.drop i).filter (fun nd => !skipNode ops nd)).length
        degenerateCount := st.degenerateCount +
          ((nodes.drop i).filter (fun nd => skipNode ops nd)).length } := by
  induction k generalizing i st with
  | zero =>
    rw [filterLoop_zero, List.drop_of_length_le (by omega)]
    simp
  | succ k ih =>
    have hi : i < nodes.length := by omega
    have hget : nodes.getD i default = nodes[i] := List.getD_eq_getElem _ _ hi
    have hd : nodes.drop i = nodes[i] :: nodes.drop (i + 1) := List.drop_eq_getElem_cons hi
    cases hs : skipNode ops nodes[i]
    · rw [filterLoop_succ_keep ops nodes k i st (by rw [hget]; exact hs),
        ih (i + 1) _ (by omega), hget, hd]
      simp only [List.filter_cons, hs, Bool.not_false, if_true, List.flatMap_cons,
        List.length_cons, List.append_assoc, Bool.false_eq_true, if_false]
      congr 1
      omega
    · rw [filterLoop_succ_skip ops nodes k i st (by rw [hget]; exact hs),
        ih (i + 1) _ (by omega), hd]
      simp only [List.filter_cons, hs, Bool.not_true, if_true, List.length_cons,
        Bool.false_eq_true, if_false]
      congr 1
      omega

theorem subU32_one (n : Nat) (h1 : 1 ≤ n) (h2 : n < 2 ^ 32) : subU32 n 1 = n - 1 := by
  simp only [subU32, Int.ofNat_eq_coe]
  omega

theorem readNodes_length (dev : Device) (n : Nat) :
    (readNodes dev n).length = totalNodesOf n := by
  simp only [readNodes, List.length_map, List.length_range]

/-- The variables left by the filter loop of a build on `n` triangles. -/
theorem filterNodes_eq (ops : FloatOps) (dev : Device) (n : Nat) :
    filterNodes ops n (readNodes dev n) =
      { instanceData :=
          (((readNodes dev n).drop (subU32 n 1)).filter (fun nd => !skipNode ops nd)).flatMap
            (instancePair ops)
        validNodeCount :=
          (((readNodes dev n).drop (subU32 n 1)).filter (fun nd => !skipNode ops nd)).length
        degenerateCount :=
          (((readNodes dev n).drop (subU32 n 1)).filter (fun nd => skipNode ops nd)).length } := by
  unfold filterNodes
  rw [filterLoop_eq ops (readNodes dev n) _ _ {} (by rw [readNodes_length])]
  simp

theorem deviceStages_instanceData (ops : FloatOps) (dev : Device) (self : BVH) (n : Nat)
    (st : ExtractState) (e : Vec3) (m h a : Nat) :
    (deviceStages ops dev self n st e m h a).instanceData =
      (filterNodes ops n (readNodes dev n)).instanceData := rfl

/-- C10 (as amended): in a completed build on `N = indices.size() / 3 <= 2^31`
triangles the node array has `2 * N - 1` entries and the instance list holds,
in node-index order, exactly one (center, scale) pair for each node of index
`>= N - 1` whose extent exceeds `0.0001f` on every axis and whose six bounds
are finite; the `N - 1` nodes of index `< N - 1` are never visited and
contribute no pair. -/
theorem instances_of_visited_nodes (ops : FloatOps) (dev : Device) (self : BVH)
    (positions : List Vec3) (indices : List Nat) (m s h a : Nat)
    (hdone : (self.buildLBVHDynamic ops dev positions indices m s h a).outcome = .completed)
    (hN : indices.length / 3 ≤ 2 ^ 31) :
    (self.buildLBVHDynamic ops dev positions indices m s h a).lbvhNodes.length
      = 2 * (indices.length / 3) - 1 ∧
    (self.buildLBVHDynamic ops dev positions indices m s h a).instanceData =
      (((self.buildLBVHDynamic ops dev positions indices m s h a).lbvhNodes.drop
          (indices.length / 3 - 1)).filter (fun nd => decide (NodeIsValid ops nd))).flatMap
        (fun nd => [instanceCenter ops nd, instanceScale ops nd]) := by
  obtain ⟨h0, _, _⟩ := passes_validation ops dev self positions indices m s h a (Or.inr hdone)
  have hlt : indices.length / 3 < 2 ^ 32 := lt_of_le_of_lt hN (by norm_num)
  have hnt : numTrisOf indices = indices.length / 3 := numTrisOf_of_lt hlt
  have h1 : 1 ≤ indices.length / 3 := by
    rw [← hnt]
    exact Nat.pos_of_ne_zero h0
  rw [build_completed ops dev self positions indices m s h a hdone, deviceStages_lbvhNodes,
    deviceStages_instanceData, filterNodes_eq, hnt, readNodes_length, totalNodesOf_eq _ h1 hN,
    subU32_one _ h1 hlt, not_skipNode_eq_decide]
  exact ⟨rfl, rfl⟩

/-- Witness for C10 (as amended): two triangles, three valid nodes, two pairs. -/
theorem instances_of_visited_nodes_witness :
    (({} : BVH).buildLBVHDynamic exactOps unitDevice cornerPositions [0, 1, 2, 2, 1, 0, 1]
      1 2 3 4).outcome = .completed ∧
    [0, 1, 2, 2, 1, 0, 1].length / 3 ≤ 2 ^ 31 ∧
    (({} : BVH).buildLBVHDynamic exactOps unitDevice cornerPositions [0, 1, 2, 2, 1, 0, 1]
      1 2 3 4).instanceData =
      (((({} : BVH).buildLBVHDynamic exactOps unitDevice cornerPositions [0, 1, 2, 2, 1, 0, 1]
          1 2 3 4).lbvhNodes.drop
          ([0, 1, 2, 2, 1, 0, 1].length / 3 - 1)).filter
            (fun nd => decide (NodeIsValid exactOps nd))).flatMap
        (fun nd => [instanceCenter exactOps nd, instanceScale exactOps nd]) :=
  ⟨by decide, by decide,
    (instances_of_visited_nodes exactOps unitDevice {} cornerPositions [0, 1, 2, 2, 1, 0, 1]
      1 2 3 4 (by decide) (by decide)).2⟩

/-- C10 (counterexample): with two triangles the three nodes read back all have
extent one and finite bounds, yet the instance list holds two pairs and the
centre of node 0 is not among them. -/
theorem root_node_not_instanced :
    (({} : BVH).buildLBVHDynamic exactOps unitDevice cornerPositions [0, 1, 2, 2, 1, 0, 1]
      1 2 3 4).outcome = .completed ∧
    (({} : BVH).buildLBVHDynamic exactOps unitDevice cornerPositions [0, 1, 2, 2, 1, 0, 1]
      1 2 3 4).lbvhNodes.length = 3 ∧
    (∀ nd ∈ (({} : BVH).buildLBVHDynamic exactOps unitDevice cornerPositions
      [0, 1, 2, 2, 1, 0, 1] 1 2 3 4).lbvhNodes, NodeIsValid exactOps nd) ∧
    (({} : BVH).buildLBVHDynamic exactOps unitDevice cornerPositions [0, 1, 2, 2, 1, 0, 1]
      1 2 3 4).instanceData.length = 4 ∧
    instanceCenter exactOps ((({} : BVH).buildLBVHDynamic exactOps unitDevice cornerPositions
      [0, 1, 2, 2, 1, 0, 1] 1 2 3 4).lbvhNodes.getD 0 default) ∉
      (({} : BVH).buildLBVHDynamic exactOps unitDevice cornerPositions [0, 1, 2, 2, 1, 0, 1]
        1 2 3 4).instanceData := by
  decide

/-! ## Properties of the rounding -/

theorem bitLengthAux_lt (fuel : Nat) : ∀ n, n ≤ fuel → n < 2 ^ bitLengthAux fuel n := by
  induction fuel with
  | zero => intro n hn; simp [bitLengthAux]; omega
  | succ k ih =>
    intro n hn
    unfold bitLengthAux
    by_cases h0 : n = 0
    · simp [h0]
    · rw [if_neg h0, pow_succ]
      have := ih (n / 2) (by omega)
      omega

theorem bitLengthAux_ge (fuel : Nat) :
    ∀ n, 0 < n → n ≤ fuel → 2 ^ (bitLengthAux fuel n - 1) ≤ n := by
  induction fuel with
  | zero => intro n h1 h2; omega
  | succ k ih =>
    intro n h1 hn
    unfold bitLengthAux
    rw [if_neg (by omega), Nat.add_sub_cancel]
    by_cases h2 : n / 2 = 0
    · rw [h2]
      have : bitLengthAux k 0 = 0 := by cases k <;> simp [bitLengthAux]
      rw [this]
      simpa using h1
    · have hlt := bitLengthAux_lt k (n / 2) (by omega)
      have hge := ih (n / 2) (by omega) (by omega)
      have hpos : 0 < bitLengthAux k (n / 2) := by
        by_contra hc
        have : bitLengthAux k (n / 2) = 0 := by omega
        rw [this] at hlt
        simp at hlt
        exact h2 hlt
      have e : bitLengthAux k (n / 2) = (bitLengthAux k (n / 2) - 1) + 1 := by omega
      rw [e, pow_succ]
      omega

theorem lt_pow_bitLength (n : Nat) : n < 2 ^ bitLength n := bitLengthAux_lt n n (le_refl n)

theorem pow_bitLength_le (n : Nat) (hn : 0 < n) : 2 ^ (bitLength n - 1) ≤ n :=
  bitLengthAux_ge n n hn (le_refl n)

theorem bitLength_zero : bitLength 0 = 0 := rfl

theorem bitLength_pos (n : Nat) (hn : 0 < n) : 0 < bitLength n := by
  by_contra hc
  have h0 : bitLength n = 0 := by omega
  have := lt_pow_bitLength n
  rw [h0] at this
  omega

theorem bitLength_mono (a b : Nat) (h : a ≤ b) : bitLength a ≤ bitLength b := by
  rcases Nat.eq_zero_or_pos a with rfl | ha
  · rw [bitLength_zero]; omega
  · by_contra hc
    have h1 := pow_bitLength_le a ha
    have h2 := lt_pow_bitLength b
    have h3 : 2 ^ bitLength b ≤ 2 ^ (bitLength a - 1) :=
      Nat.pow_le_pow_right (by norm_num) (by omega)
    omega

theorem div_le_div_of_cross (p1 d1 p2 d2 : Nat) (h1 : 0 < d1) (h2 : 0 < d2)
    (h : p1 * d2 ≤ p2 * d1) : p1 / d1 ≤ p2 / d2 := by
  rw [Nat.le_div_iff_mul_le h2]
  have e1 : p1 / d1 * d1 ≤ p1 := Nat.div_mul_le_self p1 d1
  have e2 : p1 / d1 * d2 * d1 ≤ p2 * d1 := by
    calc p1 / d1 * d2 * d1 = p1 / d1 * d1 * d2 := by ring
      _ ≤ p1 * d2 := Nat.mul_le_mul_right d2 e1
      _ ≤ p2 * d1 := h
  exact Nat.le_of_mul_le_mul_right e2 h1

theorem roundToGrid_ge (p d : Nat) : p / d ≤ roundToGrid p d := by
  unfold roundToGrid
  split_ifs <;> omega

theorem roundToGrid_le (p d : Nat) : roundToGrid p d ≤ p / d + 1 := by
  unfold roundToGrid
  split_ifs <;> omega

/-- Rounding to the nearest integer is monotone in the quotient. -/
theorem roundToGrid_mono (p1 d1 p2 d2 : Nat) (h1 : 0 < d1) (h2 : 0 < d2)
    (h : p1 * d2 ≤ p2 * d1) : roundToGrid p1 d1 ≤ roundToGrid p2 d2 := by
  have hn := div_le_div_of_cross p1 d1 p2 d2 h1 h2 h
  rcases Nat.lt_or_ge (p1 / d1) (p2 / d2) with hlt | hge
  · exact le_trans (roundToGrid_le p1 d1) (le_trans hlt (roundToGrid_ge p2 d2))
  · have hn2 : p1 / d1 = p2 / d2 := le_antisymm hn hge
    have q1 := Nat.div_add_mod p1 d1
    have q2 := Nat.div_add_mod p2 d2
    have r1 : p1 % d1 < d1 := Nat.mod_lt _ h1
    have r2 : p2 % d2 < d2 := Nat.mod_lt _ h2
    have hr : p1 % d1 * d2 ≤ p2 % d2 * d1 := by
      have e1 : p1 * d2 = d1 * d2 * (p1 / d1) + p1 % d1 * d2 := by
        conv_lhs => rw [← q1]
        ring
      have e2 : p2 * d1 = d1 * d2 * (p1 / d1) + p2 % d2 * d1 := by
        conv_lhs => rw [← q2, ← hn2]
        ring
      rw [e1, e2] at h
      omega
    unfold roundToGrid
    rw [← hn2]
    by_cases up1 : d1 < 2 * (p1 % d1) ∨ (2 * (p1 % d1) = d1 ∧ (p1 / d1) % 2 = 1)
    · have up2 : d2 < 2 * (p2 % d2) ∨ (2 * (p2 % d2) = d2 ∧ (p1 / d1) % 2 = 1) := by
        have hge2 : (2 * (p1 % d1)) * d2 ≤ (2 * (p2 % d2)) * d1 := by
          calc (2 * (p1 % d1)) * d2 = 2 * (p1 % d1 * d2) := by ring
            _ ≤ 2 * (p2 % d2 * d1) := Nat.mul_le_mul_left 2 hr
            _ = (2 * (p2 % d2)) * d1 := by ring
        rcases up1 with u | ⟨u, v⟩
        · left
          by_contra hc
          have hc2 : 2 * (p2 % d2) ≤ d2 := by omega
          have a1 : d1 * d2 < (2 * (p1 % d1)) * d2 := Nat.mul_lt_mul_of_pos_right u h2
          have a2 : (2 * (p2 % d2)) * d1 ≤ d2 * d1 := Nat.mul_le_mul_right d1 hc2
          have a3 : d2 * d1 = d1 * d2 := Nat.mul_comm _ _
          omega
        · rcases Nat.lt_or_ge d2 (2 * (p2 % d2)) with w | w
          · exact Or.inl w
          · right
            refine ⟨?_, v⟩
            rw [u] at hge2
            have a2 : (2 * (p2 % d2)) * d1 ≤ d2 * d1 := Nat.mul_le_mul_right d1 w
            have a3 : d2 * d1 = d1 * d2 := Nat.mul_comm _ _
            have a4 : (2 * (p2 % d2)) * d1 = d2 * d1 := by omega
            exact Nat.eq_of_mul_eq_mul_right h1 a4
      rw [if_pos up1, if_pos up2]
    · rw [if_neg up1]
      split_ifs <;> omega

/-- The rounded magnitude is at most `2^L`, with `L` the number of digits of
the integer part. -/
theorem roundNearestEven_le_pow (p q : Nat) (hq : 0 < q) :
    roundNearestEven p q ≤ 2 ^ bitLength (p / q) := by
  unfold roundNearestEven
  have hlt := lt_pow_bitLength (p / q)
  rcases Nat.lt_or_ge (bitLength (p / q)) 24 with hL | hL
  · have hs : bitLength (p / q) - 24 = 0 := by omega
    rw [hs, pow_zero, Nat.mul_one, Nat.mul_one]
    exact le_trans (roundToGrid_le p q) hlt
  · have hd : 0 < q * 2 ^ (bitLength (p / q) - 24) := Nat.mul_pos hq (by positivity)
    have hn : p / (q * 2 ^ (bitLength (p / q) - 24)) < 2 ^ 24 := by
      rw [← Nat.div_div_eq_div_mul, Nat.div_lt_iff_lt_mul (by positivity), ← pow_add]
      have e : 24 + (bitLength (p / q) - 24) = bitLength (p / q) := by omega
      rw [e]
      exact hlt
    have hg := roundToGrid_le p (q * 2 ^ (bitLength (p / q) - 24))
    have e2 : 2 ^ bitLength (p / q) = 2 ^ 24 * 2 ^ (bitLength (p / q) - 24) := by
      rw [← pow_add]
      congr 1
      omega
    rw [e2]
    exact Nat.mul_le_mul_right _ (by omega)

/-- The rounded magnitude is at least `2^(L-1)`, with `L >= 1` the number of
digits of the integer part. -/
theorem pow_le_roundNearestEven (p q : Nat) (hpos : 0 < p / q) :
    2 ^ (bitLength (p / q) - 1) ≤ roundNearestEven p q := by
  unfold roundNearestEven
  have hge := pow_bitLength_le (p / q) hpos
  have hL := bitLength_pos (p / q) hpos
  have hs : bitLength (p / q) - 24 ≤ bitLength (p / q) - 1 := by omega
  have e : 2 ^ (bitLength (p / q) - 1) =
      2 ^ (bitLength (p / q) - 1 - (bitLength (p / q) - 24)) * 2 ^ (bitLength (p / q) - 24) := by
    rw [← pow_add]
    congr 1
    omega
  rw [e]
  apply Nat.mul_le_mul_right
  refine le_trans ?_ (roundToGrid_ge _ _)
  rw [← Nat.div_div_eq_div_mul, Nat.le_div_iff_mul_le (by positivity), ← e]
  exact hge

/-- Rounding to binary32 precision is monotone in the quotient. -/
theorem roundNearestEven_mono (p1 q1 p2 q2 : Nat) (h1 : 0 < q1) (h2 : 0 < q2)
    (h : p1 * q2 ≤ p2 * q1) : roundNearestEven p1 q1 ≤ roundNearestEven p2 q2 := by
  have hn := div_le_div_of_cross p1 q1 p2 q2 h1 h2 h
  have hL := bitLength_mono _ _ hn
  rcases Nat.lt_or_ge (bitLength (p1 / q1)) (bitLength (p2 / q2)) with hlt | hge
  · have hpos : 0 < p2 / q2 := by
      rcases Nat.eq_zero_or_pos (p2 / q2) with h0 | hp
      · rw [h0, bitLength_zero] at hlt
        omega
      · exact hp
    calc roundNearestEven p1 q1 ≤ 2 ^ bitLength (p1 / q1) := roundNearestEven_le_pow p1 q1 h1
      _ ≤ 2 ^ (bitLength (p2 / q2) - 1) := Nat.pow_le_pow_right (by norm_num) (by omega)
      _ ≤ roundNearestEven p2 q2 := pow_le_roundNearestEven p2 q2 hpos
  · have he : bitLength (p1 / q1) = bitLength (p2 / q2) := le_antisymm hL hge
    unfold roundNearestEven
    rw [he]
    apply Nat.mul_le_mul_right
    apply roundToGrid_mono _ _ _ _ (Nat.mul_pos h1 (by positivity)) (Nat.mul_pos h2 (by positivity))
    calc p1 * (q2 * 2 ^ (bitLength (p2 / q2) - 24))
        = p1 * q2 * 2 ^ (bitLength (p2 / q2) - 24) := by ring
      _ ≤ p2 * q1 * 2 ^ (bitLength (p2 / q2) - 24) := Nat.mul_le_mul_right _ h
      _ = p2 * (q1 * 2 ^ (bitLength (p2 / q2) - 24)) := by ring

/-- A magnitude with at most 24 significant digits is not changed by the
rounding. -/
theorem roundNearestEven_of_rep (m q : Nat) (hq : 0 < q)
    (hm : m % 2 ^ (bitLength m - 24) = 0) : roundNearestEven (m * q) q = m := by
  unfold roundNearestEven
  rw [Nat.mul_div_cancel _ hq]
  generalize bitLength m - 24 = s at hm ⊢
  obtain ⟨k, hk⟩ := Nat.dvd_of_mod_eq_zero hm
  have e : m * q = k * (q * 2 ^ s) := by
    rw [hk]
    ring
  have hd : 0 < q * 2 ^ s := Nat.mul_pos hq (by positivity)
  unfold roundToGrid
  rw [e, Nat.mul_mod_left, Nat.mul_div_cancel _ hd, if_neg (by omega), hk]
  ring

theorem roundInt_of_nonneg (z : Int) (q : Nat) (hz : 0 ≤ z) :
    F32.roundInt z q =
      if 16777215 * 2 ^ 253 < roundNearestEven z.natAbs q then .posInf
      else .fin (Int.ofNat (roundNearestEven z.natAbs q)) := by
  unfold F32.roundInt F32.ofRatio
  have h : decide (z < 0) = false := by simpa using hz
  rw [h]
  simp

theorem roundInt_of_neg (z : Int) (q : Nat) (hz : z < 0) :
    F32.roundInt z q =
      if 16777215 * 2 ^ 253 < roundNearestEven z.natAbs q then .negInf
      else .fin (-(Int.ofNat (roundNearestEven z.natAbs q))) := by
  unfold F32.roundInt F32.ofRatio
  have h : decide (z < 0) = true := by simpa using hz
  rw [h]
  simp

/-- Rounding to binary32 is monotone: `z1 / q1 <= z2 / q2` implies
`round (z1 / q1) <= round (z2 / q2)`. -/
theorem roundInt_mono (z1 z2 : Int) (q1 q2 : Nat) (h1 : 0 < q1) (h2 : 0 < q2)
    (h : z1 * q2 ≤ z2 * q1) : F32.le (F32.roundInt z1 q1) (F32.roundInt z2 q2) = true := by
  have hq1 : (0 : Int) < q1 := by exact_mod_cast h1
  have hq2 : (0 : Int) < q2 := by exact_mod_cast h2
  rcases lt_or_le z1 0 with n1 | p1 <;> rcases lt_or_le z2 0 with n2 | p2
  · rw [roundInt_of_neg z1 q1 n1, roundInt_of_neg z2 q2 n2]
    have hc : z2.natAbs * q1 ≤ z1.natAbs * q2 := by
      zify
      rw [abs_of_neg n1, abs_of_neg n2]
      linarith
    have hr := roundNearestEven_mono _ _ _ _ h2 h1 hc
    split_ifs <;> simp [F32.le] <;> omega
  · rw [roundInt_of_neg z1 q1 n1, roundInt_of_nonneg z2 q2 p2]
    split_ifs <;> simp [F32.le]
    omega
  · exfalso
    have a1 : 0 ≤ z1 * q2 := Int.mul_nonneg p1 (le_of_lt hq2)
    have a2 : z2 * q1 < 0 := Int.mul_neg_of_neg_of_pos n2 hq1
    omega
  · rw [roundInt_of_nonneg z1 q1 p1, roundInt_of_nonneg z2 q2 p2]
    have hc : z1.natAbs * q2 ≤ z2.natAbs * q1 := by
      zify
      rw [abs_of_nonneg p1, abs_of_nonneg p2]
      exact h
    have hr := roundNearestEven_mono _ _ _ _ h1 h2 hc
    split_ifs <;> simp [F32.le] <;> omega

theorem isFloat_iff (m : Int) :
    (F32.fin m).isFloat = true ↔
      m.natAbs % 2 ^ (bitLength m.natAbs - 24) = 0 ∧ m.natAbs ≤ 16777215 * 2 ^ 253 := by
  simp [F32.isFloat]

/-- A finite binary32 value is not changed by the rounding. -/
theorem roundInt_of_isFloat (m : Int) (q : Nat) (hq : 0 < q)
    (hm : (F32.fin m).isFloat = true) : F32.roundInt (m * q) q = .fin m := by
  obtain ⟨hrep, hmax⟩ := (isFloat_iff m).mp hm
  have hq2 : (0 : Int) < q := by exact_mod_cast hq
  have hab : (m * (q : Int)).natAbs = m.natAbs * q := by
    rw [Int.natAbs_mul, Int.natAbs_ofNat]
  rcases lt_or_le m 0 with hn | hp
  · rw [roundInt_of_neg _ _ (Int.mul_neg_of_neg_of_pos hn hq2), hab,
      roundNearestEven_of_rep _ _ hq hrep, if_neg (by omega)]
    congr 1
    have : (Int.ofNat m.natAbs) = -m := by
      simp only [Int.ofNat_eq_coe, Int.natCast_natAbs]
      exact abs_of_neg hn
    rw [this]
    omega
  · rw [roundInt_of_nonneg _ _ (Int.mul_nonneg hp (le_of_lt hq2)), hab,
      roundNearestEven_of_rep _ _ hq hrep, if_neg (by omega)]
    congr 1
    simp only [Int.ofNat_eq_coe, Int.natCast_natAbs]
    exact abs_of_nonneg hp

theorem isFinite_of_isFloat (x : F32) (h : x.isFloat = true) : x.isFinite = true := by
  cases x <;> simp [F32.isFloat] at h
  rename_i z
  rw [f32_isFinite_iff]
  refine ⟨z, rfl, ?_, ?_⟩ <;> simp only [Int.ofNat_eq_coe] <;> omega

theorem ieeeSub_fin (a c : Int) : ieeeSub (.fin a) (.fin c) = F32.roundInt (a - c) 1 := rfl

theorem ieeeAdd_fin (a c : Int) : ieeeAdd (.fin a) (.fin c) = F32.roundInt (a + c) 1 := rfl

theorem roundInt_zero : F32.roundInt 0 1 = .fin 0 := by decide

theorem roundInt_isnan (z : Int) (q : Nat) : (F32.roundInt z q).isnan = false := by
  unfold F32.roundInt F32.ofRatio
  split_ifs <;> rfl

/-- In binary32 arithmetic `x - z <= y - z` for finite `x <= y` and finite `z`. -/
theorem ieeeSub_mono (x y z : F32) (hx : x.isFinite = true) (hy : y.isFinite = true)
    (hz : z.isFinite = true) (hle : F32.le x y = true) :
    F32.le (ieeeOps.sub x z) (ieeeOps.sub y z) = true := by
  obtain ⟨a, rfl, -, -⟩ := (f32_isFinite_iff x).mp hx
  obtain ⟨b, rfl, -, -⟩ := (f32_isFinite_iff y).mp hy
  obtain ⟨c, rfl, -, -⟩ := (f32_isFinite_iff z).mp hz
  simp only [F32.le, decide_eq_true_eq] at hle
  show F32.le (ieeeSub (.fin a) (.fin c)) (ieeeSub (.fin b) (.fin c)) = true
  rw [ieeeSub_fin, ieeeSub_fin]
  apply roundInt_mono _ _ _ _ (by norm_num) (by norm_num)
  push_cast
  omega

/-- In binary32 arithmetic `x + t <= y + t` for finite `x <= y` and finite `t`. -/
theorem ieeeAdd_mono (x y t : F32) (hx : x.isFinite = true) (hy : y.isFinite = true)
    (ht : t.isFinite = true) (hle : F32.le x y = true) :
    F32.le (ieeeOps.add x t) (ieeeOps.add y t) = true := by
  obtain ⟨a, rfl, -, -⟩ := (f32_isFinite_iff x).mp hx
  obtain ⟨b, rfl, -, -⟩ := (f32_isFinite_iff y).mp hy
  obtain ⟨c, rfl, -, -⟩ := (f32_isFinite_iff t).mp ht
  simp only [F32.le, decide_eq_true_eq] at hle
  show F32.le (ieeeAdd (.fin a) (.fin c)) (ieeeAdd (.fin b) (.fin c)) = true
  rw [ieeeAdd_fin, ieeeAdd_fin]
  apply roundInt_mono _ _ _ _ (by norm_num) (by norm_num)
  push_cast
  omega

theorem ieeeSub_self (x : F32) (hx : x.isFinite = true) : ieeeOps.sub x x = F32.zero := by
  obtain ⟨a, rfl, -, -⟩ := (f32_isFinite_iff x).mp hx
  show ieeeSub (.fin a) (.fin a) = F32.zero
  rw [ieeeSub_fin, sub_self, roundInt_zero]
  rfl

theorem ieeeSub_isnan (x y : F32) (hx : x.isnan = false) (hy : y.isnan = false)
    (h1 : F32.le FLT_MAX.neg x = true) (h2 : F32.le y FLT_MAX = true) :
    (ieeeOps.sub x y).isnan = false := by
  show (ieeeSub x y).isnan = false
  cases x <;> cases y <;> simp [F32.isnan, F32.le, FLT_MAX, F32.neg] at hx hy h1 h2
  · rfl
  · rw [ieeeSub_fin]
    exact roundInt_isnan _ _
  · rfl
  · rfl

set_option maxRecDepth 8000 in
theorem isFloat_one : F32.one.isFloat = true := by decide

set_option maxRecDepth 8000 in
theorem isFloat_two : F32.two.isFloat = true := by decide

/-- In binary32 arithmetic `0 <= x / y <= 1` for `0 <= x <= y`, `y` finite and
positive. -/
theorem ieeeDiv_unit (x y : F32) (h0 : F32.le F32.zero x = true) (hle : F32.le x y = true)
    (hy : y.isFinite = true) (hpos : F32.lt F32.zero y = true) :
    F32.le F32.zero (ieeeDiv x y) = true ∧ F32.le (ieeeDiv x y) F32.one = true := by
  obtain ⟨b, rfl, -, -⟩ := (f32_isFinite_iff y).mp hy
  cases x <;> simp [F32.le, F32.zero] at h0 hle
  rename_i a
  simp only [F32.lt, F32.zero, decide_eq_true_eq] at hpos
  have hb : (b.natAbs : Int) = b := Int.natAbs_of_nonneg (le_of_lt hpos)
  have hbn : 0 < b.natAbs := Int.natAbs_pos.mpr (by omega)
  have hdiv : ieeeDiv (.fin a) (.fin b) = F32.roundInt (a * Int.ofNat (2 ^ 149)) b.natAbs := by
    have hd : ieeeDiv (.fin a) (.fin b) =
        if b = 0 then (if a = 0 then .nan else F32.signedInf (decide (a < 0)))
        else if 0 < b then F32.roundInt (a * Int.ofNat (2 ^ 149)) b.natAbs
        else F32.roundInt (-(a * Int.ofNat (2 ^ 149))) b.natAbs := rfl
    rw [hd, if_neg (show ¬ b = 0 by omega), if_pos hpos]
  rw [hdiv]
  constructor
  · have h := roundInt_mono 0 (a * Int.ofNat (2 ^ 149)) 1 b.natAbs (by norm_num) hbn
      (by simp only [zero_mul]; exact Int.mul_nonneg (Int.mul_nonneg h0 (by decide)) (by norm_num))
    rwa [roundInt_zero] at h
  · have hone : F32.roundInt (Int.ofNat (2 ^ 149) * (b.natAbs : Int)) b.natAbs = F32.one :=
      roundInt_of_isFloat _ _ hbn isFloat_one
    rw [← hone]
    apply roundInt_mono _ _ _ _ hbn hbn
    rw [hb]
    have h149 : (0 : Int) ≤ Int.ofNat (2 ^ 149) := by decide
    nlinarith [Int.mul_le_mul_of_nonneg_right hle h149, le_of_lt hpos]

theorem bitLength_unique (n k : Nat) (h1 : 2 ^ (k - 1) ≤ n) (h2 : n < 2 ^ k) (hk : 0 < k) :
    bitLength n = k := by
  have hn : 0 < n := lt_of_lt_of_le (by positivity) h1
  have a1 := pow_bitLength_le n hn
  have a2 := lt_pow_bitLength n
  have a3 := bitLength_pos n hn
  rcases Nat.lt_trichotomy (bitLength n) k with h | h | h
  · have : 2 ^ bitLength n ≤ 2 ^ (k - 1) := Nat.pow_le_pow_right (by norm_num) (by omega)
    omega
  · exact h
  · have : 2 ^ k ≤ 2 ^ (bitLength n - 1) := Nat.pow_le_pow_right (by norm_num) (by omega)
    omega

theorem bitLength_double (m : Nat) (hm : 0 < m) : bitLength (2 * m) = bitLength m + 1 := by
  have a1 := pow_bitLength_le m hm
  have a2 := lt_pow_bitLength m
  have a3 := bitLength_pos m hm
  apply bitLength_unique
  · rw [Nat.add_sub_cancel]
    have e : 2 ^ bitLength m = 2 * 2 ^ (bitLength m - 1) := by
      rw [← pow_succ']
      congr 1
      omega
    omega
  · rw [pow_succ]
    omega
  · omega

theorem rep_double (m : Nat) (h : m % 2 ^ (bitLength m - 24) = 0) :
    (2 * m) % 2 ^ (bitLength (2 * m) - 24) = 0 := by
  rcases Nat.eq_zero_or_pos m with rfl | hm
  · simp
  · rw [bitLength_double m hm]
    rcases Nat.lt_or_ge (bitLength m) 24 with hL | hL
    · have e : bitLength m + 1 - 24 = 0 := by omega
      rw [e, pow_zero, Nat.mod_one]
    · have e : bitLength m + 1 - 24 = (bitLength m - 24) + 1 := by omega
      rw [e, pow_succ']
      obtain ⟨k, hk⟩ := Nat.dvd_of_mod_eq_zero h
      apply Nat.mod_eq_zero_of_dvd
      exact ⟨k, by rw [Nat.mul_assoc, ← hk]⟩

/-- A value with at most 24 significant digits rounds to itself, or to an
infinity when it is beyond `FLT_MAX`. -/
theorem roundInt_of_rep (m : Int) (hrep : m.natAbs % 2 ^ (bitLength m.natAbs - 24) = 0) :
    F32.roundInt m 1 =
      if 16777215 * 2 ^ 253 < m.natAbs then (if m < 0 then .negInf else .posInf)
      else .fin m := by
  have hr : roundNearestEven m.natAbs 1 = m.natAbs := by
    have := roundNearestEven_of_rep m.natAbs 1 (by norm_num) hrep
    rwa [Nat.mul_one] at this
  rcases lt_or_le m 0 with hn | hp
  · rw [roundInt_of_neg _ _ hn, hr, if_pos hn]
    have e : -(Int.ofNat m.natAbs) = m := by
      simp only [Int.ofNat_eq_coe, Int.natCast_natAbs]
      rw [abs_of_neg hn]
      omega
    rw [e]
  · have e : Int.ofNat m.natAbs = m := by
      simp only [Int.ofNat_eq_coe, Int.natCast_natAbs]
      exact abs_of_nonneg hp
    have hnn : ¬ m < 0 := by omega
    rw [roundInt_of_nonneg _ _ hp, hr, e, if_neg hnn]

theorem natAbs_two_mul (a : Int) : (2 * a).natAbs = 2 * a.natAbs := by
  rw [Int.natAbs_mul]
  rfl

/-- In binary32 arithmetic the midpoint `(x + y) / 2` of two finite binary32
values `x <= y` lies between them, when the sum does not overflow. -/
theorem ieee_midpoint (x y : F32) (hx : x.isFloat = true) (hy : y.isFloat = true)
    (hle : F32.le x y = true) (hsum : (ieeeOps.add x y).isFinite = true) :
    F32.le x (ieeeDiv (ieeeOps.add x y) F32.two) = true ∧
    F32.le (ieeeDiv (ieeeOps.add x y) F32.two) y = true := by
  cases x <;> simp [F32.isFloat] at hx
  cases y <;> simp [F32.isFloat] at hy
  rename_i a b
  simp only [F32.le, decide_eq_true_eq] at hle
  have hxf : (F32.fin a).isFloat = true := (isFloat_iff a).mpr hx
  have hyf : (F32.fin b).isFloat = true := (isFloat_iff b).mpr hy
  have hadd : ieeeOps.add (.fin a) (.fin b) = F32.roundInt (a + b) 1 := rfl
  rw [hadd] at hsum ⊢
  obtain ⟨s, hs, s1, s2⟩ := (f32_isFinite_iff _).mp hsum
  rw [hs]
  have hlo : 2 * a ≤ s := by
    have h := roundInt_mono (2 * a) (a + b) 1 1 (by norm_num) (by norm_num) (by push_cast; omega)
    rw [hs, roundInt_of_rep (2 * a) (by rw [natAbs_two_mul]; exact rep_double _ hx.1)] at h
    simp only [Int.ofNat_eq_coe] at s1 s2
    split_ifs at h with c1 c2
    · rw [natAbs_two_mul] at c1
      omega
    · simp [F32.le] at h
    · simpa [F32.le] using h
  have hhi : s ≤ 2 * b := by
    have h := roundInt_mono (a + b) (2 * b) 1 1 (by norm_num) (by norm_num) (by push_cast; omega)
    rw [hs, roundInt_of_rep (2 * b) (by rw [natAbs_two_mul]; exact rep_double _ hy.1)] at h
    simp only [Int.ofNat_eq_coe] at s1 s2
    split_ifs at h with c1 c2
    · simp [F32.le] at h
    · rw [natAbs_two_mul] at c1
      omega
    · simpa [F32.le] using h
  have hdiv : ieeeDiv (.fin s) F32.two = F32.roundInt (s * Int.ofNat (2 ^ 149)) (2 ^ 150) := by
    have hd : ieeeDiv (.fin s) F32.two =
        if Int.ofNat (2 ^ 150) = 0 then (if s = 0 then .nan else F32.signedInf (decide (s < 0)))
        else if 0 < Int.ofNat (2 ^ 150) then
          F32.roundInt (s * Int.ofNat (2 ^ 149)) (Int.ofNat (2 ^ 150)).natAbs
        else F32.roundInt (-(s * Int.ofNat (2 ^ 149))) (Int.ofNat (2 ^ 150)).natAbs := rfl
    rw [hd, if_neg (by decide), if_pos (by decide)]
    rfl
  rw [hdiv]
  have h150 : (0 : Nat) < 2 ^ 150 := by positivity
  have ea := roundInt_of_isFloat a (2 ^ 150) h150 hxf
  have eb := roundInt_of_isFloat b (2 ^ 150) h150 hyf
  constructor
  · rw [← ea]
    apply roundInt_mono _ _ _ _ h150 h150
    have e : Int.ofNat (2 ^ 149) * 2 = ((2 ^ 150 : Nat) : Int) := by decide
    have hpos : (0 : Int) ≤ ((2 ^ 150 : Nat) : Int) := by positivity
    have h149 : (0 : Int) ≤ Int.ofNat (2 ^ 149) := by decide
    calc a * ((2 ^ 150 : Nat) : Int) * ((2 ^ 150 : Nat) : Int)
        = (2 * a) * Int.ofNat (2 ^ 149) * ((2 ^ 150 : Nat) : Int) := by rw [← e]; ring
      _ ≤ s * Int.ofNat (2 ^ 149) * ((2 ^ 150 : Nat) : Int) :=
          Int.mul_le_mul_of_nonneg_right (Int.mul_le_mul_of_nonneg_right hlo h149) hpos
  · rw [← eb]
    apply roundInt_mono _ _ _ _ h150 h150
    have e : Int.ofNat (2 ^ 149) * 2 = ((2 ^ 150 : Nat) : Int) := by decide
    have hpos : (0 : Int) ≤ ((2 ^ 150 : Nat) : Int) := by positivity
    have h149 : (0 : Int) ≤ Int.ofNat (2 ^ 149) := by decide
    calc s * Int.ofNat (2 ^ 149) * ((2 ^ 150 : Nat) : Int)
        ≤ (2 * b) * Int.ofNat (2 ^ 149) * ((2 ^ 150 : Nat) : Int) :=
          Int.mul_le_mul_of_nonneg_right (Int.mul_le_mul_of_nonneg_right hhi h149) hpos
      _ = b * ((2 ^ 150 : Nat) : Int) * ((2 ^ 150 : Nat) : Int) := by rw [← e]; ring

/-! ## The counts of a completed build -/

theorem deviceStages_numInternalNodes (ops : FloatOps) (dev : Device) (self : BVH) (n : Nat)
    (st : ExtractState) (e : Vec3) (m h a : Nat) :
    (deviceStages ops dev self n st e m h a).bvh.numInternalNodes =
      (filterNodes ops n (readNodes dev n)).validNodeCount := by
  cases self
  rfl

theorem deviceStages_aabbInstanceVBO (ops : FloatOps) (dev : Device) (self : BVH) (n : Nat)
    (st : ExtractState) (e : Vec3) (m h a : Nat) :
    (deviceStages ops dev self n st e m h a).bvh.aabbInstanceVBO =
      (replaceInstanceVBO dev self.aabbInstanceVBO
        (filterNodes ops n (readNodes dev n)).validNodeCount
        (filterNodes ops n (readNodes dev n)).instanceData).1 := by
  cases self
  rfl

theorem deviceStages_validNodeCount (ops : FloatOps) (dev : Device) (self : BVH) (n : Nat)
    (st : ExtractState) (e : Vec3) (m h a : Nat) :
    (deviceStages ops dev self n st e m h a).validNodeCount =
      (filterNodes ops n (readNodes dev n)).validNodeCount := rfl

theorem deviceStages_degenerateCount (ops : FloatOps) (dev : Device) (self : BVH) (n : Nat)
    (st : ExtractState) (e : Vec3) (m h a : Nat) :
    (deviceStages ops dev self n st e m h a).degenerateCount =
      (filterNodes ops n (readNodes dev n)).degenerateCount := rfl

theorem length_flatMap_instancePair (ops : FloatOps) (l : List LBVHNode) :
    (l.flatMap (instancePair ops)).length = 2 * l.length := by
  induction l with
  | nil => rfl
  | cons x xs ih =>
    rw [List.flatMap_cons, List.length_append, ih, List.length_cons]
    simp only [instancePair, List.length_cons, List.length_nil]
    omega

theorem length_filter_not_add (p : LBVHNode → Bool) (l : List LBVHNode) :
    (l.filter (fun x => !p x)).length + (l.filter p).length = l.length := by
  induction l with
  | nil => rfl
  | cons x xs ih =>
    cases hp : p x
    · simp only [List.filter_cons, hp, Bool.not_false, if_true, Bool.false_eq_true, if_false,
        List.length_cons]
      omega
    · simp only [List.filter_cons, hp, Bool.not_true, if_true, Bool.false_eq_true, if_false,
        List.length_cons]
      omega

theorem replaceInstanceVBO_upload (dev : Device) (old count : Nat) (data : List Vec3)
    (hc : 0 < count) :
    GLCall.bufferData .arrayBuffer (data.length * 12) (.vectors data) .staticDraw ∈
      (replaceInstanceVBO dev old count data).2 := by
  unfold replaceInstanceVBO
  simp only [gt_iff_lt, hc, if_true]
  apply List.mem_append_right
  simp

/-- C11: after every completed build `numInternalNodes` is `validNodeCount`,
the instance list holds exactly `2 * numInternalNodes` vectors, the valid and
the degenerate count add up to the number of iterations of the filter loop
(`totalNodes - (numTris - 1)`), when the count is positive exactly this list
is uploaded to the instance buffer, and a box draw of `Init::render` draws as
many instances as the list has pairs. -/
theorem instance_count_consistent (ops : FloatOps) (dev : Device) (self : BVH)
    (positions : List Vec3) (indices : List Nat) (m s h a : Nat)
    (hdone : (self.buildLBVHDynamic ops dev positions indices m s h a).outcome = .completed) :
    (self.buildLBVHDynamic ops dev positions indices m s h a).bvh.numInternalNodes =
      (self.buildLBVHDynamic ops dev positions indices m s h a).validNodeCount ∧
    (self.buildLBVHDynamic ops dev positions indices m s h a).instanceData.length =
      2 * (self.buildLBVHDynamic ops dev positions indices m s h a).bvh.numInternalNodes ∧
    (self.buildLBVHDynamic ops dev positions indices m s h a).validNodeCount +
        (self.buildLBVHDynamic ops dev positions indices m s h a).degenerateCount =
      totalNodesOf (numTrisOf indices) - subU32 (numTrisOf indices) 1 ∧
    (0 < (self.buildLBVHDynamic ops dev positions indices m s h a).bvh.numInternalNodes →
      GLCall.bufferData .arrayBuffer
        (2 * (self.buildLBVHDynamic ops dev positions indices m s h a).bvh.numInternalNodes * 12)
        (.vectors (self.buildLBVHDynamic ops dev positions indices m s h a).instanceData)
        .staticDraw ∈ (self.buildLBVHDynamic ops dev positions indices m s h a).trace) ∧
    (∀ (showLBVH : Bool) (vbo count : Nat),
      lbvhDraw showLBVH (self.buildLBVHDynamic ops dev positions indices m s h a).bvh
        = some (vbo, count) →
      2 * count = (self.buildLBVHDynamic ops dev positions indices m s h a).instanceData.length)
    := by
  rw [build_completed ops dev self positions indices m s h a hdone, deviceStages_trace,
    deviceStages_numInternalNodes, deviceStages_validNodeCount, deviceStages_degenerateCount,
    deviceStages_instanceData]
  have hf := filterNodes_eq ops dev (numTrisOf indices)
  have hlen : (filterNodes ops (numTrisOf indices) (readNodes dev (numTrisOf indices))).instanceData.length =
      2 * (filterNodes ops (numTrisOf indices) (readNodes dev (numTrisOf indices))).validNodeCount := by
    rw [hf]
    exact length_flatMap_instancePair ops _
  refine ⟨rfl, hlen, ?_, ?_, ?_⟩
  · rw [hf]
    show (List.filter (fun nd => !skipNode ops nd) _).length +
      (List.filter (fun nd => skipNode ops nd) _).length = _
    rw [length_filter_not_add (skipNode ops), List.length_drop, readNodes_length]
  · intro hpos
    rw [← hlen]
    simp only [List.append_assoc]
    exact List.mem_append_right _ (List.mem_append_right _ (List.mem_append_right _
      (List.mem_append_left _ (replaceInstanceVBO_upload _ _ _ _ hpos))))
  · intro showLBVH vbo count hdraw
    unfold lbvhDraw at hdraw
    split_ifs at hdraw
    simp only [Option.some.injEq, Prod.mk.injEq] at hdraw
    rw [← hdraw.2, deviceStages_numInternalNodes, hlen]

/-- Witness for C11: two triangles, two instances, four vectors. -/
theorem instance_count_consistent_witness :
    (({} : BVH).buildLBVHDynamic exactOps unitDevice cornerPositions [0, 1, 2, 2, 1, 0, 1]
      1 2 3 4).outcome = .completed ∧
    (({} : BVH).buildLBVHDynamic exactOps unitDevice cornerPositions [0, 1, 2, 2, 1, 0, 1]
      1 2 3 4).bvh.numInternalNodes = 2 ∧
    (({} : BVH).buildLBVHDynamic exactOps unitDevice cornerPositions [0, 1, 2, 2, 1, 0, 1]
      1 2 3 4).instanceData.length =
      2 * (({} : BVH).buildLBVHDynamic exactOps unitDevice cornerPositions
        [0, 1, 2, 2, 1, 0, 1] 1 2 3 4).bvh.numInternalNodes :=
  ⟨by decide, by decide,
    (instance_count_consistent exactOps unitDevice {} cornerPositions [0, 1, 2, 2, 1, 0, 1]
      1 2 3 4 (by decide)).2.1⟩

/-! ## A build does not read the state left by earlier builds -/

theorem afterLoop_outcome_self (ops : FloatOps) (dev : Device) (s1 s2 : BVH) (n m h a : Nat)
    (r : ExtractState × Option Nat) :
    (afterLoop ops dev s1 n m h a r).outcome = (afterLoop ops dev s2 n m h a r).outcome := by
  rcases r with ⟨st, _ | i⟩
  · rw [afterLoop_none, afterLoop_none]
    split_ifs
    · rfl
    · rw [deviceStages_outcome, deviceStages_outcome]
  · rw [afterLoop_some, afterLoop_some]

theorem build_outcome_self (ops : FloatOps) (dev : Device) (s1 s2 : BVH)
    (positions : List Vec3) (indices : List Nat) (m s h a : Nat) :
    (s1.buildLBVHDynamic ops dev positions indices m s h a).outcome =
      (s2.buildLBVHDynamic ops dev positions indices m s h a).outcome := by
  by_cases h0 : numTrisOf indices = 0
  · rw [build_of_numTris_zero _ _ _ _ _ _ _ _ _ h0, build_of_numTris_zero _ _ _ _ _ _ _ _ _ h0]
  · by_cases hc : dev.hasContext = false
    · rw [build_of_noContext _ _ _ _ _ _ _ _ _ h0 hc, build_of_noContext _ _ _ _ _ _ _ _ _ h0 hc]
    · have hc1 : dev.hasContext = true := by simpa using hc
      rw [build_of_loop _ _ _ _ _ _ _ _ _ h0 hc1, build_of_loop _ _ _ _ _ _ _ _ _ h0 hc1]
      exact afterLoop_outcome_self _ _ _ _ _ _ _ _ _

theorem deviceStages_m_bvh (ops : FloatOps) (dev : Device) (self : BVH) (n : Nat)
    (st : ExtractState) (e : Vec3) (m h a : Nat) :
    (deviceStages ops dev self n st e m h a).bvh.m_bvh = self.m_bvh := by
  cases self
  rfl

theorem deviceStages_mortonCodes (ops : FloatOps) (dev : Device) (self : BVH) (n : Nat)
    (st : ExtractState) (e : Vec3) (m h a : Nat) :
    (deviceStages ops dev self n st e m h a).bvh.mortonCodes = self.mortonCodes := by
  cases self
  rfl

theorem replaceInstanceVBO_fst (dev : Device) (old count : Nat) (data : List Vec3) :
    (replaceInstanceVBO dev old count data).1 = if 0 < count then dev.genName 4 else 0 := by
  unfold replaceInstanceVBO
  split_ifs <;> rfl

/-- C13: a completed build does not depend on the state of the `BVH` object it
is called on: with the same positions, indices, shaders and device, a build on
any other prior state completes too and ends with the same `primitives`,
`m_bvh`, `mortonCodes`, uploaded elements, sorted Morton data, node array,
instance list, instance count and instance buffer. -/
theorem rebuild_independent_of_prior_state (ops : FloatOps) (dev : Device) (s1 s2 : BVH)
    (positions : List Vec3) (indices : List Nat) (m s h a : Nat)
    (hdone : (s1.buildLBVHDynamic ops dev positions indices m s h a).outcome = .completed) :
    (s2.buildLBVHDynamic ops dev positions indices m s h a).outcome = .completed ∧
    (s2.buildLBVHDynamic ops dev positions indices m s h a).bvh.primitives =
      (s1.buildLBVHDynamic ops dev positions indices m s h a).bvh.primitives ∧
    (s2.buildLBVHDynamic ops dev positions indices m s h a).bvh.m_bvh =
      (s1.buildLBVHDynamic ops dev positions indices m s h a).bvh.m_bvh ∧
    (s2.buildLBVHDynamic ops dev positions indices m s h a).bvh.mortonCodes =
      (s1.buildLBVHDynamic ops dev positions indices m s h a).bvh.mortonCodes ∧
    (s2.buildLBVHDynamic ops dev positions indices m s h a).gpuElements =
      (s1.buildLBVHDynamic ops dev positions indices m s h a).gpuElements ∧
    (s2.buildLBVHDynamic ops dev positions indices m s h a).globalAABB =
      (s1.buildLBVHDynamic ops dev positions indices m s h a).globalAABB ∧
    (s2.buildLBVHDynamic ops dev positions indices m s h a).mortonData =
      (s1.buildLBVHDynamic ops dev positions indices m s h a).mortonData ∧
    (s2.buildLBVHDynamic ops dev positions indices m s h a).lbvhNodes =
      (s1.buildLBVHDynamic ops dev positions indices m s h a).lbvhNodes ∧
    (s2.buildLBVHDynamic ops dev positions indices m s h a).instanceData =
      (s1.buildLBVHDynamic ops dev positions indices m s h a).instanceData ∧
    (s2.buildLBVHDynamic ops dev positions indices m s h a).bvh.numInternalNodes =
      (s1.buildLBVHDynamic ops dev positions indices m s h a).bvh.numInternalNodes ∧
    (s2.buildLBVHDynamic ops dev positions indices m s h a).bvh.aabbInstanceVBO =
      (s1.buildLBVHDynamic ops dev positions indices m s h a).bvh.aabbInstanceVBO := by
  have hdone2 : (s2.buildLBVHDynamic ops dev positions indices m s h a).outcome = .completed := by
    rw [build_outcome_self ops dev s2 s1]
    exact hdone
  refine ⟨hdone2, ?_⟩
  rw [build_completed ops dev s1 positions indices m s h a hdone,
    build_completed ops dev s2 positions indices m s h a hdone2]
  refine ⟨?_, ?_, ?_, rfl, rfl, rfl, rfl, rfl, ?_, ?_⟩
  · rw [deviceStages_primitives, deviceStages_primitives]
  · rw [deviceStages_m_bvh, deviceStages_m_bvh]
    rfl
  · rw [deviceStages_mortonCodes, deviceStages_mortonCodes]
    rfl
  · rw [deviceStages_numInternalNodes, deviceStages_numInternalNodes]
  · rw [deviceStages_aabbInstanceVBO, deviceStages_aabbInstanceVBO, replaceInstanceVBO_fst,
      replaceInstanceVBO_fst]

/-- Witness for C13: the build of one triangle on a fresh object and on the
object left by an earlier build. -/
theorem rebuild_independent_of_prior_state_witness :
    (afterOneTriangle.buildLBVHDynamic exactOps unitDevice cornerPositions [0, 1, 2]
      1 2 3 4).outcome = .completed ∧
    (afterOneTriangle.buildLBVHDynamic exactOps unitDevice cornerPositions [0, 1, 2]
      1 2 3 4).instanceData =
      (({} : BVH).buildLBVHDynamic exactOps unitDevice cornerPositions [0, 1, 2]
        1 2 3 4).instanceData :=
  ⟨(rebuild_independent_of_prior_state exactOps unitDevice {} afterOneTriangle cornerPositions
      [0, 1, 2] 1 2 3 4 (by decide)).1,
    (rebuild_independent_of_prior_state exactOps unitDevice {} afterOneTriangle cornerPositions
      [0, 1, 2] 1 2 3 4 (by decide)).2.2.2.2.2.2.2.2.1⟩

/-! ## The instances that are emitted -/

theorem le_minScale_maxF (x : F32) (hx : x.isnan = false) :
    F32.le minScale (glm.maxF x minScale) = true := by
  cases x <;> simp [glm.maxF, F32.lt, F32.le, F32.isnan, minScale] at hx ⊢
  split_ifs <;> simp [F32.le]
  omega

theorem sub_isnan_of_valid (ops : FloatOps)
    (hsub : ∀ a b : Int, (ops.sub (.fin a) (.fin b)).isnan = false) (x y : F32)
    (hx : x.isnan = false ∧ x.isinf = false) (hy : y.isnan = false ∧ y.isinf = false) :
    (ops.sub x y).isnan = false := by
  cases x <;> cases y <;> simp [F32.isnan, F32.isinf] at hx hy
  exact hsub _ _

/-- C17: in a completed build the instance list is, in order, the pair
`(nodeMin + nodeMax) * 0.5f + (8.3, 0.0, 8.0)` and
`max(nodeMax - nodeMin, 0.001f)` of each node of a sub-list of the node array;
each of these nodes has an extent above `0.0001f` on every axis and no NaN or
infinite bound, and (when the subtraction of two finite floats is not NaN,
as in binary32 arithmetic) every component of every emitted scale is at least
`0.001f`. -/
theorem emitted_instances (ops : FloatOps) (dev : Device) (self : BVH)
    (positions : List Vec3) (indices : List Nat) (m s h a : Nat)
    (hdone : (self.buildLBVHDynamic ops dev positions indices m s h a).outcome = .completed)
    (hsub : ∀ x y : Int, (ops.sub (.fin x) (.fin y)).isnan = false) :
    ∃ kept : List LBVHNode,
      kept.Sublist (self.buildLBVHDynamic ops dev positions indices m s h a).lbvhNodes ∧
      (self.buildLBVHDynamic ops dev positions indices m s h a).instanceData =
        kept.flatMap (fun nd =>
          [Vec3.add ops (Vec3.scale ops (Vec3.add ops nd.nodeMin nd.nodeMax) half) vizOffset,
           glm.max (Vec3.sub ops nd.nodeMax nd.nodeMin) (Vec3.splat minScale)]) ∧
      ∀ nd ∈ kept, NodeIsValid ops nd ∧
        F32.le minScale (glm.max (Vec3.sub ops nd.nodeMax nd.nodeMin) (Vec3.splat minScale)).x
          = true ∧
        F32.le minScale (glm.max (Vec3.sub ops nd.nodeMax nd.nodeMin) (Vec3.splat minScale)).y
          = true ∧
        F32.le minScale (glm.max (Vec3.sub ops nd.nodeMax nd.nodeMin) (Vec3.splat minScale)).z
          = true := by
  rw [build_completed ops dev self positions indices m s h a hdone, deviceStages_lbvhNodes,
    deviceStages_instanceData, filterNodes_eq]
  refine ⟨((readNodes dev (numTrisOf indices)).drop (subU32 (numTrisOf indices) 1)).filter
    (fun nd => !skipNode ops nd), ?_, rfl, ?_⟩
  · exact (List.filter_sublist _).trans (List.drop_sublist _ _)
  · intro nd hnd
    have hk : skipNode ops nd = false := by
      have := (List.mem_filter.mp hnd).2
      simpa using this
    have hv : NodeIsValid ops nd := (skipNode_eq_false_iff ops nd).mp hk
    obtain ⟨_, _, _, hb⟩ := hv
    have hb1 := hb nd.aabbMinX (by simp)
    have hb2 := hb nd.aabbMinY (by simp)
    have hb3 := hb nd.aabbMinZ (by simp)
    have hb4 := hb nd.aabbMaxX (by simp)
    have hb5 := hb nd.aabbMaxY (by simp)
    have hb6 := hb nd.aabbMaxZ (by simp)
    refine ⟨(skipNode_eq_false_iff ops nd).mp hk, ?_, ?_, ?_⟩
    · exact le_minScale_maxF _ (sub_isnan_of_valid ops hsub _ _ hb4 hb1)
    · exact le_minScale_maxF _ (sub_isnan_of_valid ops hsub _ _ hb5 hb2)
    · exact le_minScale_maxF _ (sub_isnan_of_valid ops hsub _ _ hb6 hb3)

/-- In binary32 arithmetic the difference of two finite values is not NaN. -/
theorem ieeeSub_fin_isnan (x y : Int) : (ieeeOps.sub (.fin x) (.fin y)).isnan = false := by
  show (ieeeSub (.fin x) (.fin y)).isnan = false
  rw [ieeeSub_fin]
  exact roundInt_isnan _ _

set_option maxRecDepth 8000 in
/-- Witness for C17: in binary32 arithmetic the build of two triangles emits
two instances. -/
theorem emitted_instances_witness :
    (({} : BVH).buildLBVHDynamic ieeeOps unitDevice cornerPositions [0, 1, 2, 2, 1, 0, 1]
      1 2 3 4).instanceData.length = 4 ∧
    ∃ kept : List LBVHNode,
      kept.Sublist (({} : BVH).buildLBVHDynamic ieeeOps unitDevice cornerPositions
        [0, 1, 2, 2, 1, 0, 1] 1 2 3 4).lbvhNodes ∧
      (({} : BVH).buildLBVHDynamic ieeeOps unitDevice cornerPositions [0, 1, 2, 2, 1, 0, 1]
        1 2 3 4).instanceData =
        kept.flatMap (fun nd =>
          [Vec3.add ieeeOps (Vec3.scale ieeeOps (Vec3.add ieeeOps nd.nodeMin nd.nodeMax) half)
            vizOffset,
           glm.max (Vec3.sub ieeeOps nd.nodeMax nd.nodeMin) (Vec3.splat minScale)]) ∧
      ∀ nd ∈ kept, NodeIsValid ieeeOps nd ∧
        F32.le minScale
          (glm.max (Vec3.sub ieeeOps nd.nodeMax nd.nodeMin) (Vec3.splat minScale)).x = true ∧
        F32.le minScale
          (glm.max (Vec3.sub ieeeOps nd.nodeMax nd.nodeMin) (Vec3.splat minScale)).y = true ∧
        F32.le minScale
          (glm.max (Vec3.sub ieeeOps nd.nodeMax nd.nodeMin) (Vec3.splat minScale)).z = true :=
  ⟨by decide,
    emitted_instances ieeeOps unitDevice {} cornerPositions [0, 1, 2, 2, 1, 0, 1] 1 2 3 4
      (by decide) ieeeSub_fin_isnan⟩

/-! ## The instance buffer over a sequence of calls -/

theorem build_keeps_buffer_invariant (ops : FloatOps) (dev : Device) (self : BVH)
    (positions : List Vec3) (indices : List Nat) (m s h a : Nat)
    (hgen : dev.genName 4 ≠ 0)
    (hinv : 0 < self.numInternalNodes → self.aabbInstanceVBO ≠ 0) :
    0 < (self.buildLBVHDynamic ops dev positions indices m s h a).bvh.numInternalNodes →
      (self.buildLBVHDynamic ops dev positions indices m s h a).bvh.aabbInstanceVBO ≠ 0 := by
  rcases build_outcome_cases ops dev self positions indices m s h a with hc | ⟨_, _, h2, h3⟩
  · rw [build_completed ops dev self positions indices m s h a hc, deviceStages_numInternalNodes,
      deviceStages_aabbInstanceVBO, replaceInstanceVBO_fst]
    intro hpos
    rw [if_pos hpos]
    exact hgen
  · rw [h2, h3]
    exact hinv

theorem afterBuilds_keeps_buffer_invariant (ops : FloatOps) (calls : List BuildCall) :
    ∀ self : BVH, (∀ c ∈ calls, c.dev.genName 4 ≠ 0) →
      (0 < self.numInternalNodes → self.aabbInstanceVBO ≠ 0) →
      0 < (self.afterBuilds ops calls).numInternalNodes →
        (self.afterBuilds ops calls).aabbInstanceVBO ≠ 0 := by
  induction calls with
  | nil => intro self _ hinv; exact hinv
  | cons c cs ih =>
    intro self hgen hinv
    exact ih (self.afterBuild ops c) (fun d hd => hgen d (List.mem_cons_of_mem _ hd))
      (build_keeps_buffer_invariant ops c.dev self c.positions c.indices _ _ _ _
        (hgen c (List.mem_cons_self _ _)) hinv)

/-- C19: starting from a default-constructed `BVH`, after any sequence of
`buildLBVHDynamic` calls on devices whose `glGenBuffers` gives a non-zero name
for the instance buffer, `numInternalNodes > 0` implies `aabbInstanceVBO != 0`;
so a box draw of `Init::render` never binds buffer 0; and a further build that
completes with no valid instance leaves `numInternalNodes = 0` and
`aabbInstanceVBO = 0`. -/
theorem instance_buffer_invariant (ops : FloatOps) (calls : List BuildCall)
    (hgen : ∀ c ∈ calls, c.dev.genName 4 ≠ 0) :
    (0 < (BVH.afterBuilds ops {} calls).numInternalNodes →
      (BVH.afterBuilds ops {} calls).aabbInstanceVBO ≠ 0) ∧
    (∀ (showLBVH : Bool) (vbo count : Nat),
      lbvhDraw showLBVH (BVH.afterBuilds ops {} calls) = some (vbo, count) → vbo ≠ 0) ∧
    (∀ (dev : Device) (positions : List Vec3) (indices : List Nat) (m s h a : Nat),
      ((BVH.afterBuilds ops {} calls).buildLBVHDynamic ops dev positions indices m s h a).outcome
        = .completed →
      ((BVH.afterBuilds ops {} calls).buildLBVHDynamic ops dev positions indices
        m s h a).validNodeCount = 0 →
      ((BVH.afterBuilds ops {} calls).buildLBVHDynamic ops dev positions indices
        m s h a).bvh.numInternalNodes = 0 ∧
      ((BVH.afterBuilds ops {} calls).buildLBVHDynamic ops dev positions indices
        m s h a).bvh.aabbInstanceVBO = 0) := by
  have hinv := afterBuilds_keeps_buffer_invariant ops calls {} hgen (fun h0 => absurd h0 (by decide))
  refine ⟨hinv, ?_, ?_⟩
  · intro showLBVH vbo count hdraw
    unfold lbvhDraw at hdraw
    split_ifs at hdraw with hcond
    simp only [Bool.and_eq_true, decide_eq_true_eq] at hcond
    simp only [Option.some.injEq, Prod.mk.injEq] at hdraw
    rw [← hdraw.1]
    exact hinv hcond.2
  · intro dev positions indices m s h a hdone
    rw [build_completed ops dev _ positions indices m s h a hdone, deviceStages_numInternalNodes,
      deviceStages_aabbInstanceVBO, replaceInstanceVBO_fst, deviceStages_validNodeCount]
    intro hz
    rw [hz]
    exact ⟨rfl, rfl⟩

/-- Witness for C19: after a completed build and an aborted call the count is
1 and the buffer is the one generated by the build. -/
theorem instance_buffer_invariant_witness :
    (BVH.afterBuilds exactOps {} twoCalls).numInternalNodes = 1 ∧
    (BVH.afterBuilds exactOps {} twoCalls).aabbInstanceVBO ≠ 0 :=
  ⟨by decide,
    (instance_buffer_invariant exactOps twoCalls (by decide)).1 (by decide)⟩

/-! ## The compute dispatches of a completed build -/

theorem replaceInstanceVBO_computeSteps (dev : Device) (old count : Nat) (data : List Vec3) :
    (replaceInstanceVBO dev old count data).2.filter GLCall.isComputeStep = [] := by
  unfold replaceInstanceVBO
  split_ifs <;> rfl

theorem replaceInstanceVBO_dispatches (dev : Device) (old count : Nat) (data : List Vec3) :
    (replaceInstanceVBO dev old count data).2.filter GLCall.isDispatch = [] := by
  unfold replaceInstanceVBO
  split_ifs <;> rfl

theorem deviceStages_computeSteps (ops : FloatOps) (dev : Device) (self : BVH) (n : Nat)
    (st : ExtractState) (e : Vec3) (m h a : Nat) :
    (deviceStages ops dev self n st e m h a).trace.filter GLCall.isComputeStep =
      [.useProgram m,
       .memoryBarrier, .dispatchCompute (workGroupsOf n) 1 1, .memoryBarrier, .finish,
       .getBufferSubData .shaderStorage (n * 8),
       .useProgram h,
       .memoryBarrier, .dispatchCompute (workGroupsOf n) 1 1, .memoryBarrier, .finish,
       .useProgram a,
       .memoryBarrier, .dispatchCompute (workGroupsOf n) 1 1, .memoryBarrier, .finish,
       .getBufferSubData .shaderStorage (totalNodesOf n * 36)] := by
  rw [deviceStages_trace]
  simp only [List.filter_append, replaceInstanceVBO_computeSteps]
  rfl

theorem deviceStages_dispatches (ops : FloatOps) (dev : Device) (self : BVH) (n : Nat)
    (st : ExtractState) (e : Vec3) (m h a : Nat) :
    (deviceStages ops dev self n st e m h a).trace.filter GLCall.isDispatch =
      [.dispatchCompute (workGroupsOf n) 1 1, .dispatchCompute (workGroupsOf n) 1 1,
       .dispatchCompute (workGroupsOf n) 1 1] := by
  rw [deviceStages_trace]
  simp only [List.filter_append, replaceInstanceVBO_dispatches]
  rfl

/-- C12 (as amended): a completed build issues exactly three compute
dispatches, in the order Morton stage, hierarchy stage, box stage, each after
`glUseProgram` of the shader passed for it, each between two `glMemoryBarrier`
calls and followed by `glFinish` before the next program is selected or a
buffer is read back; the sort shader is not used at all (the result is the
same for every `sortShader`): the keys read back after the Morton stage are
sorted on the host by `std::sort`. -/
theorem three_dispatches_host_sort (ops : FloatOps) (dev : Device) (self : BVH)
    (positions : List Vec3) (indices : List Nat) (m s h a : Nat)
    (hdone : (self.buildLBVHDynamic ops dev positions indices m s h a).outcome = .completed) :
    (self.buildLBVHDynamic ops dev positions indices m s h a).trace.filter GLCall.isComputeStep =
      [.useProgram m,
       .memoryBarrier, .dispatchCompute (workGroupsOf (numTrisOf indices)) 1 1, .memoryBarrier,
       .finish,
       .getBufferSubData .shaderStorage (numTrisOf indices * 8),
       .useProgram h,
       .memoryBarrier, .dispatchCompute (workGroupsOf (numTrisOf indices)) 1 1, .memoryBarrier,
       .finish,
       .useProgram a,
       .memoryBarrier, .dispatchCompute (workGroupsOf (numTrisOf indices)) 1 1, .memoryBarrier,
       .finish,
       .getBufferSubData .shaderStorage (totalNodesOf (numTrisOf indices) * 36)] ∧
    ((self.buildLBVHDynamic ops dev positions indices m s h a).trace.filter
      GLCall.isDispatch).length = 3 ∧
    (∀ s2 : Nat, self.buildLBVHDynamic ops dev positions indices m s2 h a =
      self.buildLBVHDynamic ops dev positions indices m s h a) ∧
    (self.buildLBVHDynamic ops dev positions indices m s h a).mortonData =
      stdSort mortonLess ((List.range (numTrisOf indices)).map dev.mortonReadback) := by
  refine ⟨?_, ?_, fun _ => rfl, ?_⟩
  · rw [build_completed ops dev self positions indices m s h a hdone, deviceStages_computeSteps]
  · rw [build_completed ops dev self positions indices m s h a hdone, deviceStages_dispatches]
    rfl
  · rw [build_completed ops dev self positions indices m s h a hdone, deviceStages_mortonData]
    rfl

/-- Witness for C12: the build of one triangle with shaders 1, 2, 3, 4. -/
theorem three_dispatches_host_sort_witness :
    (({} : BVH).buildLBVHDynamic exactOps unitDevice cornerPositions [0, 1, 2]
      1 2 3 4).outcome = .completed ∧
    ((({} : BVH).buildLBVHDynamic exactOps unitDevice cornerPositions [0, 1, 2]
      1 2 3 4).trace.filter GLCall.isDispatch).length = 3 :=
  ⟨by decide,
    (three_dispatches_host_sort exactOps unitDevice {} cornerPositions [0, 1, 2] 1 2 3 4
      (by decide)).2.1⟩

/-- Counterexample to C12 as stated: the completed build of one triangle with
shaders 1 (Morton), 2 (sort), 3 (hierarchy), 4 (boxes) issues three dispatches,
not four, and never selects program 2. -/
theorem no_sort_dispatch :
    (({} : BVH).buildLBVHDynamic exactOps unitDevice cornerPositions [0, 1, 2]
      1 2 3 4).outcome = .completed ∧
    ((({} : BVH).buildLBVHDynamic exactOps unitDevice cornerPositions [0, 1, 2]
      1 2 3 4).trace.filter GLCall.isDispatch).length ≠ 4 ∧
    GLCall.useProgram 2 ∉ (({} : BVH).buildLBVHDynamic exactOps unitDevice cornerPositions
      [0, 1, 2] 1 2 3 4).trace := by
  decide

/-! ## The workgroup count -/

theorem workGroupsOf_spec (n : Nat) (h1 : 1 ≤ n) (h2 : n ≤ 2 ^ 32 - 256) :
    1 ≤ workGroupsOf n ∧ n ≤ workGroupsOf n * 256 ∧ (workGroupsOf n - 1) * 256 < n := by
  simp only [workGroupsOf, addU32, toU32]
  omega

theorem paddedIndices_length (k : Nat) : (paddedIndices k).length = 3 * (k + 1) := by
  unfold paddedIndices
  rw [List.length_cons, List.length_cons, List.length_cons, List.length_replicate]
  omega

theorem numTrisOf_paddedIndices (k : Nat) (hk : k + 1 < 2 ^ 32) :
    numTrisOf (paddedIndices k) = k + 1 := by
  have h : numTrisOf (paddedIndices k) = toU32 ((paddedIndices k).length / 3) := rfl
  rw [h, paddedIndices_length, Nat.mul_div_cancel_left _ (by norm_num : 0 < 3)]
  exact toU32_of_lt hk

theorem paddedIndices_getD_tail (k q : Nat) (hq : 3 ≤ q) : (paddedIndices k).getD q 0 = 0 := by
  obtain ⟨r, rfl⟩ : ∃ r, q = r + 1 + 1 + 1 := ⟨q - 3, by omega⟩
  unfold paddedIndices
  rw [List.getD_eq_getElem?_getD, List.getElem?_cons_succ, List.getElem?_cons_succ,
    List.getElem?_cons_succ, List.getElem?_replicate]
  split_ifs <;> rfl

theorem paddedIndices_getD_lt (k q : Nat) : (paddedIndices k).getD q 0 < 3 := by
  by_cases hq : 3 ≤ q
  · rw [paddedIndices_getD_tail k q hq]
    norm_num
  · have h3 : q = 0 ∨ q = 1 ∨ q = 2 := by omega
    rcases h3 with rfl | rfl | rfl
    · show (0 : Nat) < 3
      norm_num
    · show (1 : Nat) < 3
      norm_num
    · show (2 : Nat) < 3
      norm_num

theorem paddedIndices_corner (k j : Nat) (hj : 1 ≤ j) (c : Nat) :
    corner cornerPositions (paddedIndices k) j c = originPoint := by
  unfold corner
  rw [paddedIndices_getD_tail _ _ (by omega)]
  rfl

theorem paddedIndices_globalBox (k n : Nat) (hn : 1 ≤ n) :
    globalBox cornerPositions (paddedIndices k) n = unitSquareBox := by
  induction n with
  | zero => omega
  | succ i ih =>
    rw [globalBox_succ]
    rcases Nat.eq_zero_or_pos i with hi | hi
    · subst hi
      rfl
    · rw [ih hi]
      unfold expandTriangle
      rw [paddedIndices_corner k i hi 0, paddedIndices_corner k i hi 1,
        paddedIndices_corner k i hi 2]
      decide

theorem paddedIndices_completed (k : Nat) (hk : k + 1 < 2 ^ 32) :
    (({} : BVH).buildLBVHDynamic exactOps unitDevice cornerPositions (paddedIndices k)
      1 2 3 4).outcome = .completed := by
  apply build_completed_of_valid
  · rw [numTrisOf_paddedIndices k hk]
    omega
  · rfl
  · intro j _
    exact ⟨paddedIndices_getD_lt _ _, paddedIndices_getD_lt _ _, paddedIndices_getD_lt _ _⟩
  · rw [paddedIndices_globalBox _ _ (by rw [numTrisOf_paddedIndices k hk]; omega)]
    decide

/-- C18 (as amended): in a completed build on `N` triangles (`N` the value of
`numTris`) with `N <= 2^32 - 256`, each of the three dispatches is
`glDispatchCompute(workGroups, 1, 1)` with `workGroups = (N + 255) / 256`, and
`N >= 1`, `workGroups >= 1`, `workGroups * 256 >= N` and
`(workGroups - 1) * 256 < N`. -/
theorem workgroups_cover_primitives (ops : FloatOps) (dev : Device) (self : BVH)
    (positions : List Vec3) (indices : List Nat) (m s h a : Nat)
    (hdone : (self.buildLBVHDynamic ops dev positions indices m s h a).outcome = .completed)
    (hN : numTrisOf indices ≤ 2 ^ 32 - 256) :
    (self.buildLBVHDynamic ops dev positions indices m s h a).trace.filter GLCall.isDispatch =
      [.dispatchCompute (workGroupsOf (numTrisOf indices)) 1 1,
       .dispatchCompute (workGroupsOf (numTrisOf indices)) 1 1,
       .dispatchCompute (workGroupsOf (numTrisOf indices)) 1 1] ∧
    workGroupsOf (numTrisOf indices) = (numTrisOf indices + 255) / 256 ∧
    1 ≤ numTrisOf indices ∧
    1 ≤ workGroupsOf (numTrisOf indices) ∧
    numTrisOf indices ≤ workGroupsOf (numTrisOf indices) * 256 ∧
    (workGroupsOf (numTrisOf indices) - 1) * 256 < numTrisOf indices := by
  obtain ⟨h0, _, _⟩ := passes_validation ops dev self positions indices m s h a (Or.inr hdone)
  have h1 : 1 ≤ numTrisOf indices := Nat.pos_of_ne_zero h0
  refine ⟨?_, ?_, h1, workGroupsOf_spec _ h1 hN⟩
  · rw [build_completed ops dev self positions indices m s h a hdone, deviceStages_dispatches]
  · simp only [workGroupsOf, addU32, toU32]
    omega

/-- Witness for C18 (as amended): 300 triangles are dispatched in 2 groups. -/
theorem workgroups_cover_primitives_witness :
    (({} : BVH).buildLBVHDynamic exactOps unitDevice cornerPositions (paddedIndices 299)
      1 2 3 4).outcome = .completed ∧
    numTrisOf (paddedIndices 299) = 300 ∧
    numTrisOf (paddedIndices 299) ≤ workGroupsOf (numTrisOf (paddedIndices 299)) * 256 ∧
    (workGroupsOf (numTrisOf (paddedIndices 299)) - 1) * 256 < numTrisOf (paddedIndices 299) :=
  ⟨paddedIndices_completed 299 (by norm_num), numTrisOf_paddedIndices 299 (by norm_num),
    (workgroups_cover_primitives exactOps unitDevice {} cornerPositions (paddedIndices 299)
      1 2 3 4 (paddedIndices_completed 299 (by norm_num))
      (by rw [numTrisOf_paddedIndices 299 (by norm_num)]; norm_num)).2.2.2.2⟩

/-- C18 (counterexample): for `N = 2^32 - 255` triangles the sum `N + 255`
wraps to 0, the build runs to completion and all three dispatches are
`glDispatchCompute(0, 1, 1)`: no lane at all, `workGroups * 256 < N`. -/
theorem workgroups_wrap_to_zero :
    numTrisOf manyIndices = 2 ^ 32 - 255 ∧
    workGroupsOf (numTrisOf manyIndices) = 0 ∧
    workGroupsOf (numTrisOf manyIndices) * 256 < numTrisOf manyIndices ∧
    (({} : BVH).buildLBVHDynamic exactOps unitDevice cornerPositions manyIndices
      1 2 3 4).outcome = .completed ∧
    (({} : BVH).buildLBVHDynamic exactOps unitDevice cornerPositions manyIndices
      1 2 3 4).trace.filter GLCall.isDispatch =
      [.dispatchCompute 0 1 1, .dispatchCompute 0 1 1, .dispatchCompute 0 1 1] := by
  have hn : numTrisOf manyIndices = 2 ^ 32 - 255 :=
    numTrisOf_paddedIndices (2 ^ 32 - 256) (by norm_num)
  have hw : workGroupsOf (2 ^ 32 - 255) = 0 := by decide
  have hdone := paddedIndices_completed (2 ^ 32 - 256) (by norm_num)
  refine ⟨hn, ?_, ?_, hdone, ?_⟩
  · rw [hn, hw]
  · rw [hn, hw]
    norm_num
  · show ((({} : BVH).buildLBVHDynamic exactOps unitDevice cornerPositions
      (paddedIndices (2 ^ 32 - 256)) 1 2 3 4).trace.filter GLCall.isDispatch) = _
    have hn2 : numTrisOf (paddedIndices (2 ^ 32 - 256)) = 2 ^ 32 - 255 := hn
    rw [build_completed _ _ _ _ _ _ _ _ _ hdone, deviceStages_dispatches, hn2, hw]

/-! ## The flattening of a model into one position list and one index list -/

theorem foldl_flatten_eq (meshes : List Mesh) (ps : List Vec3) (ix : List Nat) :
    meshes.foldl (fun acc mesh => (acc.1 ++ mesh.vertices, acc.2 ++ mesh.indices)) (ps, ix) =
      (ps ++ meshes.flatMap Mesh.vertices, ix ++ meshes.flatMap Mesh.indices) := by
  induction meshes generalizing ps ix with
  | nil => simp
  | cons x xs ih => simp [ih, List.append_assoc]

/-- The lists built by `Init::render`: the concatenated vertex positions and the
concatenated, unshifted indices. -/
theorem flattenRender_eq (transform : Vec3 → Vec3) (meshes : List Mesh) :
    flattenRender transform meshes =
      ((meshes.flatMap Mesh.vertices).map transform, meshes.flatMap Mesh.indices) := by
  unfold flattenRender
  rw [foldl_flatten_eq]
  rfl

theorem foldl_flattenInitialize_eq (meshes : List Mesh) (ps : List Vec3) (ix : List Nat) :
    meshes.foldl
        (fun acc mesh =>
          if mesh.vertices.isEmpty then acc
          else (acc.1 ++ mesh.vertices, acc.2 ++ mesh.indices))
        (ps, ix) =
      (ps ++ (meshes.filter (fun mesh => !mesh.vertices.isEmpty)).flatMap Mesh.vertices,
        ix ++ (meshes.filter (fun mesh => !mesh.vertices.isEmpty)).flatMap Mesh.indices) := by
  induction meshes generalizing ps ix with
  | nil => simp
  | cons x xs ih =>
    rw [List.foldl_cons, ih]
    cases hx : x.vertices.isEmpty <;> simp [hx, List.filter_cons, List.append_assoc]

/-- The lists built by `Init::initialize`: the concatenated vertex positions and
the concatenated, unshifted indices of the meshes that have vertices. -/
theorem flattenInitialize_eq (meshes : List Mesh) :
    flattenInitialize meshes =
      ((meshes.filter (fun mesh => !mesh.vertices.isEmpty)).flatMap Mesh.vertices,
        (meshes.filter (fun mesh => !mesh.vertices.isEmpty)).flatMap Mesh.indices) := by
  unfold flattenInitialize
  rw [foldl_flattenInitialize_eq]
  rfl

/-- C20 (the code at the failing input): for the model of two one-triangle
meshes, both flattening loops hand the index list `[0, 1, 2, 0, 1, 2]` to the
build. Index 0 of the second mesh names the vertex `(0, 0, 1)` within that
mesh, but in the flattened list it resolves to `(0, 0, 0)`, the first vertex of
the first mesh; the box extracted for the second triangle is the box of the
first mesh's triangle, not that of the second mesh's. -/
theorem flattening_drops_mesh_offset :
    flattenInitialize stackedMeshes =
      (groundMesh.vertices ++ raisedMesh.vertices, [0, 1, 2, 0, 1, 2]) ∧
    flattenRender id stackedMeshes =
      (groundMesh.vertices ++ raisedMesh.vertices, [0, 1, 2, 0, 1, 2]) ∧
    raisedMesh.vertices.getD (raisedMesh.indices.getD 0 0) default = unitZPoint ∧
    corner (flattenInitialize stackedMeshes).1 (flattenInitialize stackedMeshes).2 1 0 =
      originPoint ∧
    originPoint ≠ unitZPoint ∧
    triangleBox (flattenInitialize stackedMeshes).1 (flattenInitialize stackedMeshes).2 1 =
      triangleBox groundMesh.vertices groundMesh.indices 0 ∧
    triangleBox (flattenInitialize stackedMeshes).1 (flattenInitialize stackedMeshes).2 1 ≠
      triangleBox raisedMesh.vertices raisedMesh.indices 0 := by
  decide

/-! ## `AABB::expand` -/

theorem vec3_noNaN_iff (v : Vec3) :
    v.noNaN ↔ v.x.isnan = false ∧ v.y.isnan = false ∧ v.z.isnan = false := by
  simp [Vec3.noNaN, glm.any, glm.isnan, and_assoc]

theorem vec3_allLe_iff (a b : Vec3) :
    a.allLe b ↔ F32.le a.x b.x = true ∧ F32.le a.y b.y = true ∧ F32.le a.z b.z = true := by
  simp [Vec3.allLe, glm.all, glm.lessThanEqual, and_assoc]

theorem allLe_trans (a b c : Vec3) (h1 : a.allLe b) (h2 : b.allLe c) : a.allLe c := by
  rw [vec3_allLe_iff] at h1 h2 ⊢
  exact ⟨f32_le_trans _ _ _ h1.1 h2.1, f32_le_trans _ _ _ h1.2.1 h2.2.1,
    f32_le_trans _ _ _ h1.2.2 h2.2.2⟩

theorem allLe_refl (a : Vec3) (ha : a.noNaN) : a.allLe a := by
  rw [vec3_noNaN_iff] at ha
  rw [vec3_allLe_iff]
  exact ⟨le_refl_of_not_isnan _ ha.1, le_refl_of_not_isnan _ ha.2.1,
    le_refl_of_not_isnan _ ha.2.2⟩

theorem minF_le_left (x y : F32) (hx : x.isnan = false) : F32.le (glm.minF x y) x = true := by
  cases x <;> cases y <;> simp [glm.minF, F32.lt, F32.le, F32.isnan] at hx ⊢
  split_ifs <;> simp [F32.le]
  omega

theorem le_maxF_left (x y : F32) (hx : x.isnan = false) : F32.le x (glm.maxF x y) = true := by
  cases x <;> cases y <;> simp [glm.maxF, F32.lt, F32.le, F32.isnan] at hx ⊢
  split_ifs <;> simp [F32.le]
  omega

theorem expand_noNaN (b : AABB) (p : Vec3) (hmin : b.min.noNaN) (hmax : b.max.noNaN) :
    (b.expand p).min.noNaN ∧ (b.expand p).max.noNaN := by
  rw [vec3_noNaN_iff] at hmin hmax ⊢
  rw [vec3_noNaN_iff]
  exact ⟨⟨minF_isnan _ _ hmin.1, minF_isnan _ _ hmin.2.1, minF_isnan _ _ hmin.2.2⟩,
    ⟨maxF_isnan _ _ hmax.1, maxF_isnan _ _ hmax.2.1, maxF_isnan _ _ hmax.2.2⟩⟩

theorem expand_grows (b : AABB) (p : Vec3) (hmin : b.min.noNaN) (hmax : b.max.noNaN) :
    (b.expand p).min.allLe b.min ∧ b.max.allLe (b.expand p).max := by
  rw [vec3_noNaN_iff] at hmin hmax
  rw [vec3_allLe_iff, vec3_allLe_iff]
  exact ⟨⟨minF_le_left _ _ hmin.1, minF_le_left _ _ hmin.2.1, minF_le_left _ _ hmin.2.2⟩,
    ⟨le_maxF_left _ _ hmax.1, le_maxF_left _ _ hmax.2.1, le_maxF_left _ _ hmax.2.2⟩⟩

theorem expand_contains (b : AABB) (p : Vec3) (hmin : b.min.noNaN) (hmax : b.max.noNaN)
    (hp : p.noNaN) : (b.expand p).min.allLe p ∧ p.allLe (b.expand p).max := by
  rw [vec3_noNaN_iff] at hmin hmax hp
  rw [vec3_allLe_iff, vec3_allLe_iff]
  exact ⟨⟨(minF_le _ _ hmin.1 hp.1).2, (minF_le _ _ hmin.2.1 hp.2.1).2,
      (minF_le _ _ hmin.2.2 hp.2.2).2⟩,
    ⟨(le_maxF _ _ hmax.1 hp.1).2, (le_maxF _ _ hmax.2.1 hp.2.1).2,
      (le_maxF _ _ hmax.2.2 hp.2.2).2⟩⟩

theorem expandAll_cons (b : AABB) (p : Vec3) (ps : List Vec3) :
    b.expandAll (p :: ps) = (b.expand p).expandAll ps := rfl

theorem expandAll_noNaN (ps : List Vec3) :
    ∀ b : AABB, b.min.noNaN → b.max.noNaN →
      (b.expandAll ps).min.noNaN ∧ (b.expandAll ps).max.noNaN := by
  induction ps with
  | nil => intro b h1 h2; exact ⟨h1, h2⟩
  | cons p ps ih =>
    intro b h1 h2
    rw [expandAll_cons]
    exact ih _ (expand_noNaN b p h1 h2).1 (expand_noNaN b p h1 h2).2

theorem expandAll_grows (ps : List Vec3) :
    ∀ b : AABB, b.min.noNaN → b.max.noNaN →
      (b.expandAll ps).min.allLe b.min ∧ b.max.allLe (b.expandAll ps).max := by
  induction ps with
  | nil => intro b h1 h2; exact ⟨allLe_refl _ h1, allLe_refl _ h2⟩
  | cons p ps ih =>
    intro b h1 h2
    rw [expandAll_cons]
    obtain ⟨n1, n2⟩ := expand_noNaN b p h1 h2
    obtain ⟨g1, g2⟩ := expand_grows b p h1 h2
    obtain ⟨i1, i2⟩ := ih _ n1 n2
    exact ⟨allLe_trans _ _ _ i1 g1, allLe_trans _ _ _ g2 i2⟩

theorem expandAll_contains (ps : List Vec3) :
    ∀ b : AABB, b.min.noNaN → b.max.noNaN → (∀ p ∈ ps, p.noNaN) →
      ∀ p ∈ ps, (b.expandAll ps).min.allLe p ∧ p.allLe (b.expandAll ps).max := by
  induction ps with
  | nil => intro b _ _ _ p hp; cases hp
  | cons q qs ih =>
    intro b h1 h2 hps p hp
    rw [expandAll_cons]
    obtain ⟨n1, n2⟩ := expand_noNaN b q h1 h2
    rcases List.mem_cons.mp hp with rfl | hp2
    · obtain ⟨c1, c2⟩ := expand_contains b p h1 h2 (hps p (List.mem_cons_self _ _))
      obtain ⟨g1, g2⟩ := expandAll_grows qs _ n1 n2
      exact ⟨allLe_trans _ _ _ g1 c1, allLe_trans _ _ _ c2 g2⟩
    · exact ih _ n1 n2 (fun r hr => hps r (List.mem_cons_of_mem _ hr)) p hp2

/-- C15 (as amended): start from the empty box, be it `(+inf, -inf)` as the
spec states it or `(FLT_MAX, -FLT_MAX)` as `AABB` is default-constructed.
Each single `expand` of a box reached from there never shrinks it (new min <=
old min and old max <= new max componentwise), whatever the points. After a
non-empty sequence of `expand` calls with points none of whose coordinates is
NaN, `min <= max` holds componentwise and every expanded point lies within
`[min, max]`. -/
theorem expand_box_invariants (b0 : AABB)
    (hb0 : b0 = ⟨Vec3.splat .posInf, Vec3.splat .negInf⟩ ∨ b0 = {}) (ps : List Vec3) :
    (∀ (qs : List Vec3) (q : Vec3),
      ((b0.expandAll qs).expand q).min.allLe (b0.expandAll qs).min ∧
      (b0.expandAll qs).max.allLe ((b0.expandAll qs).expand q).max) ∧
    (ps ≠ [] → (∀ p ∈ ps, p.noNaN) →
      (b0.expandAll ps).min.allLe (b0.expandAll ps).max ∧
      ∀ p ∈ ps, (b0.expandAll ps).min.allLe p ∧ p.allLe (b0.expandAll ps).max) := by
  have h0 : b0.min.noNaN ∧ b0.max.noNaN := by
    rcases hb0 with rfl | rfl
    · exact ⟨by decide, by decide⟩
    · exact ⟨by decide, by decide⟩
  refine ⟨?_, ?_⟩
  · intro qs q
    obtain ⟨n1, n2⟩ := expandAll_noNaN qs b0 h0.1 h0.2
    exact expand_grows _ q n1 n2
  · intro hne hps
    have hc := expandAll_contains ps b0 h0.1 h0.2 hps
    refine ⟨?_, hc⟩
    obtain ⟨p, hp⟩ := List.exists_mem_of_ne_nil ps hne
    exact allLe_trans _ _ _ (hc p hp).1 (hc p hp).2

/-- Witness for C15 (as amended): the box of the three corners of the unit
square, expanded from `(+inf, -inf)`. -/
theorem expand_box_invariants_witness :
    (AABB.mk (Vec3.splat .posInf) (Vec3.splat .negInf)).expandAll cornerPositions =
      unitSquareBox ∧
    ((AABB.mk (Vec3.splat .posInf) (Vec3.splat .negInf)).expandAll cornerPositions).min.allLe
      ((AABB.mk (Vec3.splat .posInf) (Vec3.splat .negInf)).expandAll cornerPositions).max :=
  ⟨by decide,
    ((expand_box_invariants ⟨Vec3.splat .posInf, Vec3.splat .negInf⟩ (Or.inl rfl)
      cornerPositions).2 (by decide) (by decide)).1⟩

/-- C15 (counterexample): one `expand` call with a point whose coordinates are
NaN leaves the empty box `(+inf, -inf)` as it is, so after this non-empty
sequence `min <= max` fails on every axis and the point is not within
`[min, max]`; the same happens from the default box `(FLT_MAX, -FLT_MAX)`. -/
theorem expand_nan_stays_empty :
    (AABB.mk (Vec3.splat .posInf) (Vec3.splat .negInf)).expandAll [nanPoint] =
      ⟨Vec3.splat .posInf, Vec3.splat .negInf⟩ ∧
    glm.lessThanEqual
      ((AABB.mk (Vec3.splat .posInf) (Vec3.splat .negInf)).expandAll [nanPoint]).min
      ((AABB.mk (Vec3.splat .posInf) (Vec3.splat .negInf)).expandAll [nanPoint]).max =
      ⟨false, false, false⟩ ∧
    ¬ ((AABB.mk (Vec3.splat .posInf) (Vec3.splat .negInf)).expandAll [nanPoint]).min.allLe
      nanPoint ∧
    glm.lessThanEqual (({} : AABB).expandAll [nanPoint]).min
      (({} : AABB).expandAll [nanPoint]).max = ⟨false, false, false⟩ := by
  decide

/-! ## Translation of the input -/

theorem minF_shift (ops : FloatOps) (t : F32) (S : List F32) (h : ShiftOK ops t S)
    (x y : F32) (hx : x ∈ S) (hy : y ∈ S) :
    glm.minF (ops.add x t) (ops.add y t) = ops.add (glm.minF x y) t := by
  obtain ⟨hfin, hmono⟩ := h
  have m1 := hmono _ hx _ hy
  have m2 := hmono _ hy _ hx
  obtain ⟨a2, ha2, -, -⟩ := (f32_isFinite_iff _).mp (hfin _ hx).2
  obtain ⟨b2, hb2, -, -⟩ := (f32_isFinite_iff _).mp (hfin _ hy).2
  obtain ⟨a, rfl, -, -⟩ := (f32_isFinite_iff x).mp (hfin x hx).1
  obtain ⟨b, rfl, -, -⟩ := (f32_isFinite_iff y).mp (hfin y hy).1
  rw [ha2, hb2] at m1 m2
  simp only [F32.le, decide_eq_true_eq] at m1 m2
  unfold glm.minF
  rw [ha2, hb2]
  by_cases hlt : b < a
  · rw [if_pos (show F32.lt (.fin b) (.fin a) = true by simpa [F32.lt] using hlt), hb2]
    by_cases hlt2 : b2 < a2
    · rw [if_pos (by simpa [F32.lt] using hlt2)]
    · rw [if_neg (by simpa [F32.lt] using hlt2)]
      have h3 := m2 (by omega)
      have h4 : a2 = b2 := by omega
      rw [h4]
  · rw [if_neg (show ¬ F32.lt (.fin b) (.fin a) = true by simpa [F32.lt] using hlt), ha2]
    have h3 := m1 (by omega)
    rw [if_neg (by simpa [F32.lt] using (show ¬ b2 < a2 by omega))]

theorem maxF_shift (ops : FloatOps) (t : F32) (S : List F32) (h : ShiftOK ops t S)
    (x y : F32) (hx : x ∈ S) (hy : y ∈ S) :
    glm.maxF (ops.add x t) (ops.add y t) = ops.add (glm.maxF x y) t := by
  obtain ⟨hfin, hmono⟩ := h
  have m1 := hmono _ hx _ hy
  have m2 := hmono _ hy _ hx
  obtain ⟨a2, ha2, -, -⟩ := (f32_isFinite_iff _).mp (hfin _ hx).2
  obtain ⟨b2, hb2, -, -⟩ := (f32_isFinite_iff _).mp (hfin _ hy).2
  obtain ⟨a, rfl, -, -⟩ := (f32_isFinite_iff x).mp (hfin x hx).1
  obtain ⟨b, rfl, -, -⟩ := (f32_isFinite_iff y).mp (hfin y hy).1
  rw [ha2, hb2] at m1 m2
  simp only [F32.le, decide_eq_true_eq] at m1 m2
  unfold glm.maxF
  rw [ha2, hb2]
  by_cases hlt : a < b
  · rw [if_pos (show F32.lt (.fin a) (.fin b) = true by simpa [F32.lt] using hlt), hb2]
    by_cases hlt2 : a2 < b2
    · rw [if_pos (by simpa [F32.lt] using hlt2)]
    · rw [if_neg (by simpa [F32.lt] using hlt2)]
      have h3 := m1 (by omega)
      have h4 : a2 = b2 := by omega
      rw [h4]
  · rw [if_neg (show ¬ F32.lt (.fin a) (.fin b) = true by simpa [F32.lt] using hlt), ha2]
    have h3 := m2 (by omega)
    rw [if_neg (by simpa [F32.lt] using (show ¬ a2 < b2 by omega))]

theorem minF_mem (S : List F32) (x y : F32) (hx : x ∈ S) (hy : y ∈ S) : glm.minF x y ∈ S := by
  rcases minF_eq_or x y with h | h <;> rw [h] <;> assumption

theorem maxF_mem (S : List F32) (x y : F32) (hx : x ∈ S) (hy : y ∈ S) : glm.maxF x y ∈ S := by
  rcases maxF_eq_or x y with h | h <;> rw [h] <;> assumption

theorem expand_shift (ops : FloatOps) (t : Vec3) (P : List Vec3)
    (hx : ShiftOK ops t.x (P.map Vec3.x)) (hy : ShiftOK ops t.y (P.map Vec3.y))
    (hz : ShiftOK ops t.z (P.map Vec3.z)) (b : AABB) (hb : b.boundsIn P) (p : Vec3)
    (hp : p ∈ P) :
    (b.translate ops t).expand (Vec3.add ops p t) = (b.expand p).translate ops t ∧
      (b.expand p).boundsIn P := by
  obtain ⟨b1, b2, b3, b4, b5, b6⟩ := hb
  have px : p.x ∈ P.map Vec3.x := List.mem_map_of_mem _ hp
  have py : p.y ∈ P.map Vec3.y := List.mem_map_of_mem _ hp
  have pz : p.z ∈ P.map Vec3.z := List.mem_map_of_mem _ hp
  refine ⟨?_, minF_mem _ _ _ b1 px, minF_mem _ _ _ b2 py, minF_mem _ _ _ b3 pz,
    maxF_mem _ _ _ b4 px, maxF_mem _ _ _ b5 py, maxF_mem _ _ _ b6 pz⟩
  simp only [AABB.translate, AABB.expand, glm.min, glm.max, Vec3.add,
    minF_shift ops t.x _ hx _ _ b1 px, minF_shift ops t.y _ hy _ _ b2 py,
    minF_shift ops t.z _ hz _ _ b3 pz, maxF_shift ops t.x _ hx _ _ b4 px,
    maxF_shift ops t.y _ hy _ _ b5 py, maxF_shift ops t.z _ hz _ _ b6 pz]

theorem expand_shift_empty (ops : FloatOps) (t : Vec3) (P : List Vec3)
    (hx : ShiftOK ops t.x (P.map Vec3.x)) (hy : ShiftOK ops t.y (P.map Vec3.y))
    (hz : ShiftOK ops t.z (P.map Vec3.z)) (p : Vec3) (hp : p ∈ P) :
    ({} : AABB).expand (Vec3.add ops p t) = (({} : AABB).expand p).translate ops t ∧
      (({} : AABB).expand p).boundsIn P := by
  have px : p.x ∈ P.map Vec3.x := List.mem_map_of_mem _ hp
  have py : p.y ∈ P.map Vec3.y := List.mem_map_of_mem _ hp
  have pz : p.z ∈ P.map Vec3.z := List.mem_map_of_mem _ hp
  have f1 : p.isFinite = true :=
    (vec3_isFinite_iff p).mpr ⟨(hx.1 _ px).1, (hy.1 _ py).1, (hz.1 _ pz).1⟩
  have f2 : (Vec3.add ops p t).isFinite = true :=
    (vec3_isFinite_iff _).mpr ⟨(hx.1 _ px).2, (hy.1 _ py).2, (hz.1 _ pz).2⟩
  rw [expand_empty_of_isFinite _ f1, expand_empty_of_isFinite _ f2]
  exact ⟨rfl, px, py, pz, px, py, pz⟩

theorem corner_translate (ops : FloatOps) (t : Vec3) (positions : List Vec3)
    (indices : List Nat) (j c : Nat) (hin : indices.getD (j * 3 + c) 0 < positions.length) :
    corner (translatePositions ops t positions) indices j c =
      Vec3.add ops (corner positions indices j c) t ∧
    corner positions indices j c ∈ positions := by
  unfold corner translatePositions
  rw [List.getD_eq_getElem _ _ (by rw [List.length_map]; exact hin), List.getElem_map,
    List.getD_eq_getElem _ _ hin]
  exact ⟨rfl, List.getElem_mem _⟩

theorem expandTriangle_shift (ops : FloatOps) (t : Vec3) (positions : List Vec3)
    (indices : List Nat)
    (hx : ShiftOK ops t.x (positions.map Vec3.x)) (hy : ShiftOK ops t.y (positions.map Vec3.y))
    (hz : ShiftOK ops t.z (positions.map Vec3.z)) (j : Nat)
    (hin : TriangleInRange positions indices j) (b b2 : AABB)
    (hb : ∀ p ∈ positions, b2.expand (Vec3.add ops p t) = (b.expand p).translate ops t ∧
      (b.expand p).boundsIn positions) :
    expandTriangle (translatePositions ops t positions) indices b2 j =
      (expandTriangle positions indices b j).translate ops t ∧
    (expandTriangle positions indices b j).boundsIn positions := by
  obtain ⟨i0, i1, i2⟩ := hin
  obtain ⟨c0, m0⟩ := corner_translate ops t positions indices j 0 i0
  obtain ⟨c1, m1⟩ := corner_translate ops t positions indices j 1 i1
  obtain ⟨c2, m2⟩ := corner_translate ops t positions indices j 2 i2
  unfold expandTriangle
  rw [c0, c1, c2, (hb _ m0).1]
  have second := expand_shift ops t positions hx hy hz _ (hb _ m0).2 _ m1
  rw [second.1]
  exact expand_shift ops t positions hx hy hz _ second.2 _ m2

theorem triangleBox_shift (ops : FloatOps) (t : Vec3) (positions : List Vec3)
    (indices : List Nat)
    (hx : ShiftOK ops t.x (positions.map Vec3.x)) (hy : ShiftOK ops t.y (positions.map Vec3.y))
    (hz : ShiftOK ops t.z (positions.map Vec3.z)) (j : Nat)
    (hin : TriangleInRange positions indices j) :
    triangleBox (translatePositions ops t positions) indices j =
      (triangleBox positions indices j).translate ops t :=
  (expandTriangle_shift ops t positions indices hx hy hz j hin {} {}
    (fun p hp => expand_shift_empty ops t positions hx hy hz p hp)).1

theorem globalBox_shift (ops : FloatOps) (t : Vec3) (positions : List Vec3)
    (indices : List Nat)
    (hx : ShiftOK ops t.x (positions.map Vec3.x)) (hy : ShiftOK ops t.y (positions.map Vec3.y))
    (hz : ShiftOK ops t.z (positions.map Vec3.z)) (n : Nat)
    (hin : ∀ j, j < n → TriangleInRange positions indices j) (hn : 0 < n) :
    globalBox (translatePositions ops t positions) indices n =
      (globalBox positions indices n).translate ops t ∧
    (globalBox positions indices n).boundsIn positions := by
  induction n with
  | zero => omega
  | succ k ih =>
    rw [globalBox_succ, globalBox_succ]
    rcases Nat.eq_zero_or_pos k with hk | hk
    · subst hk
      exact expandTriangle_shift ops t positions indices hx hy hz 0 (hin 0 (by omega)) {} {}
        (fun p hp => expand_shift_empty ops t positions hx hy hz p hp)
    · obtain ⟨e1, e2⟩ := ih (fun j hj => hin j (by omega)) hk
      rw [e1]
      exact expandTriangle_shift ops t positions indices hx hy hz k (hin k (by omega)) _ _
        (fun p hp => expand_shift ops t positions hx hy hz _ e2 p hp)

/-- The outcome of a call with at least one triangle and every triangle in
range: no context, or the decision of the test of line 80. -/
theorem outcome_of_valid (ops : FloatOps) (dev : Device) (self : BVH)
    (positions : List Vec3) (indices : List Nat) (m s h a : Nat)
    (h0 : numTrisOf indices ≠ 0)
    (hall : ∀ j, j < numTrisOf indices → TriangleInRange positions indices j) :
    (self.buildLBVHDynamic ops dev positions indices m s h a).outcome =
      if dev.hasContext = false then .noContext
      else if glm.all (glm.lessThanEqual
          (extentOf ops (globalBox positions indices (numTrisOf indices))) (Vec3.splat eps)) = true
        then .degenerateGlobalAABB
      else .completed := by
  cases hc : dev.hasContext
  · rw [build_of_noContext ops dev self positions indices m s h a h0 hc]
    rfl
  · rw [build_of_valid ops dev self positions indices m s h a h0 hc hall, afterLoop_none]
    rw [if_neg (show ¬ (true = false) by decide)]
    have hg : (extractedState positions indices (numTrisOf indices)).globalAABB =
      globalBox positions indices (numTrisOf indices) := rfl
    rw [hg]
    unfold extentOf
    split_ifs
    · rfl
    · exact deviceStages_outcome _ _ _ _ _ _ _ _ _

theorem triangleInRange_translate (ops : FloatOps) (t : Vec3) (positions : List Vec3)
    (indices : List Nat) (j : Nat) (h : TriangleInRange positions indices j) :
    TriangleInRange (translatePositions ops t positions) indices j := by
  unfold TriangleInRange translatePositions at *
  rw [List.length_map]
  exact h

/-- For a valid input and a shift that is finite and monotone on the
coordinates, the boxes of the shifted input are the shifted boxes, and the
decision of line 80 is the same when the extent is. -/
theorem translation_of_shiftOK (ops : FloatOps) (t : Vec3) (positions : List Vec3)
    (indices : List Nat) (h0 : numTrisOf indices ≠ 0)
    (hall : ∀ j, j < numTrisOf indices → TriangleInRange positions indices j)
    (hx : ShiftOK ops t.x (positions.map Vec3.x)) (hy : ShiftOK ops t.y (positions.map Vec3.y))
    (hz : ShiftOK ops t.z (positions.map Vec3.z)) :
    (∀ j, j < numTrisOf indices →
      triangleBox (translatePositions ops t positions) indices j =
        (triangleBox positions indices j).translate ops t) ∧
    globalBox (translatePositions ops t positions) indices (numTrisOf indices) =
      (globalBox positions indices (numTrisOf indices)).translate ops t ∧
    (extentOf ops (globalBox (translatePositions ops t positions) indices (numTrisOf indices)) =
        extentOf ops (globalBox positions indices (numTrisOf indices)) →
      ∀ (dev : Device) (self : BVH) (m s h a : Nat),
        (self.buildLBVHDynamic ops dev (translatePositions ops t positions) indices
          m s h a).outcome =
        (self.buildLBVHDynamic ops dev positions indices m s h a).outcome) := by
  refine ⟨fun j hj => triangleBox_shift ops t positions indices hx hy hz j (hall j hj),
    (globalBox_shift ops t positions indices hx hy hz _ hall (Nat.pos_of_ne_zero h0)).1, ?_⟩
  intro hext dev self m s h a
  rw [outcome_of_valid ops dev self _ indices m s h a h0
      (fun j hj => triangleInRange_translate ops t positions indices j (hall j hj)),
    outcome_of_valid ops dev self positions indices m s h a h0 hall, hext]

theorem ieeeAdd_isFinite_right (x t : F32) (h : (ieeeOps.add x t).isFinite = true) :
    ∃ c, t = .fin c := by
  cases t
  · cases x <;> simp [ieeeOps, ieeeAdd, F32.isFinite] at h
  · cases x <;> simp [ieeeOps, ieeeAdd, F32.isFinite] at h
  · exact ⟨_, rfl⟩
  · cases x <;> simp [ieeeOps, ieeeAdd, F32.isFinite] at h

/-- In binary32 arithmetic the shift by `t` is monotone, so it is enough that
the coordinates and their shifts are finite. -/
theorem shiftOK_ieee (t : F32) (S : List F32)
    (hfin : ∀ x ∈ S, x.isFinite = true ∧ (ieeeOps.add x t).isFinite = true) :
    ShiftOK ieeeOps t S := by
  refine ⟨hfin, ?_⟩
  intro x hx y hy hle
  obtain ⟨c, rfl⟩ := ieeeAdd_isFinite_right x t (hfin x hx).2
  obtain ⟨a, rfl, -, -⟩ := (f32_isFinite_iff x).mp (hfin x hx).1
  obtain ⟨b, rfl, -, -⟩ := (f32_isFinite_iff y).mp (hfin y hy).1
  simp only [F32.le, decide_eq_true_eq] at hle
  show F32.le (ieeeAdd (.fin a) (.fin c)) (ieeeAdd (.fin b) (.fin c)) = true
  rw [ieeeAdd_fin, ieeeAdd_fin]
  apply roundInt_mono _ _ _ _ (by norm_num) (by norm_num)
  push_cast
  omega

theorem axis_cases (axis : Vec3 → F32) (h : axis ∈ [Vec3.x, Vec3.y, Vec3.z]) :
    axis = Vec3.x ∨ axis = Vec3.y ∨ axis = Vec3.z := by
  simpa using h

theorem allLe_axis (a b : Vec3) (h : a.allLe b) (axis : Vec3 → F32)
    (hax : axis ∈ [Vec3.x, Vec3.y, Vec3.z]) : F32.le (axis a) (axis b) = true := by
  rw [vec3_allLe_iff] at h
  rcases axis_cases axis hax with rfl | rfl | rfl
  · exact h.1
  · exact h.2.1
  · exact h.2.2

theorem noNaN_axis (a : Vec3) (h : a.noNaN) (axis : Vec3 → F32)
    (hax : axis ∈ [Vec3.x, Vec3.y, Vec3.z]) : (axis a).isnan = false := by
  rw [vec3_noNaN_iff] at h
  rcases axis_cases axis hax with rfl | rfl | rfl
  · exact h.1
  · exact h.2.1
  · exact h.2.2

theorem isFinite_axis (a : Vec3) (h : a.isFinite = true) (axis : Vec3 → F32)
    (hax : axis ∈ [Vec3.x, Vec3.y, Vec3.z]) : (axis a).isFinite = true := by
  rw [vec3_isFinite_iff] at h
  rcases axis_cases axis hax with rfl | rfl | rfl
  · exact h.1
  · exact h.2.1
  · exact h.2.2

theorem expandTriangle_bounds (positions : List Vec3) (indices : List Nat) (j : Nat) (b : AABB)
    (h1 : b.min.noNaN) (h2 : b.max.noNaN) (h3 : b.min.allLe (Vec3.splat FLT_MAX))
    (h4 : (Vec3.splat FLT_MAX.neg).allLe b.max) :
    (expandTriangle positions indices b j).min.noNaN ∧
    (expandTriangle positions indices b j).max.noNaN ∧
    (expandTriangle positions indices b j).min.allLe (Vec3.splat FLT_MAX) ∧
    (Vec3.splat FLT_MAX.neg).allLe (expandTriangle positions indices b j).max := by
  unfold expandTriangle
  obtain ⟨n1, n2⟩ := expand_noNaN b (corner positions indices j 0) h1 h2
  obtain ⟨g1, g2⟩ := expand_grows b (corner positions indices j 0) h1 h2
  obtain ⟨n3, n4⟩ := expand_noNaN _ (corner positions indices j 1) n1 n2
  obtain ⟨g3, g4⟩ := expand_grows _ (corner positions indices j 1) n1 n2
  obtain ⟨n5, n6⟩ := expand_noNaN _ (corner positions indices j 2) n3 n4
  obtain ⟨g5, g6⟩ := expand_grows _ (corner positions indices j 2) n3 n4
  exact ⟨n5, n6, allLe_trans _ _ _ g5 (allLe_trans _ _ _ g3 (allLe_trans _ _ _ g1 h3)),
    allLe_trans _ _ _ (allLe_trans _ _ _ (allLe_trans _ _ _ h4 g2) g4) g6⟩

/-- Whatever the positions, no bound of the accumulated box is NaN, its minimum
is at most `FLT_MAX` and its maximum at least `-FLT_MAX`. -/
theorem globalBox_bounds (positions : List Vec3) (indices : List Nat) (n : Nat) :
    (globalBox positions indices n).min.noNaN ∧ (globalBox positions indices n).max.noNaN ∧
    (globalBox positions indices n).min.allLe (Vec3.splat FLT_MAX) ∧
    (Vec3.splat FLT_MAX.neg).allLe (globalBox positions indices n).max := by
  induction n with
  | zero =>
    have h0 : globalBox positions indices 0 = {} := rfl
    rw [h0]
    exact ⟨by decide, by decide, by decide, by decide⟩
  | succ k ih =>
    rw [globalBox_succ]
    exact expandTriangle_bounds positions indices k _ ih.1 ih.2.1 ih.2.2.1 ih.2.2.2

theorem mortonStageCalls_uniforms (dev : Device) (n : Nat) (els : List Element)
    (smin sext : Vec3) (m : Nat) :
    GLCall.uniform3fv m .sceneMin smin ∈ mortonStageCalls dev n els smin sext m ∧
    GLCall.uniform3fv m .sceneExtent sext ∈ mortonStageCalls dev n els smin sext m := by
  simp [mortonStageCalls]

theorem sub_axis (ops : FloatOps) (a b : Vec3) (axis : Vec3 → F32)
    (hax : axis ∈ [Vec3.x, Vec3.y, Vec3.z]) :
    axis (Vec3.sub ops a b) = ops.sub (axis a) (axis b) := by
  rcases axis_cases axis hax with rfl | rfl | rfl <;> rfl

theorem max_splat_axis (a : Vec3) (s : F32) (axis : Vec3 → F32)
    (hax : axis ∈ [Vec3.x, Vec3.y, Vec3.z]) :
    axis (glm.max a (Vec3.splat s)) = glm.maxF (axis a) s := by
  rcases axis_cases axis hax with rfl | rfl | rfl <;> rfl

/-- The clamped extent is at least `0.0001f` on every axis, when a difference
`a - b` with `a >= -FLT_MAX` and `b <= FLT_MAX` is never NaN. -/
theorem sceneExtent_ge_eps (ops : FloatOps)
    (hnan : ∀ x y : F32, x.isnan = false → y.isnan = false → F32.le FLT_MAX.neg x = true →
      F32.le y FLT_MAX = true → (ops.sub x y).isnan = false)
    (positions : List Vec3) (indices : List Nat) (n : Nat) (axis : Vec3 → F32)
    (hax : axis ∈ [Vec3.x, Vec3.y, Vec3.z]) :
    (axis (extentOf ops (globalBox positions indices n))).isnan = false ∧
    F32.le eps (axis (glm.max (extentOf ops (globalBox positions indices n)) (Vec3.splat eps)))
      = true := by
  obtain ⟨b1, b2, b3, b4⟩ := globalBox_bounds positions indices n
  have hx : (axis (extentOf ops (globalBox positions indices n))).isnan = false := by
    unfold extentOf
    rw [sub_axis ops _ _ axis hax]
    apply hnan _ _ (noNaN_axis _ b2 axis hax) (noNaN_axis _ b1 axis hax)
    · have := allLe_axis _ _ b4 axis hax
      rcases axis_cases axis hax with rfl | rfl | rfl <;> exact this
    · have := allLe_axis _ _ b3 axis hax
      rcases axis_cases axis hax with rfl | rfl | rfl <;> exact this
  refine ⟨hx, ?_⟩
  rw [max_splat_axis _ _ axis hax]
  exact (le_maxF _ _ hx (by decide)).2

theorem isFinite_of_between (a b c : F32) (ha : a.isFinite = true) (hb : b.isFinite = true)
    (h1 : F32.le a c = true) (h2 : F32.le c b = true) : c.isFinite = true := by
  obtain ⟨x, rfl, x1, x2⟩ := (f32_isFinite_iff a).mp ha
  obtain ⟨y, rfl, y1, y2⟩ := (f32_isFinite_iff b).mp hb
  cases c <;> simp [F32.le] at h1 h2
  rw [f32_isFinite_iff]
  exact ⟨_, rfl, by omega, by omega⟩

theorem isnan_of_isFinite (a : F32) (ha : a.isFinite = true) : a.isnan = false := by
  obtain ⟨x, rfl, -, -⟩ := (f32_isFinite_iff a).mp ha
  rfl

theorem f32_lt_of_lt_of_le (a b c : F32) (h1 : F32.lt a b = true) (h2 : F32.le b c = true) :
    F32.lt a c = true := by
  cases a <;> cases b <;> cases c <;> simp [F32.lt, F32.le] at h1 h2 ⊢
  omega

/-- The normalised centroid coordinate lies in `[0, 1]` for finite bounds
`sMin <= lo <= hi <= sMax`, when the centroid lies between `lo` and `hi` and
`sMax - sMin` does not overflow. -/
theorem normalized_in_unit (lo hi sMin sMax : F32) (f1 : lo.isFinite = true)
    (f2 : hi.isFinite = true) (f3 : sMin.isFinite = true) (f4 : sMax.isFinite = true)
    (h1 : F32.le sMin lo = true) (h3 : F32.le hi sMax = true)
    (c1 : F32.le lo (ieeeDiv (ieeeOps.add lo hi) F32.two) = true)
    (c2 : F32.le (ieeeDiv (ieeeOps.add lo hi) F32.two) hi = true)
    (hext : (ieeeOps.sub sMax sMin).isFinite = true) :
    F32.le F32.zero
      (normalizedCentroid ieeeOps ieeeDiv lo hi sMin (glm.maxF (ieeeOps.sub sMax sMin) eps))
        = true ∧
    F32.le (normalizedCentroid ieeeOps ieeeDiv lo hi sMin (glm.maxF (ieeeOps.sub sMax sMin) eps))
      F32.one = true := by
  unfold normalizedCentroid
  have fc := isFinite_of_between lo hi _ f1 f2 c1 c2
  have n0 : F32.le F32.zero (ieeeOps.sub (ieeeDiv (ieeeOps.add lo hi) F32.two) sMin) = true := by
    have h := ieeeSub_mono sMin _ sMin f3 fc f3 (f32_le_trans _ _ _ h1 c1)
    rwa [ieeeSub_self sMin f3] at h
  have n1 := ieeeSub_mono _ sMax sMin fc f4 f3 (f32_le_trans _ _ _ c2 h3)
  have en := isnan_of_isFinite _ hext
  obtain ⟨n2, n3⟩ := le_maxF (ieeeOps.sub sMax sMin) eps en (by decide)
  have fse : (glm.maxF (ieeeOps.sub sMax sMin) eps).isFinite = true := by
    rcases maxF_eq_or (ieeeOps.sub sMax sMin) eps with h | h <;> rw [h]
    · exact hext
    · decide
  have pos : F32.lt F32.zero (glm.maxF (ieeeOps.sub sMax sMin) eps) = true :=
    f32_lt_of_lt_of_le _ eps _ (by decide) n3
  exact ieeeDiv_unit _ _ n0 (f32_le_trans _ _ _ n1 n2) fse pos

theorem corner_mem (positions : List Vec3) (indices : List Nat) (j c : Nat)
    (hin : indices.getD (j * 3 + c) 0 < positions.length) :
    corner positions indices j c ∈ positions := by
  unfold corner
  rw [List.getD_eq_getElem _ _ hin]
  exact List.getElem_mem _

theorem least_greatest_facts (m g : F32) (l : List F32) (hl : ∀ x ∈ l, x.isFinite = true)
    (h1 : IsLeastOf m l) (h2 : IsGreatestOf g l) :
    m.isFinite = true ∧ g.isFinite = true ∧ F32.le m g = true :=
  ⟨hl m h1.1, hl g h2.1, h2.2 m h1.1⟩

/-- The box of a triangle with finite corners has finite bounds with
`min <= max` on every axis. -/
theorem triangleBox_facts (positions : List Vec3) (indices : List Nat) (j : Nat)
    (hfin : ∀ p ∈ positions, p.isFinite = true) (hin : TriangleInRange positions indices j) :
    (triangleBox positions indices j).min.isFinite = true ∧
    (triangleBox positions indices j).max.isFinite = true ∧
    (triangleBox positions indices j).min.allLe (triangleBox positions indices j).max := by
  obtain ⟨i0, i1, i2⟩ := hin
  have f0 := hfin _ (corner_mem positions indices j 0 i0)
  have f1 := hfin _ (corner_mem positions indices j 1 i1)
  have f2 := hfin _ (corner_mem positions indices j 2 i2)
  obtain ⟨a1, a2, a3, a4, a5, a6⟩ := triangleAABB_of_isFinite _ _ _ f0 f1 f2
  obtain ⟨x0, y0, z0⟩ := (vec3_isFinite_iff _).mp f0
  obtain ⟨x1, y1, z1⟩ := (vec3_isFinite_iff _).mp f1
  obtain ⟨x2, y2, z2⟩ := (vec3_isFinite_iff _).mp f2
  have hx := least_greatest_facts _ _ _ (by simp [x0, x1, x2]) a1 a4
  have hy := least_greatest_facts _ _ _ (by simp [y0, y1, y2]) a2 a5
  have hz := least_greatest_facts _ _ _ (by simp [z0, z1, z2]) a3 a6
  unfold triangleBox
  exact ⟨(vec3_isFinite_iff _).mpr ⟨hx.1, hy.1, hz.1⟩,
    (vec3_isFinite_iff _).mpr ⟨hx.2.1, hy.2.1, hz.2.1⟩,
    (vec3_allLe_iff _ _).mpr ⟨hx.2.2, hy.2.2, hz.2.2⟩⟩

theorem least_of_map_facts (m : F32) (n : Nat) (f : Nat → F32)
    (hf : ∀ k, k < n → (f k).isFinite = true)
    (h : IsLeastOf m ((List.range n).map f)) :
    m.isFinite = true ∧ ∀ j, j < n → F32.le m (f j) = true := by
  obtain ⟨hm, hle⟩ := h
  obtain ⟨k, hk, rfl⟩ := List.mem_map.mp hm
  exact ⟨hf k (List.mem_range.mp hk),
    fun j hj => hle _ (List.mem_map_of_mem f (List.mem_range.mpr hj))⟩

theorem greatest_of_map_facts (g : F32) (n : Nat) (f : Nat → F32)
    (hf : ∀ k, k < n → (f k).isFinite = true)
    (h : IsGreatestOf g ((List.range n).map f)) :
    g.isFinite = true ∧ ∀ j, j < n → F32.le (f j) g = true := by
  obtain ⟨hm, hle⟩ := h
  obtain ⟨k, hk, rfl⟩ := List.mem_map.mp hm
  exact ⟨hf k (List.mem_range.mp hk),
    fun j hj => hle _ (List.mem_map_of_mem f (List.mem_range.mpr hj))⟩

/-- For finite positions the accumulated box over `n >= 1` triangles in range
has finite bounds and encloses the box of each of these triangles. -/
theorem globalBox_facts (positions : List Vec3) (indices : List Nat) (n : Nat) (hn : 0 < n)
    (hfin : ∀ p ∈ positions, p.isFinite = true)
    (hall : ∀ j, j < n → TriangleInRange positions indices j) :
    (globalBox positions indices n).min.isFinite = true ∧
    (globalBox positions indices n).max.isFinite = true ∧
    ∀ j, j < n →
      (globalBox positions indices n).min.allLe (triangleBox positions indices j).min ∧
      (triangleBox positions indices j).max.allLe (globalBox positions indices n).max := by
  obtain ⟨u1, u2, u3, u4, u5, u6⟩ := globalBox_is_union positions indices n hn
  have tf := fun k (hk : k < n) => triangleBox_facts positions indices k hfin (hall k hk)
  have q1 := least_of_map_facts _ n _
    (fun k hk => ((vec3_isFinite_iff _).mp (tf k hk).1).1) u1
  have q2 := least_of_map_facts _ n _
    (fun k hk => ((vec3_isFinite_iff _).mp (tf k hk).1).2.1) u2
  have q3 := least_of_map_facts _ n _
    (fun k hk => ((vec3_isFinite_iff _).mp (tf k hk).1).2.2) u3
  have q4 := greatest_of_map_facts _ n _
    (fun k hk => ((vec3_isFinite_iff _).mp (tf k hk).2.1).1) u4
  have q5 := greatest_of_map_facts _ n _
    (fun k hk => ((vec3_isFinite_iff _).mp (tf k hk).2.1).2.1) u5
  have q6 := greatest_of_map_facts _ n _
    (fun k hk => ((vec3_isFinite_iff _).mp (tf k hk).2.1).2.2) u6
  exact ⟨(vec3_isFinite_iff _).mpr ⟨q1.1, q2.1, q3.1⟩,
    (vec3_isFinite_iff _).mpr ⟨q4.1, q5.1, q6.1⟩,
    fun j hj => ⟨(vec3_allLe_iff _ _).mpr ⟨q1.2 j hj, q2.2 j hj, q3.2 j hj⟩,
      (vec3_allLe_iff _ _).mpr ⟨q4.2 j hj, q5.2 j hj, q6.2 j hj⟩⟩⟩

theorem vec3_isFloat_iff (v : Vec3) :
    v.isFloat = true ↔ v.x.isFloat = true ∧ v.y.isFloat = true ∧ v.z.isFloat = true := by
  simp [Vec3.isFloat, and_assoc]

theorem vec3_isFinite_of_isFloat (v : Vec3) (h : v.isFloat = true) : v.isFinite = true := by
  obtain ⟨h1, h2, h3⟩ := (vec3_isFloat_iff v).mp h
  exact (vec3_isFinite_iff v).mpr
    ⟨isFinite_of_isFloat _ h1, isFinite_of_isFloat _ h2, isFinite_of_isFloat _ h3⟩

theorem isFloat_axis (a : Vec3) (h : a.isFloat = true) (axis : Vec3 → F32)
    (hax : axis ∈ [Vec3.x, Vec3.y, Vec3.z]) : (axis a).isFloat = true := by
  rw [vec3_isFloat_iff] at h
  rcases axis_cases axis hax with rfl | rfl | rfl
  · exact h.1
  · exact h.2.1
  · exact h.2.2

/-- The bounds of the box of a triangle whose corners are binary32 values are
binary32 values. -/
theorem triangleBox_isFloat (positions : List Vec3) (indices : List Nat) (j : Nat)
    (hfl : ∀ p ∈ positions, p.isFloat = true) (hin : TriangleInRange positions indices j) :
    (triangleBox positions indices j).min.isFloat = true ∧
    (triangleBox positions indices j).max.isFloat = true := by
  obtain ⟨i0, i1, i2⟩ := hin
  have f0 := hfl _ (corner_mem positions indices j 0 i0)
  have f1 := hfl _ (corner_mem positions indices j 1 i1)
  have f2 := hfl _ (corner_mem positions indices j 2 i2)
  obtain ⟨a1, a2, a3, a4, a5, a6⟩ := triangleAABB_of_isFinite _ _ _
    (vec3_isFinite_of_isFloat _ f0) (vec3_isFinite_of_isFloat _ f1)
    (vec3_isFinite_of_isFloat _ f2)
  obtain ⟨x0, y0, z0⟩ := (vec3_isFloat_iff _).mp f0
  obtain ⟨x1, y1, z1⟩ := (vec3_isFloat_iff _).mp f1
  obtain ⟨x2, y2, z2⟩ := (vec3_isFloat_iff _).mp f2
  have mem3 : ∀ (m a b c : F32), m ∈ [a, b, c] → a.isFloat = true → b.isFloat = true →
      c.isFloat = true → m.isFloat = true := by
    intro m a b c hm ha hb hc
    simp only [List.mem_cons, List.mem_singleton, List.not_mem_nil, or_false] at hm
    rcases hm with rfl | rfl | rfl <;> assumption
  unfold triangleBox
  exact ⟨(vec3_isFloat_iff _).mpr ⟨mem3 _ _ _ _ a1.1 x0 x1 x2, mem3 _ _ _ _ a2.1 y0 y1 y2,
      mem3 _ _ _ _ a3.1 z0 z1 z2⟩,
    (vec3_isFloat_iff _).mpr ⟨mem3 _ _ _ _ a4.1 x0 x1 x2, mem3 _ _ _ _ a5.1 y0 y1 y2,
      mem3 _ _ _ _ a6.1 z0 z1 z2⟩⟩

/-- C16 (as amended): in binary32 arithmetic, a completed build hands the
Morton stage `sceneMin = globalAABB.min` and, as `sceneExtent`, the global
extent clamped componentwise to at least `0.0001f`, hence strictly positive.
If moreover every position is a finite binary32 vector then, for every
primitive and every axis on which neither the sum `min + max` of the
primitive's bounds nor the global extent overflows, the normalised centroid
`((min + max) / 2 - sceneMin) / sceneExtent` lies in `[0, 1]`. -/
theorem scene_extent_and_centroids (dev : Device) (self : BVH) (positions : List Vec3)
    (indices : List Nat) (m s h a : Nat)
    (hdone : (self.buildLBVHDynamic ieeeOps dev positions indices m s h a).outcome
      = .completed) :
    GLCall.uniform3fv m .sceneMin (globalBox positions indices (numTrisOf indices)).min ∈
      (self.buildLBVHDynamic ieeeOps dev positions indices m s h a).trace ∧
    GLCall.uniform3fv m .sceneExtent
        (glm.max (extentOf ieeeOps (globalBox positions indices (numTrisOf indices)))
          (Vec3.splat eps)) ∈
      (self.buildLBVHDynamic ieeeOps dev positions indices m s h a).trace ∧
    (∀ axis ∈ [Vec3.x, Vec3.y, Vec3.z],
      axis (glm.max (extentOf ieeeOps (globalBox positions indices (numTrisOf indices)))
          (Vec3.splat eps)) =
        glm.maxF (axis (extentOf ieeeOps (globalBox positions indices (numTrisOf indices))))
          eps ∧
      F32.le eps (axis (glm.max
        (extentOf ieeeOps (globalBox positions indices (numTrisOf indices)))
        (Vec3.splat eps))) = true ∧
      F32.lt F32.zero (axis (glm.max
        (extentOf ieeeOps (globalBox positions indices (numTrisOf indices)))
        (Vec3.splat eps))) = true) ∧
    ((∀ p ∈ positions, p.isFloat = true) →
      ∀ j, j < numTrisOf indices → ∀ axis ∈ [Vec3.x, Vec3.y, Vec3.z],
        (ieeeOps.add (axis (triangleBox positions indices j).min)
          (axis (triangleBox positions indices j).max)).isFinite = true →
        (axis (extentOf ieeeOps (globalBox positions indices (numTrisOf indices)))).isFinite
          = true →
        F32.le F32.zero (normalizedCentroid ieeeOps ieeeDiv
          (axis (triangleBox positions indices j).min)
          (axis (triangleBox positions indices j).max)
          (axis (globalBox positions indices (numTrisOf indices)).min)
          (axis (glm.max (extentOf ieeeOps (globalBox positions indices (numTrisOf indices)))
            (Vec3.splat eps)))) = true ∧
        F32.le (normalizedCentroid ieeeOps ieeeDiv
          (axis (triangleBox positions indices j).min)
          (axis (triangleBox positions indices j).max)
          (axis (globalBox positions indices (numTrisOf indices)).min)
          (axis (glm.max (extentOf ieeeOps (globalBox positions indices (numTrisOf indices)))
            (Vec3.splat eps)))) F32.one = true) := by
  obtain ⟨h0, -, hall⟩ :=
    passes_validation ieeeOps dev self positions indices m s h a (Or.inr hdone)
  refine ⟨?_, ?_, ?_, ?_⟩
  · rw [build_completed ieeeOps dev self positions indices m s h a hdone, deviceStages_trace]
    simp only [List.append_assoc]
    exact List.mem_append_left _ (mortonStageCalls_uniforms _ _ _ _ _ _).1
  · rw [build_completed ieeeOps dev self positions indices m s h a hdone, deviceStages_trace]
    simp only [List.append_assoc]
    exact List.mem_append_left _ (mortonStageCalls_uniforms _ _ _ _ _ _).2
  · intro axis hax
    obtain ⟨-, e2⟩ :=
      sceneExtent_ge_eps ieeeOps ieeeSub_isnan positions indices (numTrisOf indices) axis hax
    exact ⟨max_splat_axis _ _ axis hax, e2, f32_lt_of_lt_of_le _ eps _ (by decide) e2⟩
  · intro hfl j hj axis hax hsum hext
    have hfin : ∀ p ∈ positions, p.isFinite = true :=
      fun p hp => vec3_isFinite_of_isFloat p (hfl p hp)
    obtain ⟨t1, t2, t3⟩ := triangleBox_facts positions indices j hfin (hall j hj)
    obtain ⟨u1, u2⟩ := triangleBox_isFloat positions indices j hfl (hall j hj)
    obtain ⟨g1, g2, g3⟩ := globalBox_facts positions indices (numTrisOf indices)
      (Nat.pos_of_ne_zero h0) hfin hall
    obtain ⟨c1, c2⟩ := ieee_midpoint _ _ (isFloat_axis _ u1 axis hax) (isFloat_axis _ u2 axis hax)
      (allLe_axis _ _ t3 axis hax) hsum
    rw [max_splat_axis _ _ axis hax]
    unfold extentOf at hext ⊢
    rw [sub_axis ieeeOps _ _ axis hax] at hext ⊢
    exact normalized_in_unit _ _ _ _
      (isFinite_axis _ t1 axis hax) (isFinite_axis _ t2 axis hax)
      (isFinite_axis _ g1 axis hax) (isFinite_axis _ g2 axis hax)
      (allLe_axis _ _ (g3 j hj).1 axis hax) (allLe_axis _ _ (g3 j hj).2 axis hax) c1 c2 hext

set_option maxRecDepth 8000 in
/-- Witness for C16 (as amended): the unit triangle; its centroid has the
normalised x coordinate `1/2`. -/
theorem scene_extent_and_centroids_witness :
    (({} : BVH).buildLBVHDynamic ieeeOps unitDevice cornerPositions [0, 1, 2]
      1 2 3 4).outcome = .completed ∧
    (∀ p ∈ cornerPositions, p.isFloat = true) ∧
    normalizedCentroid ieeeOps ieeeDiv
      (triangleBox cornerPositions [0, 1, 2] 0).min.x (triangleBox cornerPositions [0, 1, 2] 0).max.x
      (globalBox cornerPositions [0, 1, 2] (numTrisOf [0, 1, 2])).min.x
      (glm.max (extentOf ieeeOps (globalBox cornerPositions [0, 1, 2] (numTrisOf [0, 1, 2])))
        (Vec3.splat eps)).x = half ∧
    F32.le (normalizedCentroid ieeeOps ieeeDiv
      (triangleBox cornerPositions [0, 1, 2] 0).min.x (triangleBox cornerPositions [0, 1, 2] 0).max.x
      (globalBox cornerPositions [0, 1, 2] (numTrisOf [0, 1, 2])).min.x
      (glm.max (extentOf ieeeOps (globalBox cornerPositions [0, 1, 2] (numTrisOf [0, 1, 2])))
        (Vec3.splat eps)).x) F32.one = true :=
  ⟨by decide, by decide, by decide,
    ((scene_extent_and_centroids unitDevice {} cornerPositions [0, 1, 2] 1 2 3 4
      (by decide)).2.2.2 (by decide) 0 (by decide) Vec3.x (List.mem_cons_self _ _)
      (by decide) (by decide)).2⟩

set_option maxRecDepth 8000 in
/-- C16 (counterexample): three inputs of two triangles each, all passing
validation, in binary32 arithmetic. With finite positions and the second
triangle at `x = FLT_MAX`, the sum `min.x + max.x` overflows and the normalised
centroid x coordinate is `+inf`. With the second triangle at `x = NaN` its box
is the empty box `(FLT_MAX, -FLT_MAX)` on that axis and the normalised
coordinate is `-5`. With positions from `-FLT_MAX` to `FLT_MAX / 2` the global
extent overflows and the normalised coordinate is NaN. -/
theorem centroid_sum_overflows :
    (∀ p ∈ farPositions, p.isFloat = true) ∧
    (({} : BVH).buildLBVHDynamic ieeeOps unitDevice farPositions [0, 1, 2, 3, 4, 5]
      1 2 3 4).outcome = .completed ∧
    normalizedCentroid ieeeOps ieeeDiv
      (triangleBox farPositions [0, 1, 2, 3, 4, 5] 1).min.x
      (triangleBox farPositions [0, 1, 2, 3, 4, 5] 1).max.x
      (globalBox farPositions [0, 1, 2, 3, 4, 5] (numTrisOf [0, 1, 2, 3, 4, 5])).min.x
      (glm.max (extentOf ieeeOps
        (globalBox farPositions [0, 1, 2, 3, 4, 5] (numTrisOf [0, 1, 2, 3, 4, 5])))
        (Vec3.splat eps)).x = .posInf ∧
    F32.le .posInf F32.one = false ∧
    (({} : BVH).buildLBVHDynamic ieeeOps unitDevice nanPositions [0, 1, 2, 3, 4, 5]
      1 2 3 4).outcome = .completed ∧
    normalizedCentroid ieeeOps ieeeDiv
      (triangleBox nanPositions [0, 1, 2, 3, 4, 5] 1).min.x
      (triangleBox nanPositions [0, 1, 2, 3, 4, 5] 1).max.x
      (globalBox nanPositions [0, 1, 2, 3, 4, 5] (numTrisOf [0, 1, 2, 3, 4, 5])).min.x
      (glm.max (extentOf ieeeOps
        (globalBox nanPositions [0, 1, 2, 3, 4, 5] (numTrisOf [0, 1, 2, 3, 4, 5])))
        (Vec3.splat eps)).x = .fin (-(Int.ofNat (5 * 2 ^ 149))) ∧
    F32.le F32.zero (.fin (-(Int.ofNat (5 * 2 ^ 149)))) = false ∧
    (∀ p ∈ widePositions, p.isFloat = true) ∧
    (({} : BVH).buildLBVHDynamic ieeeOps unitDevice widePositions [0, 1, 2, 3, 4, 5]
      1 2 3 4).outcome = .completed ∧
    (ieeeOps.add (triangleBox widePositions [0, 1, 2, 3, 4, 5] 1).min.x
      (triangleBox widePositions [0, 1, 2, 3, 4, 5] 1).max.x).isFinite = true ∧
    normalizedCentroid ieeeOps ieeeDiv
      (triangleBox widePositions [0, 1, 2, 3, 4, 5] 1).min.x
      (triangleBox widePositions [0, 1, 2, 3, 4, 5] 1).max.x
      (globalBox widePositions [0, 1, 2, 3, 4, 5] (numTrisOf [0, 1, 2, 3, 4, 5])).min.x
      (glm.max (extentOf ieeeOps
        (globalBox widePositions [0, 1, 2, 3, 4, 5] (numTrisOf [0, 1, 2, 3, 4, 5])))
        (Vec3.splat eps)).x = .nan := by
  decide

/-! ## The slab test in binary32 arithmetic -/

theorem le_negInf_of (x : F32) (hx : x.isnan = false) : F32.le .negInf x = true := by
  cases x <;> simp [F32.le, F32.isnan] at hx ⊢

theorem le_posInf_of (x : F32) (hx : x.isnan = false) : F32.le x .posInf = true := by
  cases x <;> simp [F32.le, F32.isnan] at hx ⊢

theorem isnan_of_le_left (x y : F32) (h : F32.le x y = true) : x.isnan = false := by
  cases x <;> cases y <;> simp [F32.le, F32.isnan] at h ⊢

theorem isnan_of_le_right (x y : F32) (h : F32.le x y = true) : y.isnan = false := by
  cases x <;> cases y <;> simp [F32.le, F32.isnan] at h ⊢

/-- In binary32 arithmetic `x - o <= y - o` for `x <= y` (infinite or finite)
and finite `o`; neither difference is NaN. -/
theorem ieeeSub_mono_ext (x y : F32) (o : Int) (hle : F32.le x y = true) :
    F32.le (ieeeSub x (.fin o)) (ieeeSub y (.fin o)) = true := by
  cases x <;> cases y <;> simp [F32.le] at hle
  · exact le_refl_of_not_isnan _ rfl
  · exact le_negInf_of _ (by rw [ieeeSub_fin]; exact roundInt_isnan _ _)
  · exact le_negInf_of _ rfl
  · rw [ieeeSub_fin, ieeeSub_fin]
    apply roundInt_mono _ _ _ _ (by norm_num) (by norm_num)
    push_cast
    omega
  · exact le_posInf_of _ (by rw [ieeeSub_fin]; exact roundInt_isnan _ _)
  · exact le_refl_of_not_isnan _ rfl

theorem ieeeMul_fin (a c : Int) :
    ieeeMul (.fin a) (.fin c) = F32.roundInt (a * c) (2 ^ 149) := rfl

/-- In binary32 arithmetic `x * c <= y * c` for `x <= y` and finite `c > 0`. -/
theorem ieeeMul_mono_pos (x y : F32) (c : Int) (hc : 0 < c) (hle : F32.le x y = true) :
    F32.le (ieeeMul x (.fin c)) (ieeeMul y (.fin c)) = true := by
  have hc0 : ¬ c = 0 := by omega
  have hcn : ¬ c < 0 := by omega
  have e1 : ieeeMul .negInf (.fin c) = .negInf := by
    show (if c = 0 then F32.nan else F32.signedInf (decide (0 < c))) = _
    rw [if_neg hc0]
    simp [F32.signedInf, hc]
  have e2 : ieeeMul .posInf (.fin c) = .posInf := by
    show (if c = 0 then F32.nan else F32.signedInf (decide (c < 0))) = _
    rw [if_neg hc0]
    simp [F32.signedInf, hcn]
  cases x <;> cases y <;> simp [F32.le] at hle
  · rw [e1]
    exact le_refl_of_not_isnan _ rfl
  · rw [e1]
    exact le_negInf_of _ (by rw [ieeeMul_fin]; exact roundInt_isnan _ _)
  · rw [e1, e2]
    rfl
  · rw [ieeeMul_fin, ieeeMul_fin]
    apply roundInt_mono _ _ _ _ (by positivity) (by positivity)
    exact Int.mul_le_mul_of_nonneg_right (Int.mul_le_mul_of_nonneg_right hle (le_of_lt hc))
      (by positivity)
  · rw [e2]
    exact le_posInf_of _ (by rw [ieeeMul_fin]; exact roundInt_isnan _ _)
  · rw [e2]
    rfl

/-- In binary32 arithmetic `y * c <= x * c` for `x <= y` and finite `c < 0`. -/
theorem ieeeMul_mono_neg (x y : F32) (c : Int) (hc : c < 0) (hle : F32.le x y = true) :
    F32.le (ieeeMul y (.fin c)) (ieeeMul x (.fin c)) = true := by
  have hc0 : ¬ c = 0 := by omega
  have hcn : ¬ 0 < c := by omega
  have e1 : ieeeMul .negInf (.fin c) = .posInf := by
    show (if c = 0 then F32.nan else F32.signedInf (decide (0 < c))) = _
    rw [if_neg hc0]
    simp [F32.signedInf, hcn]
  have e2 : ieeeMul .posInf (.fin c) = .negInf := by
    show (if c = 0 then F32.nan else F32.signedInf (decide (c < 0))) = _
    rw [if_neg hc0]
    simp [F32.signedInf, hc]
  cases x <;> cases y <;> simp [F32.le] at hle
  · rw [e1]
    rfl
  · rw [e1]
    exact le_posInf_of _ (by rw [ieeeMul_fin]; exact roundInt_isnan _ _)
  · rw [e1, e2]
    rfl
  · rw [ieeeMul_fin, ieeeMul_fin]
    apply roundInt_mono _ _ _ _ (by positivity) (by positivity)
    have h1 : (0 : Int) ≤ ((2 ^ 149 : Nat) : Int) := by positivity
    have h2 : _ * c ≤ _ * c := Int.mul_le_mul_of_nonpos_right hle (le_of_lt hc)
    exact Int.mul_le_mul_of_nonneg_right h2 h1
  · rw [e2]
    exact le_negInf_of _ (by rw [ieeeMul_fin]; exact roundInt_isnan _ _)
  · rw [e2]
    rfl

/-- For a finite binary32 value `a`, `a - 2.0f <= a`. -/
theorem sub_two_le (a : F32) (ha : a.isFloat = true) :
    F32.le (ieeeSub a F32.two) a = true := by
  cases a <;> simp [F32.isFloat] at ha
  rename_i z
  have hz : (F32.fin z).isFloat = true := (isFloat_iff z).mpr ha
  have e := roundInt_of_isFloat z 1 (by norm_num) hz
  show F32.le (ieeeSub (.fin z) (.fin (Int.ofNat (2 ^ 150)))) (.fin z) = true
  rw [ieeeSub_fin]
  have h0 : (0 : Int) ≤ Int.ofNat (2 ^ 150) := by decide
  have h := roundInt_mono (z - Int.ofNat (2 ^ 150)) (z * ((1 : Nat) : Int)) 1 1 (by norm_num)
    (by norm_num) (by push_cast; omega)
  rwa [e] at h

/-- For a finite binary32 value `b`, `b <= b + 2.0f`. -/
theorem le_add_two (b : F32) (hb : b.isFloat = true) :
    F32.le b (ieeeAdd b F32.two) = true := by
  cases b <;> simp [F32.isFloat] at hb
  rename_i z
  have hz : (F32.fin z).isFloat = true := (isFloat_iff z).mpr hb
  have e := roundInt_of_isFloat z 1 (by norm_num) hz
  show F32.le (.fin z) (ieeeAdd (.fin z) (.fin (Int.ofNat (2 ^ 150)))) = true
  rw [ieeeAdd_fin]
  have h0 : (0 : Int) ≤ Int.ofNat (2 ^ 150) := by decide
  have h := roundInt_mono (z * ((1 : Nat) : Int)) (z + Int.ofNat (2 ^ 150)) 1 1 (by norm_num)
    (by norm_num) (by push_cast; omega)
  rwa [e] at h

/-- For a binary32 value `a` other than NaN, `a - 2.0f <= a`. -/
theorem sub_two_le_value (a : F32) (ha : a.isValue = true) (hn : a.isnan = false) :
    F32.le (ieeeSub a F32.two) a = true := by
  cases a
  · simp [F32.isnan] at hn
  · rfl
  · exact sub_two_le _ ha
  · rfl

/-- For a binary32 value `b` other than NaN, `b <= b + 2.0f`. -/
theorem le_add_two_value (b : F32) (hb : b.isValue = true) (hn : b.isnan = false) :
    F32.le b (ieeeAdd b F32.two) = true := by
  cases b
  · simp [F32.isnan] at hn
  · rfl
  · exact le_add_two _ hb
  · rfl

theorem fin_of_between (a b : Int) (r : F32) (h1 : F32.le (.fin a) r = true)
    (h2 : F32.le r (.fin b) = true) : ∃ c, r = .fin c ∧ a ≤ c ∧ c ≤ b := by
  cases r <;> simp [F32.le] at h1 h2
  exact ⟨_, rfl, h1, h2⟩

/-- A binary32 magnitude of at least `2^200` units absorbs `2.0f`: the spacing
of the grid there is at least `2^177` units. -/
theorem roundNearestEven_absorb_two (n : Nat) (hrep : n % 2 ^ (bitLength n - 24) = 0)
    (hbig : 2 ^ 200 ≤ n) :
    roundNearestEven (n + 2 ^ 150) 1 = n ∧ roundNearestEven (n - 2 ^ 150) 1 = n := by
  have hn : 0 < n := lt_of_lt_of_le (by positivity) hbig
  have hL1 := pow_bitLength_le n hn
  have hL2 := lt_pow_bitLength n
  have hL : 201 ≤ bitLength n := by
    by_contra hc
    have h1 : bitLength n ≤ 200 := by omega
    have h2 : 2 ^ bitLength n ≤ 2 ^ 200 := Nat.pow_le_pow_right (by norm_num) h1
    omega
  obtain ⟨e, he⟩ : ∃ e, bitLength n = e + 24 := ⟨bitLength n - 24, by omega⟩
  have he177 : 177 ≤ e := by omega
  rw [he] at hrep hL1 hL2
  rw [Nat.add_sub_cancel] at hrep
  have e1 : e + 24 - 1 = 23 + e := by omega
  have e2 : e + 24 = 24 + e := by omega
  rw [e1, pow_add] at hL1
  rw [e2, pow_add] at hL2
  have hE : 2 ^ 177 ≤ 2 ^ e := Nat.pow_le_pow_right (by norm_num) he177
  obtain ⟨m, hm⟩ : ∃ m, n = m * 2 ^ e :=
    ⟨n / 2 ^ e, (Nat.div_mul_cancel (Nat.dvd_of_mod_eq_zero hrep)).symm⟩
  have hEpos : 0 < 2 ^ e := by positivity
  have hm1 : 2 ^ 23 ≤ m := by
    rw [hm] at hL1
    exact Nat.le_of_mul_le_mul_right hL1 hEpos
  have hm2 : m < 2 ^ 24 := by
    rw [hm] at hL2
    exact Nat.lt_of_mul_lt_mul_right hL2
  have hm3 : (m + 1) * 2 ^ e ≤ 2 ^ 24 * 2 ^ e := Nat.mul_le_mul_right _ hm2
  rw [Nat.add_mul, one_mul] at hm3
  constructor
  · have bl : bitLength (n + 2 ^ 150) = e + 24 := by
      apply bitLength_unique
      · rw [e1, pow_add]; omega
      · rw [e2, pow_add, hm]; omega
      · omega
    unfold roundNearestEven
    rw [Nat.div_one, one_mul, bl, Nat.add_sub_cancel]
    have hd : (n + 2 ^ 150) / 2 ^ e = m := by
      rw [hm, Nat.add_comm, Nat.add_mul_div_right _ _ hEpos, Nat.div_eq_of_lt (by omega)]
      omega
    have hr : (n + 2 ^ 150) % 2 ^ e = 2 ^ 150 := by
      rw [hm, Nat.add_comm, Nat.add_mul_mod_self_right, Nat.mod_eq_of_lt (by omega)]
    unfold roundToGrid
    rw [hd, hr, if_neg (by omega), hm]
  · rcases Nat.eq_or_lt_of_le hm1 with heq | hgt
    · -- the magnitude is a power of two: the grid below it is twice as fine
      obtain ⟨k, hk⟩ : ∃ k, e = k + 1 := ⟨e - 1, by omega⟩
      have hH : 2 ^ 176 ≤ 2 ^ k := Nat.pow_le_pow_right (by norm_num) (by omega)
      have hHpos : 0 < 2 ^ k := by positivity
      have hn2 : n = 2 ^ 24 * 2 ^ k := by
        rw [hm, ← heq, hk, pow_succ]; ring
      have hsplit : n - 2 ^ 150 = (2 ^ 24 - 1) * 2 ^ k + (2 ^ k - 2 ^ 150) := by
        rw [hn2, Nat.sub_mul, one_mul]; omega
      have bl : bitLength (n - 2 ^ 150) = k + 24 := by
        apply bitLength_unique
        · have : k + 24 - 1 = 23 + k := by omega
          rw [this, pow_add, hn2]; omega
        · have : k + 24 = 24 + k := by omega
          rw [this, pow_add, hn2]; omega
        · omega
      unfold roundNearestEven
      rw [Nat.div_one, one_mul, bl, Nat.add_sub_cancel]
      have hd : (n - 2 ^ 150) / 2 ^ k = 2 ^ 24 - 1 := by
        rw [hsplit, Nat.add_comm, Nat.add_mul_div_right _ _ hHpos, Nat.div_eq_of_lt (by omega)]
        omega
      have hr : (n - 2 ^ 150) % 2 ^ k = 2 ^ k - 2 ^ 150 := by
        rw [hsplit, Nat.add_comm, Nat.add_mul_mod_self_right, Nat.mod_eq_of_lt (by omega)]
      unfold roundToGrid
      rw [hd, hr, if_pos (Or.inl (by omega)), hn2]
      norm_num
    · have hsplit : n - 2 ^ 150 = (m - 1) * 2 ^ e + (2 ^ e - 2 ^ 150) := by
        rw [hm, Nat.sub_mul, one_mul]
        have : 2 ^ e ≤ m * 2 ^ e := Nat.le_mul_of_pos_left _ (by omega)
        omega
      have hm4 : (2 ^ 23 + 1) * 2 ^ e ≤ m * 2 ^ e := Nat.mul_le_mul_right _ hgt
      rw [Nat.add_mul, one_mul] at hm4
      have bl : bitLength (n - 2 ^ 150) = e + 24 := by
        apply bitLength_unique
        · rw [e1, pow_add, hm]; omega
        · rw [e2, pow_add]; omega
        · omega
      unfold roundNearestEven
      rw [Nat.div_one, one_mul, bl, Nat.add_sub_cancel]
      have hd : (n - 2 ^ 150) / 2 ^ e = m - 1 := by
        rw [hsplit, Nat.add_comm, Nat.add_mul_div_right _ _ hEpos, Nat.div_eq_of_lt (by omega)]
        omega
      have hr : (n - 2 ^ 150) % 2 ^ e = 2 ^ e - 2 ^ 150 := by
        rw [hsplit, Nat.add_comm, Nat.add_mul_mod_self_right, Nat.mod_eq_of_lt (by omega)]
      unfold roundToGrid
      rw [hd, hr, if_pos (Or.inl (by omega)), hm]
      have : m - 1 + 1 = m := by omega
      rw [this]

/-- A finite binary32 value of magnitude at least `2^200` units is unchanged by
adding or subtracting `2.0f`. -/
theorem ieee_absorb_two (w : Int) (hf : (F32.fin w).isFloat = true)
    (hbig : 2 ^ 200 ≤ w.natAbs) :
    ieeeSub (.fin w) F32.two = .fin w ∧ ieeeAdd (.fin w) F32.two = .fin w := by
  obtain ⟨hrep, hmax⟩ := (isFloat_iff w).mp hf
  obtain ⟨hp, hm⟩ := roundNearestEven_absorb_two w.natAbs hrep hbig
  have es : ieeeSub (.fin w) F32.two = F32.roundInt (w - Int.ofNat (2 ^ 150)) 1 := rfl
  have ea : ieeeAdd (.fin w) F32.two = F32.roundInt (w + Int.ofNat (2 ^ 150)) 1 := rfl
  rw [es, ea]
  simp only [Int.ofNat_eq_coe]
  rcases le_or_lt 0 w with hw | hw
  · have n1 : (w - ((2 ^ 150 : Nat) : Int)).natAbs = w.natAbs - 2 ^ 150 := by push_cast; omega
    have n2 : (w + ((2 ^ 150 : Nat) : Int)).natAbs = w.natAbs + 2 ^ 150 := by push_cast; omega
    have back : Int.ofNat w.natAbs = w := by simp only [Int.ofNat_eq_coe]; omega
    rw [roundInt_of_nonneg _ _ (by push_cast; omega), roundInt_of_nonneg _ _ (by push_cast; omega),
      n1, n2, hp, hm, if_neg (by omega), back]
    exact ⟨rfl, rfl⟩
  · have n1 : (w - ((2 ^ 150 : Nat) : Int)).natAbs = w.natAbs + 2 ^ 150 := by push_cast; omega
    have n2 : (w + ((2 ^ 150 : Nat) : Int)).natAbs = w.natAbs - 2 ^ 150 := by push_cast; omega
    have back : -(Int.ofNat w.natAbs) = w := by simp only [Int.ofNat_eq_coe]; omega
    rw [roundInt_of_neg _ _ (by push_cast; omega), roundInt_of_neg _ _ (by push_cast; omega),
      n1, n2, hp, hm, if_neg (by omega), back]
    exact ⟨rfl, rfl⟩

set_option maxRecDepth 8000 in
theorem roundInt_at_bound :
    F32.roundInt (Int.ofNat (16777215 * 2 ^ 253 + 2 ^ 202)) 1 = FLT_MAX ∧
    F32.roundInt (-(Int.ofNat (16777215 * 2 ^ 253 + 2 ^ 202))) 1 = FLT_MAX.neg := by
  decide

/-- A difference of magnitude at most `FLT_MAX + 2^202` units rounds to a
finite value. -/
theorem roundInt_fin_of_bound (v : Int)
    (h1 : -(Int.ofNat (16777215 * 2 ^ 253 + 2 ^ 202)) ≤ v)
    (h2 : v ≤ Int.ofNat (16777215 * 2 ^ 253 + 2 ^ 202)) : ∃ r, F32.roundInt v 1 = .fin r := by
  have l1 := roundInt_mono (-(Int.ofNat (16777215 * 2 ^ 253 + 2 ^ 202))) v 1 1 (by norm_num)
    (by norm_num) (by rw [Nat.cast_one, mul_one, mul_one]; exact h1)
  have l2 := roundInt_mono v (Int.ofNat (16777215 * 2 ^ 253 + 2 ^ 202)) 1 1 (by norm_num)
    (by norm_num) (by rw [Nat.cast_one, mul_one, mul_one]; exact h2)
  rw [roundInt_at_bound.2] at l1
  rw [roundInt_at_bound.1] at l2
  obtain ⟨r, hr, -, -⟩ := fin_of_between _ _ _ l1 l2
  exact ⟨r, hr⟩

set_option maxRecDepth 8000 in
theorem isFloat_pow_201 :
    (F32.fin (Int.ofNat (2 ^ 201))).isFloat = true ∧
    (F32.fin (-(Int.ofNat (2 ^ 201)))).isFloat = true := by
  decide

/-- The two enlarged bounds `a - 2.0f` and `a + 2.0f` of a finite binary32
value `a`: both are finite, and either both are `a` again or all three are
of magnitude at most `2^201` units. -/
theorem two_step (w : Int) (hf : (F32.fin w).isFloat = true) :
    ∃ r1 r2, ieeeSub (.fin w) F32.two = .fin r1 ∧ ieeeAdd (.fin w) F32.two = .fin r2 ∧
      ((r1 = w ∧ r2 = w) ∨
        (w.natAbs ≤ 2 ^ 200 ∧ r1.natAbs ≤ 2 ^ 201 ∧ r2.natAbs ≤ 2 ^ 201)) := by
  rcases Nat.lt_or_ge w.natAbs (2 ^ 200) with hs | hb
  · have es : ieeeSub (.fin w) F32.two = F32.roundInt (w - Int.ofNat (2 ^ 150)) 1 := rfl
    have ea : ieeeAdd (.fin w) F32.two = F32.roundInt (w + Int.ofNat (2 ^ 150)) 1 := rfl
    have lo : F32.roundInt (-(Int.ofNat (2 ^ 201)) * ((1 : Nat) : Int)) 1 = .fin (-(Int.ofNat (2 ^ 201))) :=
      roundInt_of_isFloat _ 1 (by norm_num) isFloat_pow_201.2
    have hi : F32.roundInt (Int.ofNat (2 ^ 201) * ((1 : Nat) : Int)) 1 = .fin (Int.ofNat (2 ^ 201)) :=
      roundInt_of_isFloat _ 1 (by norm_num) isFloat_pow_201.1
    have s1 := roundInt_mono (-(Int.ofNat (2 ^ 201)) * ((1 : Nat) : Int)) (w - Int.ofNat (2 ^ 150))
      1 1 (by norm_num) (by norm_num) (by simp only [Int.ofNat_eq_coe]; push_cast; omega)
    have s2 := roundInt_mono (w - Int.ofNat (2 ^ 150)) (Int.ofNat (2 ^ 201) * ((1 : Nat) : Int))
      1 1 (by norm_num) (by norm_num) (by simp only [Int.ofNat_eq_coe]; push_cast; omega)
    have a1 := roundInt_mono (-(Int.ofNat (2 ^ 201)) * ((1 : Nat) : Int)) (w + Int.ofNat (2 ^ 150))
      1 1 (by norm_num) (by norm_num) (by simp only [Int.ofNat_eq_coe]; push_cast; omega)
    have a2 := roundInt_mono (w + Int.ofNat (2 ^ 150)) (Int.ofNat (2 ^ 201) * ((1 : Nat) : Int))
      1 1 (by norm_num) (by norm_num) (by simp only [Int.ofNat_eq_coe]; push_cast; omega)
    rw [lo] at s1 a1
    rw [hi] at s2 a2
    obtain ⟨r1, h1, b1, c1⟩ := fin_of_between _ _ _ s1 s2
    obtain ⟨r2, h2, b2, c2⟩ := fin_of_between _ _ _ a1 a2
    refine ⟨r1, r2, es.trans h1, ea.trans h2, Or.inr ⟨by omega, ?_, ?_⟩⟩
    · simp only [Int.ofNat_eq_coe] at b1 c1; push_cast at b1 c1; omega
    · simp only [Int.ofNat_eq_coe] at b2 c2; push_cast at b2 c2; omega
  · obtain ⟨h1, h2⟩ := ieee_absorb_two w hf hb
    exact ⟨w, w, h1, h2, Or.inl ⟨rfl, rfl⟩⟩

/-- With a finite binary32 origin coordinate `z`, enlarging a finite bound by
`2.0f` does not change whether its difference from `z` overflows. -/
theorem enlarged_sub_fin_iff (w z : Int) (hw : (F32.fin w).isFloat = true)
    (hz : (F32.fin z).isFloat = true) :
    ((∃ r, ieeeSub (ieeeSub (.fin w) F32.two) (.fin z) = .fin r) ↔
      (∃ r, ieeeSub (.fin w) (.fin z) = .fin r)) ∧
    ((∃ r, ieeeSub (ieeeAdd (.fin w) F32.two) (.fin z) = .fin r) ↔
      (∃ r, ieeeSub (.fin w) (.fin z) = .fin r)) := by
  obtain ⟨r1, r2, h1, h2, h⟩ := two_step w hw
  obtain ⟨-, hzmax⟩ := (isFloat_iff z).mp hz
  rw [h1, h2]
  rcases h with ⟨e1, e2⟩ | ⟨b0, b1, b2⟩
  · rw [e1, e2]
    exact ⟨Iff.rfl, Iff.rfl⟩
  · have t0 : ∃ r, ieeeSub (.fin w) (.fin z) = .fin r := by
      rw [ieeeSub_fin]
      apply roundInt_fin_of_bound <;> simp only [Int.ofNat_eq_coe] <;> push_cast <;> omega
    have t1 : ∃ r, ieeeSub (.fin r1) (.fin z) = .fin r := by
      rw [ieeeSub_fin]
      apply roundInt_fin_of_bound <;> simp only [Int.ofNat_eq_coe] <;> push_cast <;> omega
    have t2 : ∃ r, ieeeSub (.fin r2) (.fin z) = .fin r := by
      rw [ieeeSub_fin]
      apply roundInt_fin_of_bound <;> simp only [Int.ofNat_eq_coe] <;> push_cast <;> omega
    exact ⟨⟨fun _ => t0, fun _ => t1⟩, ⟨fun _ => t0, fun _ => t2⟩⟩

set_option maxRecDepth 8000 in
theorem isFloat_pow_bounds :
    (F32.fin (Int.ofNat (2 ^ 20))).isFloat = true ∧
    (F32.fin (Int.ofNat (2 ^ 163))).isFloat = true ∧
    (F32.fin (-(Int.ofNat (2 ^ 20)))).isFloat = true ∧
    (F32.fin (-(Int.ofNat (2 ^ 163)))).isFloat = true := by
  decide

/-- Lines 185-187 in binary32 arithmetic: for a finite component of `dir`, the
component of `invDir` is finite and not zero. -/
theorem invDirOf_fin (d : F32) (hd : d.isFinite = true) :
    ∃ c : Int, c ≠ 0 ∧ invDirOf ieeeDiv d = .fin c := by
  obtain ⟨z, rfl, z1, z2⟩ := (f32_isFinite_iff d).mp hd
  unfold invDirOf
  by_cases hlt : F32.lt eps (F32.abs (.fin z)) = true
  · rw [if_pos hlt]
    simp only [F32.abs, eps, F32.lt, decide_eq_true_eq, Int.ofNat_eq_coe] at hlt
    simp only [Int.ofNat_eq_coe] at z1 z2
    have hdv : ieeeDiv F32.one (.fin z) =
        if z = 0 then (if Int.ofNat (2 ^ 149) = 0 then .nan
          else F32.signedInf (decide (Int.ofNat (2 ^ 149) < 0)))
        else if 0 < z then F32.roundInt (Int.ofNat (2 ^ 149) * Int.ofNat (2 ^ 149)) z.natAbs
        else F32.roundInt (-(Int.ofNat (2 ^ 149) * Int.ofNat (2 ^ 149))) z.natAbs := rfl
    have hn : 0 < z.natAbs := by omega
    have e298 : Int.ofNat (2 ^ 149) * Int.ofNat (2 ^ 149) = 2 ^ 298 := by
      simp only [Int.ofNat_eq_coe]; norm_num
    have e20 : Int.ofNat (2 ^ 20) = 2 ^ 20 := by
      simp only [Int.ofNat_eq_coe]; norm_num
    have e163 : Int.ofNat (2 ^ 163) = 2 ^ 163 := by
      simp only [Int.ofNat_eq_coe]; norm_num
    have hlo : (2 : Int) ^ 135 ≤ (z.natAbs : Int) := by
      have : (2 : Int) ^ 135 ≤ ((13743895 * 2 ^ 112 : Nat) : Int) := by norm_num
      omega
    have hhi : (z.natAbs : Int) ≤ 2 ^ 278 := by
      have : ((16777215 * 2 ^ 253 : Nat) : Int) ≤ 2 ^ 278 := by norm_num
      omega
    have hpos : (0 : Int) < (z.natAbs : Int) := by exact_mod_cast hn
    obtain ⟨f1, f2, f3, f4⟩ := isFloat_pow_bounds
    have c1 : (2 : Int) ^ 20 * (z.natAbs : Int) * (z.natAbs : Int) ≤ 2 ^ 298 * (z.natAbs : Int) := by
      apply Int.mul_le_mul_of_nonneg_right _ (le_of_lt hpos)
      calc (2 : Int) ^ 20 * (z.natAbs : Int) ≤ 2 ^ 20 * 2 ^ 278 :=
            Int.mul_le_mul_of_nonneg_left hhi (by positivity)
        _ = 2 ^ 298 := by norm_num
    have c2 : (2 : Int) ^ 298 * (z.natAbs : Int) ≤ 2 ^ 163 * (z.natAbs : Int) * (z.natAbs : Int) := by
      apply Int.mul_le_mul_of_nonneg_right _ (le_of_lt hpos)
      calc (2 : Int) ^ 298 = 2 ^ 163 * 2 ^ 135 := by norm_num
        _ ≤ 2 ^ 163 * (z.natAbs : Int) := Int.mul_le_mul_of_nonneg_left hlo (by positivity)
    rw [hdv, if_neg (show ¬ z = 0 by omega)]
    by_cases hz : 0 < z
    · rw [if_pos hz, e298]
      have l1 := roundInt_mono (Int.ofNat (2 ^ 20) * (z.natAbs : Int)) (2 ^ 298) z.natAbs z.natAbs
        hn hn (by rw [e20]; exact c1)
      have l2 := roundInt_mono (2 ^ 298) (Int.ofNat (2 ^ 163) * (z.natAbs : Int)) z.natAbs z.natAbs
        hn hn (by rw [e163]; exact c2)
      rw [roundInt_of_isFloat _ _ hn f1] at l1
      rw [roundInt_of_isFloat _ _ hn f2] at l2
      obtain ⟨c, hc, b1, -⟩ := fin_of_between _ _ _ l1 l2
      refine ⟨c, ?_, hc⟩
      have : (0 : Int) < Int.ofNat (2 ^ 20) := by decide
      omega
    · rw [if_neg hz, e298]
      have l1 := roundInt_mono (-(Int.ofNat (2 ^ 163)) * (z.natAbs : Int)) (-(2 ^ 298))
        z.natAbs z.natAbs hn hn (by rw [e163]; linarith)
      have l2 := roundInt_mono (-(2 ^ 298)) (-(Int.ofNat (2 ^ 20)) * (z.natAbs : Int))
        z.natAbs z.natAbs hn hn (by rw [e20]; linarith)
      rw [roundInt_of_isFloat _ _ hn f4] at l1
      rw [roundInt_of_isFloat _ _ hn f3] at l2
      obtain ⟨c, hc, -, b2⟩ := fin_of_between _ _ _ l1 l2
      refine ⟨c, ?_, hc⟩
      have : (0 : Int) < Int.ofNat (2 ^ 20) := by decide
      omega
  · rw [if_neg hlt]
    exact ⟨_, by decide, rfl⟩

theorem minmax_widen (s1 s2 t1 t2 : F32) (h1 : F32.le s1 t1 = true) (h2 : F32.le t1 t2 = true)
    (h3 : F32.le t2 s2 = true) :
    F32.le (glm.minF s1 s2) (glm.minF t1 t2) = true ∧
    F32.le (glm.maxF t1 t2) (glm.maxF s1 s2) = true := by
  have n1 := isnan_of_le_left _ _ h1
  have n2 := isnan_of_le_right _ _ h3
  obtain ⟨a1, -⟩ := minF_le s1 s2 n1 n2
  obtain ⟨-, b2⟩ := le_maxF s1 s2 n1 n2
  constructor
  · rcases minF_eq_or t1 t2 with e | e <;> rw [e]
    · exact f32_le_trans _ _ _ a1 h1
    · exact f32_le_trans _ _ _ a1 (f32_le_trans _ _ _ h1 h2)
  · rcases maxF_eq_or t1 t2 with e | e <;> rw [e]
    · exact f32_le_trans _ _ _ h2 (f32_le_trans _ _ _ h3 b2)
    · exact f32_le_trans _ _ _ h3 b2

theorem minmax_widen_rev (s1 s2 t1 t2 : F32) (h1 : F32.le s2 t2 = true)
    (h2 : F32.le t2 t1 = true) (h3 : F32.le t1 s1 = true) :
    F32.le (glm.minF s1 s2) (glm.minF t1 t2) = true ∧
    F32.le (glm.maxF t1 t2) (glm.maxF s1 s2) = true := by
  have n2 := isnan_of_le_left _ _ h1
  have n1 := isnan_of_le_right _ _ h3
  obtain ⟨-, a2⟩ := minF_le s1 s2 n1 n2
  obtain ⟨b1, -⟩ := le_maxF s1 s2 n1 n2
  constructor
  · rcases minF_eq_or t1 t2 with e | e <;> rw [e]
    · exact f32_le_trans _ _ _ a2 (f32_le_trans _ _ _ h1 h2)
    · exact f32_le_trans _ _ _ a2 h1
  · rcases maxF_eq_or t1 t2 with e | e <;> rw [e]
    · exact f32_le_trans _ _ _ h3 b1
    · exact f32_le_trans _ _ _ h2 (f32_le_trans _ _ _ h3 b1)

/-- One axis of the slab test: enlarging the slab `[a, b]` by `2.0f` on both
sides lowers the entry parameter and raises the exit parameter. -/
theorem axis_enlarge (o : Int) (a b : F32) (c : Int) (hc : c ≠ 0) (ha : a.isValue = true)
    (hb : b.isValue = true) (hab : F32.le a b = true) :
    F32.le
      (glm.minF (ieeeMul (ieeeSub (ieeeSub a F32.two) (.fin o)) (.fin c))
        (ieeeMul (ieeeSub (ieeeAdd b F32.two) (.fin o)) (.fin c)))
      (glm.minF (ieeeMul (ieeeSub a (.fin o)) (.fin c)) (ieeeMul (ieeeSub b (.fin o)) (.fin c)))
      = true ∧
    F32.le
      (glm.maxF (ieeeMul (ieeeSub a (.fin o)) (.fin c)) (ieeeMul (ieeeSub b (.fin o)) (.fin c)))
      (glm.maxF (ieeeMul (ieeeSub (ieeeSub a F32.two) (.fin o)) (.fin c))
        (ieeeMul (ieeeSub (ieeeAdd b F32.two) (.fin o)) (.fin c))) = true := by
  have x1 := ieeeSub_mono_ext _ _ o (sub_two_le_value a ha (isnan_of_le_left _ _ hab))
  have x2 := ieeeSub_mono_ext _ _ o hab
  have x3 := ieeeSub_mono_ext _ _ o (le_add_two_value b hb (isnan_of_le_right _ _ hab))
  rcases lt_or_gt_of_ne hc with hn | hp
  · exact minmax_widen_rev _ _ _ _ (ieeeMul_mono_neg _ _ c hn x3) (ieeeMul_mono_neg _ _ c hn x2)
      (ieeeMul_mono_neg _ _ c hn x1)
  · exact minmax_widen _ _ _ _ (ieeeMul_mono_pos _ _ c hp x1) (ieeeMul_mono_pos _ _ c hp x2)
      (ieeeMul_mono_pos _ _ c hp x3)

theorem ieeeMul_zero_left (c : Int) : ieeeMul (.fin 0) (.fin c) = F32.zero := by
  rw [ieeeMul_fin, zero_mul]
  decide

/-- One axis of the slab test with the origin inside the slab: the entry
parameter is at most 0 and the exit parameter at least 0. -/
theorem axis_inside (o : Int) (a b : F32) (c : Int) (hc : c ≠ 0)
    (h1 : F32.le a (.fin o) = true) (h2 : F32.le (.fin o) b = true) :
    F32.le
      (glm.minF (ieeeMul (ieeeSub a (.fin o)) (.fin c)) (ieeeMul (ieeeSub b (.fin o)) (.fin c)))
      F32.zero = true ∧
    F32.le F32.zero
      (glm.maxF (ieeeMul (ieeeSub a (.fin o)) (.fin c)) (ieeeMul (ieeeSub b (.fin o)) (.fin c)))
      = true := by
  have e0 : ieeeSub (.fin o) (.fin o) = .fin 0 := by
    rw [ieeeSub_fin, sub_self, roundInt_zero]
  have x1 := ieeeSub_mono_ext _ _ o h1
  have x2 := ieeeSub_mono_ext _ _ o h2
  rw [e0] at x1 x2
  rcases lt_or_gt_of_ne hc with hn | hp
  · have y1 := ieeeMul_mono_neg _ _ c hn x1
    have y2 := ieeeMul_mono_neg _ _ c hn x2
    rw [ieeeMul_zero_left] at y1 y2
    have n1 := isnan_of_le_right _ _ y1
    have n2 := isnan_of_le_left _ _ y2
    exact ⟨f32_le_trans _ _ _ (minF_le _ _ n1 n2).2 y2, f32_le_trans _ _ _ y1 (le_maxF _ _ n1 n2).1⟩
  · have y1 := ieeeMul_mono_pos _ _ c hp x1
    have y2 := ieeeMul_mono_pos _ _ c hp x2
    rw [ieeeMul_zero_left] at y1 y2
    have n1 := isnan_of_le_left _ _ y1
    have n2 := isnan_of_le_right _ _ y2
    exact ⟨f32_le_trans _ _ _ (minF_le _ _ n1 n2).1 y1, f32_le_trans _ _ _ y2 (le_maxF _ _ n1 n2).2⟩

theorem maxF_mono (a b c d : F32) (h1 : F32.le a c = true) (h2 : F32.le b d = true) :
    F32.le (glm.maxF a b) (glm.maxF c d) = true := by
  obtain ⟨b1, b2⟩ := le_maxF c d (isnan_of_le_right _ _ h1) (isnan_of_le_right _ _ h2)
  rcases maxF_eq_or a b with e | e <;> rw [e]
  · exact f32_le_trans _ _ _ h1 b1
  · exact f32_le_trans _ _ _ h2 b2

theorem minF_mono (a b c d : F32) (h1 : F32.le a c = true) (h2 : F32.le b d = true) :
    F32.le (glm.minF a b) (glm.minF c d) = true := by
  obtain ⟨b1, b2⟩ := minF_le a b (isnan_of_le_left _ _ h1) (isnan_of_le_left _ _ h2)
  rcases minF_eq_or c d with e | e <;> rw [e]
  · exact f32_le_trans _ _ _ b1 h1
  · exact f32_le_trans _ _ _ b2 h2

/-- Lines 193-195: entry parameters at most 0 and exit parameters at least 0
make the test `t_near <= t_far && t_far >= 0.0f` true. -/
theorem near_far_inside (n1 n2 n3 f1 f2 f3 : F32)
    (hn1 : F32.le n1 F32.zero = true) (hn2 : F32.le n2 F32.zero = true)
    (hn3 : F32.le n3 F32.zero = true) (hf1 : F32.le F32.zero f1 = true)
    (hf2 : F32.le F32.zero f2 = true) (hf3 : F32.le F32.zero f3 = true) :
    F32.le (glm.maxF (glm.maxF n1 n2) n3) (glm.minF (glm.minF f1 f2) f3) = true ∧
    F32.le F32.zero (glm.minF (glm.minF f1 f2) f3) = true := by
  have a : F32.le (glm.maxF (glm.maxF n1 n2) n3) F32.zero = true := by
    rcases maxF_eq_or (glm.maxF n1 n2) n3 with e | e <;> rw [e]
    · rcases maxF_eq_or n1 n2 with e2 | e2 <;> rw [e2] <;> assumption
    · exact hn3
  have b : F32.le F32.zero (glm.minF (glm.minF f1 f2) f3) = true := by
    rcases minF_eq_or (glm.minF f1 f2) f3 with e | e <;> rw [e]
    · rcases minF_eq_or f1 f2 with e2 | e2 <;> rw [e2] <;> assumption
    · exact hf3
  exact ⟨f32_le_trans _ _ _ a b, b⟩

theorem ieeeMul_zero_right (a : Int) : ieeeMul (.fin a) (.fin 0) = .fin 0 := by
  rw [ieeeMul_fin, mul_zero]
  decide

/-- The product with a zero component of `invDir` is `0` for a finite
difference and NaN otherwise. -/
theorem ieeeMul_zero_congr (x y : F32) (h : (∃ r, x = .fin r) ↔ (∃ r, y = .fin r)) :
    ieeeMul x (.fin 0) = ieeeMul y (.fin 0) := by
  have nf1 : ¬ ∃ r, F32.nan = .fin r := fun ⟨_, hr⟩ => by cases hr
  have nf2 : ¬ ∃ r, F32.negInf = .fin r := fun ⟨_, hr⟩ => by cases hr
  have nf3 : ¬ ∃ r, F32.posInf = .fin r := fun ⟨_, hr⟩ => by cases hr
  cases x
  · cases y
    · rfl
    · rfl
    · exact absurd (h.mpr ⟨_, rfl⟩) nf1
    · rfl
  · cases y
    · rfl
    · rfl
    · exact absurd (h.mpr ⟨_, rfl⟩) nf2
    · rfl
  · cases y
    · exact absurd (h.mp ⟨_, rfl⟩) nf1
    · exact absurd (h.mp ⟨_, rfl⟩) nf2
    · rw [ieeeMul_zero_right, ieeeMul_zero_right]
    · exact absurd (h.mp ⟨_, rfl⟩) nf3
  · cases y
    · rfl
    · rfl
    · exact absurd (h.mpr ⟨_, rfl⟩) nf3
    · rfl

/-- One bound of a slab for an origin coordinate that is not finite, or a zero
component of `invDir`: enlarging the bound by `2.0f` does not change its ray
parameter. -/
theorem axis_same (o a : F32) (c : Int) (ho : o.isValue = true) (ha : a.isValue = true)
    (hna : a.isnan = false) (h : (∀ z, o ≠ .fin z) ∨ c = 0) :
    ieeeMul (ieeeSub (ieeeSub a F32.two) o) (.fin c) = ieeeMul (ieeeSub a o) (.fin c) ∧
    ieeeMul (ieeeSub (ieeeAdd a F32.two) o) (.fin c) = ieeeMul (ieeeSub a o) (.fin c) := by
  cases a
  · simp [F32.isnan] at hna
  · exact ⟨rfl, rfl⟩
  · rename_i w
    obtain ⟨r1, r2, h1, h2, -⟩ := two_step w ha
    cases o
    · rw [h1, h2]
      exact ⟨rfl, rfl⟩
    · rw [h1, h2]
      exact ⟨rfl, rfl⟩
    · rename_i z
      rcases h with h | h
      · exact absurd rfl (h z)
      · subst h
        obtain ⟨q1, q2⟩ := enlarged_sub_fin_iff w z ha ho
        exact ⟨ieeeMul_zero_congr _ _ q1, ieeeMul_zero_congr _ _ q2⟩
    · rw [h1, h2]
      exact ⟨rfl, rfl⟩
  · exact ⟨rfl, rfl⟩

theorem below_iff (x y : F32) :
    F32.below x y = true ↔ (x.isnan = true ∧ y.isnan = true) ∨ F32.le x y = true := by
  simp [F32.below]

theorem below_refl (x : F32) : F32.below x x = true := by
  cases x <;> simp [F32.below, F32.isnan, F32.le]

theorem below_of_le (x y : F32) (h : F32.le x y = true) : F32.below x y = true :=
  (below_iff x y).mpr (Or.inr h)

theorem le_of_below_left (x y : F32) (h : F32.below x y = true) (hy : y.isnan = false) :
    F32.le x y = true := by
  rcases (below_iff x y).mp h with ⟨-, h2⟩ | h
  · rw [hy] at h2
    cases h2
  · exact h

theorem le_of_below_right (x y : F32) (h : F32.below x y = true) (hx : x.isnan = false) :
    F32.le x y = true := by
  rcases (below_iff x y).mp h with ⟨h1, -⟩ | h
  · rw [hx] at h1
    cases h1
  · exact h

theorem maxF_nan_left (x y : F32) (hx : x.isnan = true) : (glm.maxF x y).isnan = true := by
  cases x <;> simp [F32.isnan] at hx
  cases y <;> rfl

theorem minF_nan_left (x y : F32) (hx : x.isnan = true) : (glm.minF x y).isnan = true := by
  cases x <;> simp [F32.isnan] at hx
  cases y <;> rfl

theorem maxF_nan_right (x y : F32) (hy : y.isnan = true) : glm.maxF x y = x := by
  cases y <;> simp [F32.isnan] at hy
  cases x <;> rfl

theorem minF_nan_right (x y : F32) (hy : y.isnan = true) : glm.minF x y = x := by
  cases y <;> simp [F32.isnan] at hy
  cases x <;> rfl

/-- Scalar `glm::max` is monotone for the order extended to NaN. -/
theorem maxF_below (a b c d : F32) (h1 : F32.below a c = true) (h2 : F32.below b d = true) :
    F32.below (glm.maxF a b) (glm.maxF c d) = true := by
  rcases (below_iff a c).mp h1 with ⟨na, nc⟩ | l1
  · exact (below_iff _ _).mpr (Or.inl ⟨maxF_nan_left a b na, maxF_nan_left c d nc⟩)
  · rcases (below_iff b d).mp h2 with ⟨nb, nd⟩ | l2
    · rw [maxF_nan_right a b nb, maxF_nan_right c d nd]
      exact below_of_le _ _ l1
    · exact below_of_le _ _ (maxF_mono a b c d l1 l2)

/-- Scalar `glm::min` is monotone for the order extended to NaN. -/
theorem minF_below (a b c d : F32) (h1 : F32.below a c = true) (h2 : F32.below b d = true) :
    F32.below (glm.minF a b) (glm.minF c d) = true := by
  rcases (below_iff a c).mp h1 with ⟨na, nc⟩ | l1
  · exact (below_iff _ _).mpr (Or.inl ⟨minF_nan_left a b na, minF_nan_left c d nc⟩)
  · rcases (below_iff b d).mp h2 with ⟨nb, nd⟩ | l2
    · rw [minF_nan_right a b nb, minF_nan_right c d nd]
      exact below_of_le _ _ l1
    · exact below_of_le _ _ (minF_mono a b c d l1 l2)

/-- One axis of the slab test for binary32 values: enlarging the slab `[a, b]`
by `2.0f` on both sides lowers the entry parameter and raises the exit
parameter, or leaves a NaN a NaN. -/
theorem axis_enlarge_below (o a b : F32) (c : Int) (ho : o.isValue = true)
    (ha : a.isValue = true) (hb : b.isValue = true) (hab : F32.le a b = true) :
    F32.below
      (glm.minF (ieeeMul (ieeeSub (ieeeSub a F32.two) o) (.fin c))
        (ieeeMul (ieeeSub (ieeeAdd b F32.two) o) (.fin c)))
      (glm.minF (ieeeMul (ieeeSub a o) (.fin c)) (ieeeMul (ieeeSub b o) (.fin c))) = true ∧
    F32.below
      (glm.maxF (ieeeMul (ieeeSub a o) (.fin c)) (ieeeMul (ieeeSub b o) (.fin c)))
      (glm.maxF (ieeeMul (ieeeSub (ieeeSub a F32.two) o) (.fin c))
        (ieeeMul (ieeeSub (ieeeAdd b F32.two) o) (.fin c))) = true := by
  by_cases hs : (∀ z, o ≠ .fin z) ∨ c = 0
  · obtain ⟨e1, -⟩ := axis_same o a c ho ha (isnan_of_le_left _ _ hab) hs
    obtain ⟨-, e2⟩ := axis_same o b c ho hb (isnan_of_le_right _ _ hab) hs
    rw [e1, e2]
    exact ⟨below_refl _, below_refl _⟩
  · push_neg at hs
    obtain ⟨⟨z, hz⟩, hc⟩ := hs
    subst hz
    obtain ⟨h1, h2⟩ := axis_enlarge z a b c hc ha hb hab
    exact ⟨below_of_le _ _ h1, below_of_le _ _ h2⟩

/-- Lines 193-195 for the order extended to NaN: lowering every entry parameter
and raising every exit parameter keeps the test true. -/
theorem near_far_below (n1 n2 n3 f1 f2 f3 m1 m2 m3 g1 g2 g3 : F32)
    (hn1 : F32.below m1 n1 = true) (hn2 : F32.below m2 n2 = true)
    (hn3 : F32.below m3 n3 = true) (hf1 : F32.below f1 g1 = true)
    (hf2 : F32.below f2 g2 = true) (hf3 : F32.below f3 g3 = true)
    (h : F32.le (glm.maxF (glm.maxF n1 n2) n3) (glm.minF (glm.minF f1 f2) f3) = true)
    (h0 : F32.le F32.zero (glm.minF (glm.minF f1 f2) f3) = true) :
    F32.le (glm.maxF (glm.maxF m1 m2) m3) (glm.minF (glm.minF g1 g2) g3) = true ∧
    F32.le F32.zero (glm.minF (glm.minF g1 g2) g3) = true := by
  have a := le_of_below_left _ _ (maxF_below _ _ _ _ (maxF_below _ _ _ _ hn1 hn2) hn3)
    (isnan_of_le_left _ _ h)
  have b := le_of_below_right _ _ (minF_below _ _ _ _ (minF_below _ _ _ _ hf1 hf2) hf3)
    (isnan_of_le_right _ _ h)
  exact ⟨f32_le_trans _ _ _ a (f32_le_trans _ _ _ h b), f32_le_trans _ _ _ h0 b⟩

set_option maxRecDepth 8000 in
theorem isFloat_zero_and_pow :
    (F32.fin 0).isFloat = true ∧ (F32.fin (Int.ofNat (2 ^ 163))).isFloat = true ∧
    (F32.fin (-(Int.ofNat (2 ^ 163)))).isFloat = true := by
  decide

/-- Lines 185-187 in binary32 arithmetic: every component of `invDir` is
finite, whatever the component of `dir`. -/
theorem invDirOf_isfin (d : F32) : ∃ c : Int, invDirOf ieeeDiv d = .fin c := by
  unfold invDirOf
  by_cases hlt : F32.lt eps (F32.abs d) = true
  · rw [if_pos hlt]
    cases d
    · simp [F32.abs, F32.lt] at hlt
    · exact ⟨0, rfl⟩
    · rename_i z
      simp only [F32.abs, eps, F32.lt, decide_eq_true_eq, Int.ofNat_eq_coe] at hlt
      have hdv : ieeeDiv F32.one (.fin z) =
          if z = 0 then (if Int.ofNat (2 ^ 149) = 0 then .nan
            else F32.signedInf (decide (Int.ofNat (2 ^ 149) < 0)))
          else if 0 < z then F32.roundInt (Int.ofNat (2 ^ 149) * Int.ofNat (2 ^ 149)) z.natAbs
          else F32.roundInt (-(Int.ofNat (2 ^ 149) * Int.ofNat (2 ^ 149))) z.natAbs := rfl
      have hn : 0 < z.natAbs := by omega
      have e298 : Int.ofNat (2 ^ 149) * Int.ofNat (2 ^ 149) = 2 ^ 298 := by
        simp only [Int.ofNat_eq_coe]; norm_num
      have e163 : Int.ofNat (2 ^ 163) = 2 ^ 163 := by
        simp only [Int.ofNat_eq_coe]; norm_num
      have hlo : (2 : Int) ^ 135 ≤ (z.natAbs : Int) := by
        have : (2 : Int) ^ 135 ≤ ((13743895 * 2 ^ 112 : Nat) : Int) := by norm_num
        omega
      have hpos : (0 : Int) < (z.natAbs : Int) := by exact_mod_cast hn
      obtain ⟨f0, f1, f2⟩ := isFloat_zero_and_pow
      have c2 : (2 : Int) ^ 298 * (z.natAbs : Int) ≤
          2 ^ 163 * (z.natAbs : Int) * (z.natAbs : Int) := by
        apply Int.mul_le_mul_of_nonneg_right _ (le_of_lt hpos)
        calc (2 : Int) ^ 298 = 2 ^ 163 * 2 ^ 135 := by norm_num
          _ ≤ 2 ^ 163 * (z.natAbs : Int) := Int.mul_le_mul_of_nonneg_left hlo (by positivity)
      have p0 : (0 : Int) ≤ 2 ^ 298 * (z.natAbs : Int) :=
        Int.mul_nonneg (pow_nonneg (by norm_num) 298) (le_of_lt hpos)
      rw [hdv, if_neg (show ¬ z = 0 by omega)]
      by_cases hz : 0 < z
      · rw [if_pos hz, e298]
        have l1 := roundInt_mono (0 * (z.natAbs : Int)) (2 ^ 298) z.natAbs z.natAbs hn hn
          (by rw [zero_mul, zero_mul]; exact p0)
        have l2 := roundInt_mono (2 ^ 298) (Int.ofNat (2 ^ 163) * (z.natAbs : Int))
          z.natAbs z.natAbs hn hn (by rw [e163]; exact c2)
        rw [roundInt_of_isFloat _ _ hn f0] at l1
        rw [roundInt_of_isFloat _ _ hn f1] at l2
        obtain ⟨c, hc, -, -⟩ := fin_of_between _ _ _ l1 l2
        exact ⟨c, hc⟩
      · rw [if_neg hz, e298]
        have l1 := roundInt_mono (-(Int.ofNat (2 ^ 163)) * (z.natAbs : Int)) (-(2 ^ 298))
          z.natAbs z.natAbs hn hn (by rw [e163]; linarith)
        have l2 := roundInt_mono (-(2 ^ 298)) (0 * (z.natAbs : Int)) z.natAbs z.natAbs hn hn
          (by rw [zero_mul, zero_mul]; linarith)
        rw [roundInt_of_isFloat _ _ hn f2] at l1
        rw [roundInt_of_isFloat _ _ hn f0] at l2
        obtain ⟨c, hc, -, -⟩ := fin_of_between _ _ _ l1 l2
        exact ⟨c, hc⟩
    · exact ⟨0, rfl⟩
  · rw [if_neg hlt]
    exact ⟨_, rfl⟩

/-- The function `rayAABBIntersectWorld` in binary32 arithmetic, written out
for the three components of `invDir`. -/
theorem rayAABBIntersectWorld_eq (origin dir boxMin boxMax : Vec3) :
    rayAABBIntersectWorld ieeeOps ieeeDiv origin dir boxMin boxMax =
      (F32.le
        (glm.maxF (glm.maxF
          (glm.minF (ieeeMul (ieeeSub boxMin.x origin.x) (invDirOf ieeeDiv dir.x))
            (ieeeMul (ieeeSub boxMax.x origin.x) (invDirOf ieeeDiv dir.x)))
          (glm.minF (ieeeMul (ieeeSub boxMin.y origin.y) (invDirOf ieeeDiv dir.y))
            (ieeeMul (ieeeSub boxMax.y origin.y) (invDirOf ieeeDiv dir.y))))
          (glm.minF (ieeeMul (ieeeSub boxMin.z origin.z) (invDirOf ieeeDiv dir.z))
            (ieeeMul (ieeeSub boxMax.z origin.z) (invDirOf ieeeDiv dir.z))))
        (glm.minF (glm.minF
          (glm.maxF (ieeeMul (ieeeSub boxMin.x origin.x) (invDirOf ieeeDiv dir.x))
            (ieeeMul (ieeeSub boxMax.x origin.x) (invDirOf ieeeDiv dir.x)))
          (glm.maxF (ieeeMul (ieeeSub boxMin.y origin.y) (invDirOf ieeeDiv dir.y))
            (ieeeMul (ieeeSub boxMax.y origin.y) (invDirOf ieeeDiv dir.y))))
          (glm.maxF (ieeeMul (ieeeSub boxMin.z origin.z) (invDirOf ieeeDiv dir.z))
            (ieeeMul (ieeeSub boxMax.z origin.z) (invDirOf ieeeDiv dir.z)))) &&
      F32.le F32.zero
        (glm.minF (glm.minF
          (glm.maxF (ieeeMul (ieeeSub boxMin.x origin.x) (invDirOf ieeeDiv dir.x))
            (ieeeMul (ieeeSub boxMax.x origin.x) (invDirOf ieeeDiv dir.x)))
          (glm.maxF (ieeeMul (ieeeSub boxMin.y origin.y) (invDirOf ieeeDiv dir.y))
            (ieeeMul (ieeeSub boxMax.y origin.y) (invDirOf ieeeDiv dir.y))))
          (glm.maxF (ieeeMul (ieeeSub boxMin.z origin.z) (invDirOf ieeeDiv dir.z))
            (ieeeMul (ieeeSub boxMax.z origin.z) (invDirOf ieeeDiv dir.z))))) := rfl

theorem vec3_isValue_iff (v : Vec3) :
    v.isValue = true ↔ v.x.isValue = true ∧ v.y.isValue = true ∧ v.z.isValue = true := by
  simp [Vec3.isValue, and_assoc]

/-- Enlarging a box by `2.0f` keeps a hit a hit, in binary32 arithmetic and for
every direction. -/
theorem hit_enlarged (origin dir boxMin boxMax : Vec3) (ho : origin.isValue = true)
    (hmin : boxMin.isValue = true) (hmax : boxMax.isValue = true) (hle : boxMin.allLe boxMax)
    (hit : rayAABBIntersectWorld ieeeOps ieeeDiv origin dir boxMin boxMax = true) :
    rayAABBIntersectWorld ieeeOps ieeeDiv origin dir
      (expandedMin ieeeOps boxMin) (expandedMax ieeeOps boxMax) = true := by
  obtain ⟨hox, hoy, hoz⟩ := (vec3_isValue_iff origin).mp ho
  obtain ⟨ax, ay, az⟩ := (vec3_isValue_iff boxMin).mp hmin
  obtain ⟨bx, by1, bz⟩ := (vec3_isValue_iff boxMax).mp hmax
  obtain ⟨lx, ly, lz⟩ := (vec3_allLe_iff boxMin boxMax).mp hle
  obtain ⟨cx, ecx⟩ := invDirOf_isfin dir.x
  obtain ⟨cy, ecy⟩ := invDirOf_isfin dir.y
  obtain ⟨cz, ecz⟩ := invDirOf_isfin dir.z
  rw [rayAABBIntersectWorld_eq, ecx, ecy, ecz, Bool.and_eq_true] at hit ⊢
  obtain ⟨x1, x2⟩ := axis_enlarge_below origin.x boxMin.x boxMax.x cx hox ax bx lx
  obtain ⟨y1, y2⟩ := axis_enlarge_below origin.y boxMin.y boxMax.y cy hoy ay by1 ly
  obtain ⟨z1, z2⟩ := axis_enlarge_below origin.z boxMin.z boxMax.z cz hoz az bz lz
  exact near_far_below _ _ _ _ _ _ _ _ _ _ _ _ x1 y1 z1 x2 y2 z2 hit.1 hit.2

/-- A ray of finite origin and direction whose origin lies in the box hits the
box. -/
theorem hit_inside (origin dir boxMin boxMax : Vec3)
    (ho : origin.isFinite = true) (hd : dir.isFinite = true)
    (h1 : boxMin.allLe origin) (h2 : origin.allLe boxMax) :
    rayAABBIntersectWorld ieeeOps ieeeDiv origin dir boxMin boxMax = true := by
  obtain ⟨hox, hoy, hoz⟩ := (vec3_isFinite_iff origin).mp ho
  obtain ⟨hdx, hdy, hdz⟩ := (vec3_isFinite_iff dir).mp hd
  obtain ⟨ox, eox, -, -⟩ := (f32_isFinite_iff origin.x).mp hox
  obtain ⟨oy, eoy, -, -⟩ := (f32_isFinite_iff origin.y).mp hoy
  obtain ⟨oz, eoz, -, -⟩ := (f32_isFinite_iff origin.z).mp hoz
  obtain ⟨cx, hcx, ecx⟩ := invDirOf_fin dir.x hdx
  obtain ⟨cy, hcy, ecy⟩ := invDirOf_fin dir.y hdy
  obtain ⟨cz, hcz, ecz⟩ := invDirOf_fin dir.z hdz
  obtain ⟨ax, ay, az⟩ := (vec3_allLe_iff boxMin origin).mp h1
  obtain ⟨bx, by1, bz⟩ := (vec3_allLe_iff origin boxMax).mp h2
  rw [rayAABBIntersectWorld_eq, ecx, ecy, ecz, Bool.and_eq_true]
  rw [eox] at ax bx ⊢
  rw [eoy] at ay by1 ⊢
  rw [eoz] at az bz ⊢
  obtain ⟨x1, x2⟩ := axis_inside ox boxMin.x boxMax.x cx hcx ax bx
  obtain ⟨y1, y2⟩ := axis_inside oy boxMin.y boxMax.y cy hcy ay by1
  obtain ⟨z1, z2⟩ := axis_inside oz boxMin.z boxMax.z cz hcz az bz
  exact near_far_inside _ _ _ _ _ _ x1 y1 z1 x2 y2 z2

/-! ## C21: picking through the enlarged box -/

set_option maxRecDepth 8000 in
/-- C21 (counterexample): in binary32 arithmetic the ray from `(FLT_MAX, 0, 0)`
with direction `(+inf, 0, 0)` starts inside the box from `(-FLT_MAX, -1, -1)`
to `(FLT_MAX, 1, 1)`, whose bounds are ordered, and `rayAABBIntersectWorld`
returns false: `invDir.x` is `1.0f / inf = 0` and `boxMin.x - origin.x`
overflows to `-inf`, so `t1.x` is NaN and so is `t_near`. And on a button
release `mouseButtonCallback` makes no call of `setModelSelected` although the
ray hits the enlarged box. -/
theorem inside_origin_misses :
    wideBoxMin.allLe wideBoxMax ∧ wideBoxMin.allLe farXPoint ∧ farXPoint.allLe wideBoxMax ∧
    rayAABBIntersectWorld ieeeOps ieeeDiv farXPoint infXDir wideBoxMin wideBoxMax = false ∧
    rayAABBIntersectWorld ieeeOps ieeeDiv releaseClick.rayOrigin releaseClick.worldRay
      (expandedMin ieeeOps (releaseClick.boxMin ieeeOps))
      (expandedMax ieeeOps (releaseClick.boxMax ieeeOps)) = true ∧
    mouseButtonCallback ieeeOps ieeeDiv releaseClick = none := by
  decide

/-- C21 (as amended): in binary32 round-to-nearest arithmetic, for every ray
and every box of binary32 values with `boxMin <= boxMax` componentwise,
(1) if `rayAABBIntersectWorld` returns true for `(boxMin, boxMax)` it returns
true for `(boxMin - 2, boxMax + 2)`; (2) on a left-button press in editor mode
that ImGui does not capture, `mouseButtonCallback` calls `setModelSelected`
with exactly the result of the test against the box enlarged by 2; (3) if the
origin and the direction are finite and the origin lies in the box, the test
returns true. -/
theorem picking_enlarged_box (origin dir boxMin boxMax : Vec3)
    (ho : origin.isValue = true) (hmin : boxMin.isValue = true) (hmax : boxMax.isValue = true)
    (hle : boxMin.allLe boxMax) :
    (rayAABBIntersectWorld ieeeOps ieeeDiv origin dir boxMin boxMax = true →
      rayAABBIntersectWorld ieeeOps ieeeDiv origin dir
        (expandedMin ieeeOps boxMin) (expandedMax ieeeOps boxMax) = true) ∧
    (∀ c : ClickInput, c.isLeftButton = true → c.isPress = true →
      c.editorModeActive = true → c.wantCaptureMouse = false →
      c.rayOrigin = origin → c.worldRay = dir →
      c.boxMin ieeeOps = boxMin → c.boxMax ieeeOps = boxMax →
      mouseButtonCallback ieeeOps ieeeDiv c =
        some (rayAABBIntersectWorld ieeeOps ieeeDiv origin dir
          (expandedMin ieeeOps boxMin) (expandedMax ieeeOps boxMax))) ∧
    (origin.isFinite = true → dir.isFinite = true → boxMin.allLe origin →
      origin.allLe boxMax →
      rayAABBIntersectWorld ieeeOps ieeeDiv origin dir boxMin boxMax = true) := by
  refine ⟨hit_enlarged origin dir boxMin boxMax ho hmin hmax hle, ?_,
    fun h1 h2 h3 h4 => hit_inside origin dir boxMin boxMax h1 h2 h3 h4⟩
  intro c g1 g2 g3 g4 e1 e2 e3 e4
  unfold mouseButtonCallback
  rw [g1, g2, g3, g4, e1, e2, e3, e4]
  by_cases h : rayAABBIntersectWorld ieeeOps ieeeDiv origin dir boxMin boxMax = true
  · simp [h, hit_enlarged origin dir boxMin boxMax ho hmin hmax hle h]
  · cases hh : rayAABBIntersectWorld ieeeOps ieeeDiv origin dir
      (expandedMin ieeeOps boxMin) (expandedMax ieeeOps boxMax) <;> simp [h]

set_option maxRecDepth 8000 in
/-- Witness for C21 (as amended): the ray from `(0.5, 0.5, 0)` along `(1, 0, 0)`
starts inside the unit cube; it hits the cube and the enlarged cube, and the
click selects the model. -/
theorem picking_enlarged_box_witness :
    cubeClick.rayOrigin.isValue = true ∧ originPoint.allLe (Vec3.splat F32.one) ∧
    originPoint.allLe cubeClick.rayOrigin ∧ cubeClick.rayOrigin.allLe (Vec3.splat F32.one) ∧
    rayAABBIntersectWorld ieeeOps ieeeDiv cubeClick.rayOrigin unitXPoint
      originPoint (Vec3.splat F32.one) = true ∧
    rayAABBIntersectWorld ieeeOps ieeeDiv cubeClick.rayOrigin unitXPoint
      (expandedMin ieeeOps originPoint) (expandedMax ieeeOps (Vec3.splat F32.one)) = true ∧
    mouseButtonCallback ieeeOps ieeeDiv cubeClick = some true :=
  have t := picking_enlarged_box cubeClick.rayOrigin unitXPoint originPoint (Vec3.splat F32.one)
    (by decide) (by decide) (by decide) (by decide)
  have h := t.2.2 (by decide) (by decide) (by decide) (by decide)
  ⟨by decide, by decide, by decide, by decide, h, t.1 h,
    (t.2.1 cubeClick rfl rfl rfl rfl rfl rfl (by decide) (by decide)).trans
      (congrArg some (t.1 h))⟩

end EditorTry
